import Mathlib

/-!
# The transport registry of `libntirpc/src/svc_xprt.c`

A shallow embedding of the descriptor-indexed transport registry
(`svc_xprt_init`, `svc_xprt_get`, `svc_xprt_set`, `svc_xprt_clear`,
`svc_xprt_foreach`, `svc_xprt_shutdown`) and the properties the
specification states about it.

The file-scope statics `initialized` and `svc_xprt_fd` become an explicit
`Registry` value that every operation takes and returns.  An operation that
dereferences partition storage which is not there (never allocated, or
released by `svc_xprt_shutdown`) has no defined result and returns `none`.
The visitor passed to `svc_xprt_foreach` is a function that, besides its
verdict, yields the registry operations it performs while it runs; this is
also how churn by other threads between two visits is represented.

The last two parts embed the error translation and the handle operations of
the RGW back end (`FSAL/FSAL_RGW/internal.c`, `FSAL/FSAL_RGW/handle.c`) and the
handle operations of the stacking FSAL
(`FSAL/Stackable_FSALs/FSAL_NULL/handle.c`).  Calls into the RGW library, the
sub-FSAL and the upper layer are parameters that give what the call returns.
-/

set_option linter.unusedVariables false

namespace Ganesha

/-! ## Handles and the per-partition ordered index -/

/-- The fields of `struct rpc_svcxprt` the registry reads: the socket
descriptor `xp_fd` (a C `int`) and the identity of the object (its address),
which tells apart two handles that carry the same descriptor. -/
structure rpc_svcxprt where
  xp_fd : Int
  xp_id : Nat
deriving DecidableEq, Repr

abbrev SVCXPRT := rpc_svcxprt

/-- `#define SVC_XPRT_PARTITIONS 7` -/
def SVC_XPRT_PARTITIONS : Nat := 7

/-- Range of a C `int`. -/
def INT_MIN : Int := -2147483648

/-- Range of a C `int`. -/
def INT_MAX : Int := 2147483647

/-- A descriptor that fits a C `int`. -/
def int_range (k : Int) : Prop := INT_MIN ≤ k ∧ k ≤ INT_MAX

instance (k : Int) : Decidable (int_range k) := by
  unfold int_range; infer_instance

/-- Visitor verdicts of `svc_xprt.h` (the header is not among the sources;
only that the two values differ matters). -/
def SVC_XPRT_FOREACH_NONE : Nat := 0

/-- Visitor verdict "the visitor disposed of the handle". -/
def SVC_XPRT_FOREACH_CLEAR : Nat := 1

/-- `svc_xprt_fd_cmpf` (lines 69-85): three-way comparison of two handles by
descriptor. -/
def svc_xprt_fd_cmpf (lk rk : SVCXPRT) : Int :=
  if lk.xp_fd < rk.xp_fd then -1
  else if lk.xp_fd = rk.xp_fd then 0
  else 1

/-- Modelled from the spec: `struct opr_rbtree` (rbtree.h is not among the
sources).  "An ordered index mapping descriptor → handle (keys unique), and a
monotonically increasing generation counter incremented on every structural
mutation".  The index is kept as the in-order sequence of its linked nodes. -/
structure opr_rbtree where
  nodes : List SVCXPRT
  gen : Nat
deriving DecidableEq, Repr

/-- Modelled from the spec: `opr_rbtree_init`, an empty index with
generation zero. -/
def opr_rbtree_init : opr_rbtree := ⟨[], 0⟩

/-- Descent of `opr_rbtree_insert` through the in-order sequence with
`svc_xprt_fd_cmpf`: the node that compares equal, if there is one, else the
sequence with `node` linked at its place. -/
def insert_nodes (node : SVCXPRT) : List SVCXPRT → Option SVCXPRT × List SVCXPRT
  | [] => (none, [node])
  | p :: rest =>
    if svc_xprt_fd_cmpf node p = 0 then (some p, p :: rest)
    else if svc_xprt_fd_cmpf node p < 0 then (none, node :: p :: rest)
    else ((insert_nodes node rest).1, p :: (insert_nodes node rest).2)

/-- Modelled from the spec: `opr_rbtree_insert` (rbtree.c is not among the
sources).  "If the key already exists, insertion is rejected and the
pre-existing handle is returned instead of replacing it"; otherwise the node is
linked, the generation is incremented and NULL is returned. -/
def opr_rbtree_insert (head : opr_rbtree) (node : SVCXPRT) : Option SVCXPRT × opr_rbtree :=
  match (insert_nodes node head.nodes).1 with
  | some p => (some p, head)
  | none => (none, ⟨(insert_nodes node head.nodes).2, head.gen + 1⟩)

/-- Modelled from the spec: `opr_rbtree_lookup`, the linked node that compares
equal to the search key `qnode`, or NULL. -/
def opr_rbtree_lookup (head : opr_rbtree) (qnode : SVCXPRT) : Option SVCXPRT :=
  head.nodes.find? (fun p => decide (svc_xprt_fd_cmpf qnode p = 0))

/-- Modelled from the spec: `opr_rbtree_remove`, unlink `node` and increment
the generation (a structural mutation). -/
def opr_rbtree_remove (head : opr_rbtree) (node : SVCXPRT) : opr_rbtree :=
  ⟨head.nodes.erase node, head.gen + 1⟩

/-- Modelled from the spec: `opr_rbtree_first`, the first entry of the ordered
index, or NULL. -/
def opr_rbtree_first (head : opr_rbtree) : Option SVCXPRT := head.nodes.head?

/-- Successor of `n` in an in-order sequence. -/
def next_in (n : SVCXPRT) : List SVCXPRT → Option SVCXPRT
  | [] => none
  | p :: rest => if p = n then rest.head? else next_in n rest

/-- Modelled from the spec: `opr_rbtree_next`, the in-order successor of a
linked node, or NULL at the end ("advance the cursor to the next entry"). -/
def opr_rbtree_next (head : opr_rbtree) (n : SVCXPRT) : Option SVCXPRT :=
  next_in n head.nodes

/-! ## The partition table -/

/-- A partition (`struct rbtree_x_part`): its index.  The partition lock does
not change what a single thread computes and is left out. -/
structure rbtree_x_part where
  t : opr_rbtree
deriving DecidableEq, Repr

/-- The partition table (`struct rbtree_x`).  `tree = none` stands for
partition storage that is not there: NULL before `rbtx_init`, released after
`svc_xprt_shutdown`. -/
structure rbtree_x where
  npart : Nat
  tree : Option (List rbtree_x_part)
deriving DecidableEq, Repr

/-- The file-scope statics of svc_xprt.c: `initialized` and `svc_xprt_fd.xt`. -/
structure Registry where
  initialized : Bool
  xt : rbtree_x
deriving DecidableEq, Repr

/-- The static initializer of lines 52-67: not initialized, `npart = 0`,
`tree = NULL`. -/
def svc_xprt_fd : Registry := ⟨false, ⟨0, none⟩⟩

/-- Modelled from the spec: `rbtx_init` (rbtree_x.c is not among the sources).
"Performs one-time allocation of N partitions, each with an empty index and a
fresh lock"; returns code 0. -/
def rbtx_init (npart : Nat) : Int × rbtree_x :=
  (0, ⟨npart, some (List.replicate npart ⟨opr_rbtree_init⟩)⟩)

/-- Modelled from the spec: `rbtx_idx_of_scalar`, "a fixed, stable
hash/modulo function": the descriptor, read as an unsigned 32-bit value,
modulo the number of partitions. -/
def rbtx_idx_of_scalar (xt : rbtree_x) (k : Int) : Nat :=
  (k % 4294967296).toNat % xt.npart

/-- The partition `&xt->tree[ix]`, when the storage and the slot exist. -/
def rbtx_partition_of_ix (xt : rbtree_x) (ix : Nat) : Option rbtree_x_part :=
  xt.tree.bind (fun tr => tr[ix]?)

/-- `rbtx_partition_of_scalar`: index and partition selected for `k`. -/
def rbtx_partition_of_scalar (xt : rbtree_x) (k : Int) : Option (Nat × rbtree_x_part) :=
  (rbtx_partition_of_ix xt (rbtx_idx_of_scalar xt k)).map
    (fun t => (rbtx_idx_of_scalar xt k, t))

/-- Write back partition `ix` after it was changed in place. -/
def store_partition (r : Registry) (ix : Nat) (t : rbtree_x_part) : Registry :=
  ⟨r.initialized, ⟨r.xt.npart, r.xt.tree.map (fun tr => tr.set ix t)⟩⟩

/-- Modelled from the spec: `opr_rbtree_node_valid`, the handle's "membership
marker (linked/unlinked)": true exactly while the node is linked in an index. -/
def opr_rbtree_node_valid (r : Registry) (n : SVCXPRT) : Bool :=
  match r.xt.tree with
  | none => false
  | some tr => tr.any (fun p => decide (n ∈ p.t.nodes))

/-! ## The registry operations -/

/-- `svc_xprt_init` (lines 87-109): nothing when already initialized; else
`rbtx_init` with `SVC_XPRT_PARTITIONS`, and `initialized = true` whatever
code it returned. -/
def svc_xprt_init (r : Registry) : Registry :=
  if r.initialized then r
  else ⟨true, (rbtx_init SVC_XPRT_PARTITIONS).2⟩

/-- `cond_init_svc_xprt()` (lines 111-116). -/
def cond_init_svc_xprt (r : Registry) : Registry :=
  if !r.initialized then svc_xprt_init r else r

/-- `svc_xprt_get` (lines 118-140): the handle found under `fd` in the
partition selected for `fd` (or NULL), and the registry after the lazy
initialization. -/
def svc_xprt_get (fd : Int) (r : Registry) : Option (Option SVCXPRT × Registry) :=
  let r := cond_init_svc_xprt r
  let sk : SVCXPRT := ⟨fd, 0⟩
  match rbtx_partition_of_scalar r.xt fd with
  | none => none
  | some (_, t) => some (opr_rbtree_lookup t.t sk, r)

/-- `svc_xprt_set` (lines 142-173): insert `xprt` into the partition selected
for its descriptor; returns the colliding handle, or NULL when `xprt` was
linked.  `flags` only says which of the handle's own lock operations are
done here. -/
def svc_xprt_set (xprt : SVCXPRT) (flags : Nat) (r : Registry) :
    Option (Option SVCXPRT × Registry) :=
  let r := cond_init_svc_xprt r
  match rbtx_partition_of_scalar r.xt xprt.xp_fd with
  | none => none
  | some (ix, t) =>
    some ((opr_rbtree_insert t.t xprt).1,
          store_partition r ix ⟨(opr_rbtree_insert t.t xprt).2⟩)

/-- `svc_xprt_clear` (lines 183-203): when the handle's node is valid, remove
it from the partition selected for its descriptor; else nothing. -/
def svc_xprt_clear (xprt : SVCXPRT) (flags : Nat) (r : Registry) : Option Registry :=
  let r := cond_init_svc_xprt r
  if opr_rbtree_node_valid r xprt then
    match rbtx_partition_of_scalar r.xt xprt.xp_fd with
    | none => none
    | some (ix, t) => some (store_partition r ix ⟨opr_rbtree_remove t.t xprt⟩)
  else some r

/-- A registry call made by a visitor (or by another thread between two
visits). -/
inductive reg_op where
  | set (xprt : SVCXPRT) (flags : Nat)
  | clear (xprt : SVCXPRT) (flags : Nat)
deriving DecidableEq, Repr

/-- The handle a registry call is about. -/
def reg_op.xprt : reg_op → SVCXPRT
  | .set x _ => x
  | .clear x _ => x

/-- Perform one registry call. -/
def reg_op.run : reg_op → Registry → Option Registry
  | .set x f, r => (svc_xprt_set x f r).map Prod.snd
  | .clear x f, r => svc_xprt_clear x f r

/-- Perform registry calls in order. -/
def run_ops : List reg_op → Registry → Option Registry
  | [], r => some r
  | op :: ops, r => (op.run r).bind (run_ops ops)

/-! ## Enumeration -/

/-- What one visitor invocation `each_f(xprt, arg)` does: its verdict, the
registry calls made while it ran, and its updated private data. -/
structure each_result (σ : Type) where
  rflag : Nat
  ops : List reg_op
  arg : σ

/-- `svc_xprt_each_func_t`: the visitor sees the handle, its private data and
(through the registry API) the registry. -/
abbrev svc_xprt_each_func_t (σ : Type) := SVCXPRT → σ → Registry → each_result σ

/-- Record of one visitor invocation: the handle passed, the verdict, and the
registry at the moment the visitor returned. -/
structure each_call where
  xprt : SVCXPRT
  rflag : Nat
  after : Registry
deriving DecidableEq, Repr

/-- Control points of `svc_xprt_foreach`: the test of the outer `while`
(line 222), the label `restart` (line 229) and the test of the inner
`while` (line 238) with the locals live there. -/
inductive foreach_pc where
  | part (p_ix : Nat)
  | restart (p_ix restarts : Nat)
  | node (p_ix restarts tgen : Nat) (n : Option SVCXPRT)
deriving DecidableEq, Repr

/-- Machine state of a running `svc_xprt_foreach`. -/
structure foreach_state (σ : Type) where
  pc : foreach_pc
  reg : Registry
  arg : σ
  calls : List each_call

/-- What `svc_xprt_foreach` leaves behind: the value returned, the registry,
the visitor's data and the visitor invocations made, in order. -/
structure foreach_result (σ : Type) where
  code : Int
  reg : Registry
  arg : σ
  calls : List each_call

/-- One transition of `svc_xprt_foreach` (lines 222-270) from a control point
to the next one, or to the `return`. -/
def foreach_step {σ : Type} (each_f : svc_xprt_each_func_t σ) (c : foreach_state σ) :
    Option (foreach_state σ ⊕ foreach_result σ) :=
  match c.pc with
  | .part p_ix =>
    -- while (p_ix < SVC_XPRT_PARTITIONS) { t = ...; restarts = 0; restart: ... } return (0);
    if p_ix < SVC_XPRT_PARTITIONS then
      some (.inl ⟨.restart p_ix 0, c.reg, c.arg, c.calls⟩)
    else some (.inr ⟨0, c.reg, c.arg, c.calls⟩)
  | .restart p_ix restarts =>
    -- if (++restarts > 5) return (1);
    if restarts + 1 > 5 then some (.inr ⟨1, c.reg, c.arg, c.calls⟩)
    else
      -- tgen = t->t.gen; n = opr_rbtree_first(&t->t);
      match rbtx_partition_of_ix c.reg.xt p_ix with
      | none => none
      | some t =>
        some (.inl ⟨.node p_ix (restarts + 1) t.t.gen (opr_rbtree_first t.t),
                    c.reg, c.arg, c.calls⟩)
  | .node p_ix restarts tgen none =>
    -- inner loop left: p_ix++
    some (.inl ⟨.part (p_ix + 1), c.reg, c.arg, c.calls⟩)
  | .node p_ix restarts tgen (some xprt) =>
    -- sk.xp_fd = xprt->xp_fd; rflag = each_f(xprt, arg);
    let sk : SVCXPRT := ⟨xprt.xp_fd, 0⟩
    let r := each_f xprt c.arg c.reg
    match run_ops r.ops c.reg with
    | none => none
    | some reg =>
      let calls := c.calls ++ [⟨xprt, r.rflag, reg⟩]
      if r.rflag = SVC_XPRT_FOREACH_CLEAR then
        some (.inl ⟨.restart p_ix restarts, reg, r.arg, calls⟩)
      else
        match rbtx_partition_of_ix reg.xt p_ix with
        | none => none
        | some t =>
          if tgen ≠ t.t.gen then
            match opr_rbtree_lookup t.t sk with
            | none => some (.inl ⟨.restart p_ix restarts, reg, r.arg, calls⟩)
            | some n =>
              some (.inl ⟨.node p_ix restarts tgen (opr_rbtree_next t.t n), reg, r.arg, calls⟩)
          else
            some (.inl ⟨.node p_ix restarts tgen (opr_rbtree_next t.t xprt), reg, r.arg, calls⟩)

/-- Run the transitions until the `return`, at most `fuel` of them. -/
def foreach_run {σ : Type} (each_f : svc_xprt_each_func_t σ) :
    Nat → foreach_state σ → Option (foreach_result σ)
  | 0, _ => none
  | fuel + 1, c =>
    match foreach_step each_f c with
    | none => none
    | some (.inl c') => foreach_run each_f fuel c'
    | some (.inr r) => some r

/-- `svc_xprt_foreach` (lines 205-271): lazy initialization, then the sweep
from `p_ix = 0`.  `none` when `fuel` transitions do not reach the `return`
or missing partition storage is dereferenced. -/
def svc_xprt_foreach {σ : Type} (fuel : Nat) (each_f : svc_xprt_each_func_t σ) (arg : σ)
    (r : Registry) : Option (foreach_result σ) :=
  foreach_run each_f fuel ⟨.part 0, cond_init_svc_xprt r, arg, []⟩

/-! ## Shutdown -/

/-- Record of one `SVC_DESTROY(xprt)` made by `svc_xprt_shutdown`: the handle,
and the index of its partition at the moment of the call. -/
structure destroy_call where
  xprt : SVCXPRT
  t : opr_rbtree
deriving DecidableEq, Repr

/-- Inner loop of `svc_xprt_shutdown` (lines 322-332) on one partition: take
the successor first, then unlink the handle and destroy it. -/
def shutdown_loop : Nat → Option SVCXPRT → opr_rbtree → List destroy_call →
    Option (opr_rbtree × List destroy_call)
  | 0, _, _, _ => none
  | _ + 1, none, t, destroyed => some (t, destroyed)
  | fuel + 1, some xprt, t, destroyed =>
    shutdown_loop fuel (opr_rbtree_next t xprt) (opr_rbtree_remove t xprt)
      (destroyed ++ [⟨xprt, opr_rbtree_remove t xprt⟩])

/-- Outer loop of `svc_xprt_shutdown` (lines 317-336) over the partitions in
index order; yields the drained partitions and the handles destroyed. -/
def shutdown_parts (fuel : Nat) : List rbtree_x_part → List destroy_call →
    Option (List rbtree_x_part × List destroy_call)
  | [], destroyed => some ([], destroyed)
  | t :: rest, destroyed =>
    match shutdown_loop fuel (opr_rbtree_first t.t) t.t destroyed with
    | none => none
    | some (t', destroyed') =>
      match shutdown_parts fuel rest destroyed' with
      | none => none
      | some (rest', destroyed'') => some (⟨t'⟩ :: rest', destroyed'')

/-- What `svc_xprt_shutdown` leaves behind: the registry, the partitions as
they were when their storage was released, and the calls of `SVC_DESTROY`, in
order. -/
structure shutdown_result where
  reg : Registry
  drained : List rbtree_x_part
  destroyed : List destroy_call
deriving DecidableEq, Repr

/-- `svc_xprt_shutdown` (lines 305-341): nothing when not initialized; else
drain the `SVC_XPRT_PARTITIONS` partitions and release their storage.
`initialized` is not written. -/
def svc_xprt_shutdown (fuel : Nat) (r : Registry) : Option shutdown_result :=
  if !r.initialized then some ⟨r, [], []⟩
  else
    match r.xt.tree with
    | none => none
    | some tr =>
      if tr.length < SVC_XPRT_PARTITIONS then none
      else
        match shutdown_parts fuel (tr.take SVC_XPRT_PARTITIONS) [] with
        | none => none
        | some (drained, destroyed) =>
          some ⟨⟨r.initialized, ⟨r.xt.npart, none⟩⟩, drained, destroyed⟩

/-! ## The ordered index: facts about the in-order sequence -/

/-- An in-order sequence: descriptors strictly increase. -/
def fd_sorted (l : List SVCXPRT) : Prop := l.Pairwise (fun a b => a.xp_fd < b.xp_fd)

instance (l : List SVCXPRT) : Decidable (fd_sorted l) := by
  unfold fd_sorted; infer_instance

/-- Search of an in-order sequence by descriptor. -/
def lookup_nodes (k : Int) (l : List SVCXPRT) : Option SVCXPRT :=
  l.find? (fun p => decide (svc_xprt_fd_cmpf ⟨k, 0⟩ p = 0))

theorem cmpf_eq_zero (a b : SVCXPRT) : svc_xprt_fd_cmpf a b = 0 ↔ a.xp_fd = b.xp_fd := by
  unfold svc_xprt_fd_cmpf
  by_cases h1 : a.xp_fd < b.xp_fd
  · have : a.xp_fd ≠ b.xp_fd := by omega
    simp [h1, this]
  · by_cases h2 : a.xp_fd = b.xp_fd <;> simp [h1, h2]

theorem cmpf_neg (a b : SVCXPRT) : svc_xprt_fd_cmpf a b < 0 ↔ a.xp_fd < b.xp_fd := by
  unfold svc_xprt_fd_cmpf
  by_cases h1 : a.xp_fd < b.xp_fd
  · simp [h1]
  · by_cases h2 : a.xp_fd = b.xp_fd <;> simp [h1, h2]

theorem lookup_eq (t : opr_rbtree) (q : SVCXPRT) :
    opr_rbtree_lookup t q = lookup_nodes q.xp_fd t.nodes := by
  unfold opr_rbtree_lookup lookup_nodes
  congr 1

theorem lookup_nodes_nil (k : Int) : lookup_nodes k [] = none := rfl

theorem lookup_nodes_cons (k : Int) (p : SVCXPRT) (l : List SVCXPRT) :
    lookup_nodes k (p :: l) = if k = p.xp_fd then some p else lookup_nodes k l := by
  unfold lookup_nodes
  by_cases h : k = p.xp_fd <;> simp [List.find?_cons, cmpf_eq_zero, h]

theorem lookup_nodes_none {k : Int} {l : List SVCXPRT} :
    lookup_nodes k l = none ↔ ∀ y ∈ l, y.xp_fd ≠ k := by
  induction l with
  | nil => simp [lookup_nodes_nil]
  | cons p l ih =>
    rw [lookup_nodes_cons]
    by_cases h : k = p.xp_fd
    · simp [h]
    · simp [h, ih]; exact fun _ => Ne.symm h

theorem lookup_nodes_mem {k : Int} {l : List SVCXPRT} {y : SVCXPRT}
    (h : lookup_nodes k l = some y) : y ∈ l ∧ y.xp_fd = k := by
  induction l with
  | nil => simp [lookup_nodes_nil] at h
  | cons p l ih =>
    rw [lookup_nodes_cons] at h
    by_cases hk : k = p.xp_fd
    · simp [hk] at h; subst h; simp [hk]
    · simp [hk] at h; have := ih h; simp [this]

theorem lookup_nodes_some {k : Int} {l : List SVCXPRT} {y : SVCXPRT} (hs : fd_sorted l) :
    lookup_nodes k l = some y ↔ y ∈ l ∧ y.xp_fd = k := by
  constructor
  · exact lookup_nodes_mem
  · rintro ⟨hy, hk⟩
    induction l with
    | nil => simp at hy
    | cons p l ih =>
      rw [lookup_nodes_cons]
      unfold fd_sorted at hs
      rw [List.pairwise_cons] at hs
      rcases List.mem_cons.mp hy with rfl | hy
      · simp [hk]
      · have := hs.1 y hy
        have hne : k ≠ p.xp_fd := by omega
        simp [hne]; exact ih hs.2 hy

theorem fd_sorted_nodup {l : List SVCXPRT} (hs : fd_sorted l) : l.Nodup := by
  unfold fd_sorted at hs
  exact hs.imp (fun {a b} h hab => by subst hab; exact lt_irrefl _ h)

theorem fd_sorted_fd_nodup {l : List SVCXPRT} (hs : fd_sorted l) :
    (l.map rpc_svcxprt.xp_fd).Nodup := by
  unfold fd_sorted at hs
  rw [List.Nodup, List.pairwise_map]
  exact hs.imp (fun {a b} h => ne_of_lt h)

theorem fd_sorted_erase {l : List SVCXPRT} (x : SVCXPRT) (hs : fd_sorted l) :
    fd_sorted (l.erase x) :=
  List.Pairwise.sublist (List.erase_sublist x l) hs

theorem insert_fst {x : SVCXPRT} {l : List SVCXPRT} (hs : fd_sorted l) :
    (insert_nodes x l).1 = lookup_nodes x.xp_fd l := by
  induction l with
  | nil => rfl
  | cons p l ih =>
    unfold fd_sorted at hs
    rw [List.pairwise_cons] at hs
    rw [lookup_nodes_cons]
    unfold insert_nodes
    by_cases h0 : x.xp_fd = p.xp_fd
    · simp [cmpf_eq_zero, h0]
    · by_cases h1 : x.xp_fd < p.xp_fd
      · simp only [cmpf_eq_zero, h0, cmpf_neg, h1, if_true, if_false]
        symm
        rw [lookup_nodes_none]
        intro y hy
        have := hs.1 y hy
        omega
      · simp only [cmpf_eq_zero, h0, cmpf_neg, h1, if_false]
        exact ih hs.2

theorem insert_mem {x y : SVCXPRT} {l : List SVCXPRT} (h : (insert_nodes x l).1 = none) :
    y ∈ (insert_nodes x l).2 ↔ y = x ∨ y ∈ l := by
  induction l with
  | nil => simp [insert_nodes]
  | cons p l ih =>
    unfold insert_nodes at h ⊢
    by_cases h0 : svc_xprt_fd_cmpf x p = 0
    · simp [h0] at h
    · by_cases h1 : svc_xprt_fd_cmpf x p < 0
      · simp [h0, h1]
      · simp only [h0, h1, if_false] at h ⊢
        simp only [List.mem_cons, ih h]
        tauto

theorem insert_sorted {x : SVCXPRT} {l : List SVCXPRT} (hs : fd_sorted l)
    (h : (insert_nodes x l).1 = none) : fd_sorted (insert_nodes x l).2 := by
  induction l with
  | nil => simp [insert_nodes, fd_sorted]
  | cons p l ih =>
    have hs' := hs
    unfold fd_sorted at hs
    rw [List.pairwise_cons] at hs
    unfold insert_nodes at h ⊢
    by_cases h0 : svc_xprt_fd_cmpf x p = 0
    · simp [h0] at h
    · by_cases h1 : svc_xprt_fd_cmpf x p < 0
      · simp only [h0, h1, if_true, if_false]
        unfold fd_sorted
        rw [List.pairwise_cons]
        refine ⟨?_, hs'⟩
        intro y hy
        rw [cmpf_neg] at h1
        rcases List.mem_cons.mp hy with rfl | hy
        · exact h1
        · have := hs.1 y hy; omega
      · simp only [h0, h1, if_false] at h ⊢
        unfold fd_sorted
        rw [List.pairwise_cons]
        refine ⟨?_, ih hs.2 h⟩
        intro y hy
        rw [insert_mem h] at hy
        rw [cmpf_neg] at h1
        rw [cmpf_eq_zero] at h0
        rcases hy with rfl | hy
        · omega
        · exact hs.1 y hy

theorem insert_snd_of_some {x g : SVCXPRT} {l : List SVCXPRT}
    (h : (insert_nodes x l).1 = some g) : (insert_nodes x l).2 = l := by
  induction l with
  | nil => simp [insert_nodes] at h
  | cons p l ih =>
    unfold insert_nodes at h ⊢
    by_cases h0 : svc_xprt_fd_cmpf x p = 0
    · simp [h0]
    · by_cases h1 : svc_xprt_fd_cmpf x p < 0
      · simp [h0, h1] at h
      · simp only [h0, h1, if_false] at h ⊢
        rw [ih h]

theorem head_mem_min {l : List SVCXPRT} {m : SVCXPRT} (hs : fd_sorted l)
    (h : l.head? = some m) : m ∈ l ∧ ∀ y ∈ l, m.xp_fd ≤ y.xp_fd := by
  cases l with
  | nil => simp at h
  | cons p l =>
    simp at h; subst h
    unfold fd_sorted at hs
    rw [List.pairwise_cons] at hs
    refine ⟨by simp, ?_⟩
    intro y hy
    rcases List.mem_cons.mp hy with rfl | hy
    · exact le_refl _
    · exact le_of_lt (hs.1 y hy)

theorem next_in_mem {l : List SVCXPRT} {n m : SVCXPRT} (h : next_in n l = some m) : n ∈ l := by
  induction l with
  | nil => simp [next_in] at h
  | cons p l ih =>
    unfold next_in at h
    by_cases hp : p = n
    · simp [hp]
    · simp only [hp, if_false] at h
      exact List.mem_cons_of_mem _ (ih h)

theorem next_in_some {l : List SVCXPRT} {n m : SVCXPRT} (hs : fd_sorted l)
    (h : next_in n l = some m) :
    m ∈ l ∧ n.xp_fd < m.xp_fd ∧ ∀ y ∈ l, n.xp_fd < y.xp_fd → m.xp_fd ≤ y.xp_fd := by
  induction l with
  | nil => simp [next_in] at h
  | cons p l ih =>
    have hs' := hs
    unfold fd_sorted at hs
    rw [List.pairwise_cons] at hs
    unfold next_in at h
    by_cases hp : p = n
    · simp only [hp, if_true] at h
      subst hp
      have hm := head_mem_min hs.2 h
      refine ⟨List.mem_cons_of_mem _ hm.1, hs.1 m hm.1, ?_⟩
      intro y hy hlt
      rcases List.mem_cons.mp hy with rfl | hy
      · exact absurd hlt (lt_irrefl _)
      · exact hm.2 y hy
    · simp only [hp, if_false] at h
      have := ih hs.2 h
      refine ⟨List.mem_cons_of_mem _ this.1, this.2.1, ?_⟩
      intro y hy hlt
      rcases List.mem_cons.mp hy with rfl | hy
      · have := hs.1 n (next_in_mem h); omega
      · exact this.2.2 y hy hlt

theorem next_in_none {l : List SVCXPRT} {n : SVCXPRT} (hs : fd_sorted l) (hn : n ∈ l)
    (h : next_in n l = none) : ∀ y ∈ l, y.xp_fd ≤ n.xp_fd := by
  induction l with
  | nil => simp at hn
  | cons p l ih =>
    unfold fd_sorted at hs
    rw [List.pairwise_cons] at hs
    unfold next_in at h
    by_cases hp : p = n
    · simp only [hp, if_true] at h
      subst hp
      have : l = [] := by
        cases l with
        | nil => rfl
        | cons q l => simp at h
      subst this
      intro y hy
      simp at hy; subst hy; exact le_refl _
    · simp only [hp, if_false] at h
      have hn' : n ∈ l := by
        rcases List.mem_cons.mp hn with rfl | hn
        · exact absurd rfl hp
        · exact hn
      intro y hy
      rcases List.mem_cons.mp hy with rfl | hy
      · exact le_of_lt (hs.1 n hn')
      · exact ih hs.2 hn' h y hy

/-! ## Well-formed registries -/

/-- The partition index of a descriptor in an initialized registry. -/
def home (k : Int) : Nat := (k % 4294967296).toNat % SVC_XPRT_PARTITIONS

theorem home_lt (k : Int) : home k < SVC_XPRT_PARTITIONS := by
  unfold home SVC_XPRT_PARTITIONS
  exact Nat.mod_lt _ (by decide)

/-- Partition `i` is well formed: in order, and every linked handle belongs
to partition `i`. -/
def part_ok (i : Nat) (p : rbtree_x_part) : Prop :=
  fd_sorted p.t.nodes ∧ ∀ x ∈ p.t.nodes, home x.xp_fd = i

/-- A live, well-formed registry: initialized, `SVC_XPRT_PARTITIONS`
partitions allocated, each of them well formed. -/
def Inv (r : Registry) : Prop :=
  r.initialized = true ∧ r.xt.npart = SVC_XPRT_PARTITIONS ∧
  ∃ tr, r.xt.tree = some tr ∧ tr.length = SVC_XPRT_PARTITIONS ∧
    ∀ i p, tr[i]? = some p → part_ok i p

/-- Partition `i` of the registry (an empty one where there is none). -/
def part_at (r : Registry) (i : Nat) : rbtree_x_part :=
  (rbtx_partition_of_ix r.xt i).getD ⟨opr_rbtree_init⟩

/-- The handles linked in partition `i`, in order. -/
def nodes_at (r : Registry) (i : Nat) : List SVCXPRT := (part_at r i).t.nodes

/-- The generation counter of partition `i`. -/
def gen_at (r : Registry) (i : Nat) : Nat := (part_at r i).t.gen

theorem cond_init_of_inv {r : Registry} (h : Inv r) : cond_init_svc_xprt r = r := by
  unfold cond_init_svc_xprt
  simp [h.1]

theorem inv_init : Inv (svc_xprt_init svc_xprt_fd) := by
  refine ⟨rfl, rfl, _, rfl, rfl, ?_⟩
  intro i p hp
  have hi : i < 7 := by
    by_contra hcon
    have : (List.replicate SVC_XPRT_PARTITIONS (⟨opr_rbtree_init⟩ : rbtree_x_part))[i]? = none := by
      rw [List.getElem?_eq_none_iff]; simp [SVC_XPRT_PARTITIONS]; omega
    rw [this] at hp; cases hp
  have : p = ⟨opr_rbtree_init⟩ := by
    rw [List.getElem?_replicate] at hp
    split at hp
    · exact (Option.some.inj hp).symm
    · cases hp
  subst this
  exact ⟨List.Pairwise.nil, fun x hx => by cases hx⟩

theorem part_some {r : Registry} (h : Inv r) {i : Nat} (hi : i < SVC_XPRT_PARTITIONS) :
    rbtx_partition_of_ix r.xt i = some (part_at r i) ∧ part_ok i (part_at r i) := by
  obtain ⟨_, _, tr, htr, hlen, hok⟩ := h
  have hi' : i < tr.length := by omega
  have h1 : rbtx_partition_of_ix r.xt i = some tr[i] := by
    unfold rbtx_partition_of_ix
    rw [htr]
    simp [List.getElem?_eq_getElem hi']
  have h2 : part_at r i = tr[i] := by
    unfold part_at; rw [h1]; rfl
  rw [h2]
  exact ⟨h1, hok i _ (List.getElem?_eq_getElem hi')⟩

theorem idx_eq {r : Registry} (h : Inv r) (k : Int) : rbtx_idx_of_scalar r.xt k = home k := by
  unfold rbtx_idx_of_scalar home
  rw [h.2.1]

theorem part_of_scalar {r : Registry} (h : Inv r) (k : Int) :
    rbtx_partition_of_scalar r.xt k = some (home k, part_at r (home k)) := by
  unfold rbtx_partition_of_scalar
  rw [idx_eq h, (part_some h (home_lt k)).1]
  rfl

theorem store_spec {r : Registry} (h : Inv r) {i : Nat} (hi : i < SVC_XPRT_PARTITIONS)
    {p : rbtree_x_part} (hp : part_ok i p) :
    Inv (store_partition r i p) ∧ part_at (store_partition r i p) i = p ∧
      ∀ j, j ≠ i → part_at (store_partition r i p) j = part_at r j := by
  obtain ⟨h1, h2, tr, htr, hlen, hok⟩ := h
  have hi' : i < tr.length := by omega
  refine ⟨⟨h1, h2, tr.set i p, ?_, ?_, ?_⟩, ?_, ?_⟩
  · simp [store_partition, htr]
  · simp [hlen]
  · intro j q hq
    rw [List.getElem?_set] at hq
    by_cases hij : i = j
    · subst hij
      simp [hi'] at hq
      subst hq
      exact hp
    · simp [hij] at hq
      exact hok j q hq
  · unfold part_at rbtx_partition_of_ix store_partition
    simp [htr, hi']
  · intro j hj
    unfold part_at rbtx_partition_of_ix store_partition
    simp [htr, List.getElem?_set, Ne.symm hj]

theorem store_same {r : Registry} (h : Inv r) {i : Nat} (hi : i < SVC_XPRT_PARTITIONS) :
    store_partition r i (part_at r i) = r := by
  obtain ⟨h1, h2, tr, htr, hlen, hok⟩ := h
  have hi' : i < tr.length := by omega
  obtain ⟨ini, ⟨np, tree⟩⟩ := r
  simp at htr
  subst htr
  have : part_at ⟨ini, ⟨np, some tr⟩⟩ i = tr[i] := by
    unfold part_at rbtx_partition_of_ix
    simp [List.getElem?_eq_getElem hi']
  rw [this]
  have hset : tr.set i tr[i] = tr := by
    apply List.ext_getElem?
    intro j
    rw [List.getElem?_set]
    by_cases hij : i = j
    · subst hij; simp [hi']
    · simp [hij]
  simp [store_partition, hset]

theorem valid_iff {r : Registry} (h : Inv r) (x : SVCXPRT) :
    opr_rbtree_node_valid r x = true ↔ x ∈ nodes_at r (home x.xp_fd) := by
  have hps := part_some h (home_lt x.xp_fd)
  obtain ⟨_, _, tr, htr, hlen, hok⟩ := h
  unfold opr_rbtree_node_valid
  rw [htr]
  simp only [List.any_eq_true, decide_eq_true_eq]
  constructor
  · rintro ⟨p, hp, hx⟩
    obtain ⟨i, hi, rfl⟩ := List.getElem_of_mem hp
    have hpo := hok i _ (List.getElem?_eq_getElem hi)
    have hh := hpo.2 x hx
    have : part_at r (home x.xp_fd) = tr[i] := by
      unfold part_at rbtx_partition_of_ix
      rw [htr, hh]
      simp [List.getElem?_eq_getElem hi]
    unfold nodes_at
    rw [this]
    exact hx
  · intro hx
    refine ⟨part_at r (home x.xp_fd), ?_, hx⟩
    have := hps.1
    unfold rbtx_partition_of_ix at this
    rw [htr] at this
    simp at this
    exact List.getElem?_mem this

theorem lookup_congr {k : Int} {l l' : List SVCXPRT} (hs : fd_sorted l) (hs' : fd_sorted l')
    (h : ∀ y, y.xp_fd = k → (y ∈ l' ↔ y ∈ l)) : lookup_nodes k l' = lookup_nodes k l := by
  cases hl : lookup_nodes k l with
  | none =>
    rw [lookup_nodes_none] at hl ⊢
    intro y hy hk
    exact hl y ((h y hk).mp hy) hk
  | some y =>
    rw [lookup_nodes_some hs] at hl
    rw [lookup_nodes_some hs']
    exact ⟨(h y hl.2).mpr hl.1, hl.2⟩

theorem lookup_insert {x : SVCXPRT} {l : List SVCXPRT} (hs : fd_sorted l)
    (h : (insert_nodes x l).1 = none) (k : Int) :
    lookup_nodes k (insert_nodes x l).2 = if k = x.xp_fd then some x else lookup_nodes k l := by
  have hs' := insert_sorted hs h
  by_cases hk : k = x.xp_fd
  · simp only [hk, if_true]
    rw [lookup_nodes_some hs', insert_mem h]
    simp
  · simp only [hk, if_false]
    apply lookup_congr hs hs'
    intro y hy
    rw [insert_mem h]
    constructor
    · rintro (rfl | hy')
      · exact absurd hy.symm hk
      · exact hy'
    · exact Or.inr

theorem lookup_erase {x : SVCXPRT} {l : List SVCXPRT} (hs : fd_sorted l) (hx : x ∈ l)
    (k : Int) :
    lookup_nodes k (l.erase x) = if k = x.xp_fd then none else lookup_nodes k l := by
  have hs' := fd_sorted_erase x hs
  have hnd := fd_sorted_nodup hs
  by_cases hk : k = x.xp_fd
  · simp only [hk, if_true]
    rw [lookup_nodes_none]
    intro y hy hfd
    rw [hnd.mem_erase_iff] at hy
    have h1 : lookup_nodes x.xp_fd l = some y := (lookup_nodes_some hs).mpr ⟨hy.2, hfd⟩
    have h2 : lookup_nodes x.xp_fd l = some x := (lookup_nodes_some hs).mpr ⟨hx, rfl⟩
    rw [h1] at h2
    exact hy.1 (Option.some.inj h2)
  · simp only [hk, if_false]
    apply lookup_congr hs hs'
    intro y hy
    rw [hnd.mem_erase_iff]
    constructor
    · exact fun h => h.2
    · intro h
      refine ⟨?_, h⟩
      rintro rfl
      exact hk hy.symm

/-! ## What the registry operations do to a well-formed registry -/

theorem get_spec {r : Registry} (h : Inv r) (fd : Int) :
    svc_xprt_get fd r = some (lookup_nodes fd (nodes_at r (home fd)), r) := by
  unfold svc_xprt_get
  simp only [cond_init_of_inv h, part_of_scalar h, lookup_eq]
  rfl

theorem set_collide {r : Registry} (h : Inv r) {x g : SVCXPRT} (f : Nat)
    (hg : lookup_nodes x.xp_fd (nodes_at r (home x.xp_fd)) = some g) :
    svc_xprt_set x f r = some (some g, r) := by
  have hp := part_some h (home_lt x.xp_fd)
  have hfst : (insert_nodes x (part_at r (home x.xp_fd)).t.nodes).1 = some g := by
    rw [insert_fst hp.2.1]; exact hg
  unfold svc_xprt_set
  simp only [cond_init_of_inv h, part_of_scalar h]
  unfold opr_rbtree_insert
  simp only [hfst]
  rw [store_same h (home_lt _)]

theorem set_fresh {r : Registry} (h : Inv r) {x : SVCXPRT} (f : Nat)
    (hn : lookup_nodes x.xp_fd (nodes_at r (home x.xp_fd)) = none) :
    ∃ r', svc_xprt_set x f r = some (none, r') ∧ Inv r' ∧
      nodes_at r' (home x.xp_fd) = (insert_nodes x (nodes_at r (home x.xp_fd))).2 ∧
      (insert_nodes x (nodes_at r (home x.xp_fd))).1 = none ∧
      gen_at r' (home x.xp_fd) = gen_at r (home x.xp_fd) + 1 ∧
      ∀ j, j ≠ home x.xp_fd → part_at r' j = part_at r j := by
  have hp := part_some h (home_lt x.xp_fd)
  have hfst : (insert_nodes x (part_at r (home x.xp_fd)).t.nodes).1 = none := by
    rw [insert_fst hp.2.1]; exact hn
  have hok : part_ok (home x.xp_fd)
      ⟨⟨(insert_nodes x (part_at r (home x.xp_fd)).t.nodes).2,
        (part_at r (home x.xp_fd)).t.gen + 1⟩⟩ := by
    refine ⟨insert_sorted hp.2.1 hfst, ?_⟩
    intro y hy
    rw [insert_mem hfst] at hy
    rcases hy with rfl | hy
    · rfl
    · exact hp.2.2 y hy
  have hst := store_spec h (home_lt x.xp_fd) hok
  refine ⟨_, ?_, hst.1, ?_, hfst, ?_, hst.2.2⟩
  · unfold svc_xprt_set
    simp only [cond_init_of_inv h, part_of_scalar h]
    unfold opr_rbtree_insert
    simp only [hfst]
  · unfold nodes_at; rw [hst.2.1]
  · unfold gen_at; rw [hst.2.1]

theorem clear_unlinked {r : Registry} (h : Inv r) {x : SVCXPRT} (f : Nat)
    (hx : x ∉ nodes_at r (home x.xp_fd)) : svc_xprt_clear x f r = some r := by
  have hv : opr_rbtree_node_valid r x = false := by
    rw [← Bool.not_eq_true, valid_iff h]; exact hx
  unfold svc_xprt_clear
  simp [cond_init_of_inv h, hv]

theorem clear_linked {r : Registry} (h : Inv r) {x : SVCXPRT} (f : Nat)
    (hx : x ∈ nodes_at r (home x.xp_fd)) :
    ∃ r', svc_xprt_clear x f r = some r' ∧ Inv r' ∧
      nodes_at r' (home x.xp_fd) = (nodes_at r (home x.xp_fd)).erase x ∧
      gen_at r' (home x.xp_fd) = gen_at r (home x.xp_fd) + 1 ∧
      ∀ j, j ≠ home x.xp_fd → part_at r' j = part_at r j := by
  have hp := part_some h (home_lt x.xp_fd)
  have hv : opr_rbtree_node_valid r x = true := (valid_iff h x).mpr hx
  have hok : part_ok (home x.xp_fd) ⟨opr_rbtree_remove (part_at r (home x.xp_fd)).t x⟩ := by
    refine ⟨fd_sorted_erase x hp.2.1, ?_⟩
    intro y hy
    exact hp.2.2 y (List.mem_of_mem_erase hy)
  have hst := store_spec h (home_lt x.xp_fd) hok
  refine ⟨_, ?_, hst.1, ?_, ?_, hst.2.2⟩
  · unfold svc_xprt_clear
    simp only [cond_init_of_inv h, hv, part_of_scalar h, if_true]
  · unfold nodes_at; rw [hst.2.1]; rfl
  · unfold gen_at; rw [hst.2.1]; rfl

/-- The handle registered under descriptor `k`: what the search of `k`s
partition finds. -/
def lk (r : Registry) (k : Int) : Option SVCXPRT := lookup_nodes k (nodes_at r (home k))

theorem sorted_at {r : Registry} (h : Inv r) (k : Int) : fd_sorted (nodes_at r (home k)) :=
  (part_some h (home_lt k)).2.1

theorem sorted_at_ix {r : Registry} (h : Inv r) {i : Nat} (hi : i < SVC_XPRT_PARTITIONS) :
    fd_sorted (nodes_at r i) :=
  (part_some h hi).2.1

theorem home_at {r : Registry} (h : Inv r) {i : Nat} (hi : i < SVC_XPRT_PARTITIONS)
    {x : SVCXPRT} (hx : x ∈ nodes_at r i) : home x.xp_fd = i :=
  (part_some h hi).2.2 x hx

theorem lk_some_iff {r : Registry} (h : Inv r) (x : SVCXPRT) :
    lk r x.xp_fd = some x ↔ x ∈ nodes_at r (home x.xp_fd) := by
  unfold lk
  rw [lookup_nodes_some (sorted_at h _)]
  simp

theorem set_total {r : Registry} (h : Inv r) (x : SVCXPRT) (f : Nat) :
    ∃ r', svc_xprt_set x f r = some (lk r x.xp_fd, r') ∧ Inv r' ∧
      (∀ k, lk r' k = if k = x.xp_fd then some ((lk r x.xp_fd).getD x) else lk r k) ∧
      (∀ g, lk r x.xp_fd = some g → r' = r) := by
  cases hl : lk r x.xp_fd with
  | some g =>
    refine ⟨r, set_collide h f hl, h, ?_, fun _ _ => rfl⟩
    intro k
    by_cases hk : k = x.xp_fd
    · simp [hk, hl]
    · simp [hk]
  | none =>
    obtain ⟨r', h1, h2, h3, h4, h5, h6⟩ := set_fresh h f hl
    refine ⟨r', h1, h2, ?_, fun g hg => by cases hg⟩
    intro k
    have hp := part_some h (home_lt x.xp_fd)
    by_cases hh : home k = home x.xp_fd
    · unfold lk
      rw [hh, h3, lookup_insert (sorted_at h _) h4]
      by_cases hk : k = x.xp_fd <;> simp [hk]
    · have hk : k ≠ x.xp_fd := by rintro rfl; exact hh rfl
      unfold lk nodes_at
      rw [h6 _ hh]
      simp [hk]

theorem clear_total {r : Registry} (h : Inv r) (x : SVCXPRT) (f : Nat) :
    ∃ r', svc_xprt_clear x f r = some r' ∧ Inv r' ∧
      (∀ k, lk r' k = if k = x.xp_fd ∧ lk r k = some x then none else lk r k) ∧
      (lk r x.xp_fd ≠ some x → r' = r) ∧
      opr_rbtree_node_valid r' x = false := by
  by_cases hx : x ∈ nodes_at r (home x.xp_fd)
  · obtain ⟨r', h1, h2, h3, h4, h5⟩ := clear_linked h f hx
    have hp := part_some h (home_lt x.xp_fd)
    refine ⟨r', h1, h2, ?_, ?_, ?_⟩
    · intro k
      by_cases hh : home k = home x.xp_fd
      · unfold lk
        rw [hh, h3, lookup_erase (sorted_at h _) hx]
        by_cases hk : k = x.xp_fd
        · subst hk
          have := (lk_some_iff h x).mpr hx
          unfold lk at this
          simp [this]
        · simp [hk]
      · have hk : k ≠ x.xp_fd := by rintro rfl; exact hh rfl
        unfold lk nodes_at
        rw [h5 _ hh]
        simp [hk]
    · intro hne
      exact absurd ((lk_some_iff h x).mpr hx) hne
    · rw [← Bool.not_eq_true, valid_iff h2, h3]
      exact fun hmem => (fd_sorted_nodup (sorted_at h _)).not_mem_erase hmem
  · refine ⟨r, clear_unlinked h f hx, h, ?_, fun _ => rfl, ?_⟩
    · intro k
      by_cases hk : k = x.xp_fd
      · subst hk
        have : lk r x.xp_fd ≠ some x := fun hc => hx ((lk_some_iff h x).mp hc)
        simp [this]
      · simp [hk]
    · rw [← Bool.not_eq_true, valid_iff h]; exact hx

/-! ## Reachable registries -/

/-- The registry states reachable from the static initial state by
`svc_xprt_init`, `svc_xprt_set` and `svc_xprt_clear`. -/
inductive Reach : Registry → Prop
  | static : Reach svc_xprt_fd
  | init {s : Registry} : Reach s → Reach (svc_xprt_init s)
  | set {s s' : Registry} {x : SVCXPRT} {f : Nat} {res : Option SVCXPRT} :
      Reach s → svc_xprt_set x f s = some (res, s') → Reach s'
  | clear {s s' : Registry} {x : SVCXPRT} {f : Nat} :
      Reach s → svc_xprt_clear x f s = some s' → Reach s'

theorem cond_init_static : cond_init_svc_xprt svc_xprt_fd = svc_xprt_init svc_xprt_fd := rfl

theorem cond_init_idem (r : Registry) :
    cond_init_svc_xprt (cond_init_svc_xprt r) = cond_init_svc_xprt r := by
  unfold cond_init_svc_xprt svc_xprt_init
  cases h : r.initialized <;> simp [h]

theorem set_cond_init (x : SVCXPRT) (f : Nat) (r : Registry) :
    svc_xprt_set x f (cond_init_svc_xprt r) = svc_xprt_set x f r := by
  unfold svc_xprt_set
  rw [cond_init_idem]

theorem clear_cond_init (x : SVCXPRT) (f : Nat) (r : Registry) :
    svc_xprt_clear x f (cond_init_svc_xprt r) = svc_xprt_clear x f r := by
  unfold svc_xprt_clear
  rw [cond_init_idem]

theorem get_cond_init (fd : Int) (r : Registry) :
    svc_xprt_get fd (cond_init_svc_xprt r) = svc_xprt_get fd r := by
  unfold svc_xprt_get
  rw [cond_init_idem]

theorem reach_cases {s : Registry} (hs : Reach s) : s = svc_xprt_fd ∨ Inv s := by
  induction hs with
  | static => exact Or.inl rfl
  | @init s0 _ ih =>
    rcases ih with rfl | ih
    · exact Or.inr inv_init
    · right
      have : svc_xprt_init s0 = s0 := by unfold svc_xprt_init; rw [if_pos ih.1]
      rw [this]; exact ih
  | @set s s' x f res _ hstep ih =>
    right
    have hinv : Inv (cond_init_svc_xprt s) := by
      rcases ih with rfl | ih
      · exact inv_init
      · rw [cond_init_of_inv ih]; exact ih
    rw [← set_cond_init] at hstep
    obtain ⟨r', h1, h2, _⟩ := set_total hinv x f
    rw [h1] at hstep
    cases hstep
    exact h2
  | @clear s s' x f _ hstep ih =>
    right
    have hinv : Inv (cond_init_svc_xprt s) := by
      rcases ih with rfl | ih
      · exact inv_init
      · rw [cond_init_of_inv ih]; exact ih
    rw [← clear_cond_init] at hstep
    obtain ⟨r', h1, h2, _⟩ := clear_total hinv x f
    rw [h1] at hstep
    cases hstep
    exact h2

theorem reach_inv {s : Registry} (hs : Reach s) : Inv (cond_init_svc_xprt s) := by
  rcases reach_cases hs with rfl | h
  · exact inv_init
  · rw [cond_init_of_inv h]; exact h

theorem op_total {r : Registry} (h : Inv r) (op : reg_op) :
    ∃ r', op.run r = some r' ∧ Inv r' ∧
      ∀ k, k ≠ op.xprt.xp_fd → lk r' k = lk r k := by
  cases op with
  | set x f =>
    obtain ⟨r', h1, h2, h3, _⟩ := set_total h x f
    refine ⟨r', by simp [reg_op.run, h1], h2, ?_⟩
    intro k hk
    rw [h3 k]; simp [reg_op.xprt] at hk; simp [hk]
  | clear x f =>
    obtain ⟨r', h1, h2, h3, _⟩ := clear_total h x f
    refine ⟨r', by simp [reg_op.run, h1], h2, ?_⟩
    intro k hk
    rw [h3 k]; simp [reg_op.xprt] at hk; simp [hk]

theorem ops_total {r : Registry} (h : Inv r) (ops : List reg_op) :
    ∃ r', run_ops ops r = some r' ∧ Inv r' ∧
      ∀ k, (∀ op ∈ ops, op.xprt.xp_fd ≠ k) → lk r' k = lk r k := by
  induction ops generalizing r with
  | nil => exact ⟨r, rfl, h, fun _ _ => rfl⟩
  | cons op ops ih =>
    obtain ⟨r1, h1, h2, h3⟩ := op_total h op
    obtain ⟨r2, h4, h5, h6⟩ := ih h2
    refine ⟨r2, by simp [run_ops, h1, h4], h5, ?_⟩
    intro k hk
    rw [h6 k (fun op' hop' => hk op' (List.mem_cons_of_mem _ hop'))]
    exact h3 k (Ne.symm (hk op (List.mem_cons_self _ _)))

theorem reach_op {s s' : Registry} (hs : Reach s) (op : reg_op) (h : op.run s = some s') :
    Reach s' := by
  cases op with
  | set x f =>
    simp only [reg_op.run, Option.map_eq_some'] at h
    obtain ⟨⟨res, s1⟩, h1, rfl⟩ := h
    exact Reach.set hs h1
  | clear x f => exact @Reach.clear s s' x f hs h

theorem reach_run_ops {s s' : Registry} (hs : Reach s) (ops : List reg_op)
    (h : run_ops ops s = some s') : Reach s' := by
  induction ops generalizing s with
  | nil => simp [run_ops] at h; subst h; exact hs
  | cons op ops ih =>
    simp only [run_ops, Option.bind_eq_some] at h
    obtain ⟨s1, h1, h2⟩ := h
    exact ih (reach_op hs op h1) h2

theorem part_at_init (i : Nat) : part_at (svc_xprt_init svc_xprt_fd) i = ⟨opr_rbtree_init⟩ := by
  show ((List.replicate SVC_XPRT_PARTITIONS (⟨opr_rbtree_init⟩ : rbtree_x_part))[i]?).getD _ = _
  rw [List.getElem?_replicate]
  split <;> rfl

theorem lk_init (k : Int) : lk (svc_xprt_init svc_xprt_fd) k = none := by
  unfold lk nodes_at
  rw [part_at_init]
  rfl

theorem get_fst {r : Registry} (h : Inv r) (k : Int) :
    (svc_xprt_get k r).map Prod.fst = some (lk r k) := by
  rw [get_spec h]; rfl

theorem get_fst_reach {s : Registry} (hs : Reach s) (k : Int) :
    (svc_xprt_get k s).map Prod.fst = some (lk (cond_init_svc_xprt s) k) := by
  rw [← get_cond_init, get_fst (reach_inv hs)]

/-! ## Claims about insert, lookup and remove -/

/-- C1 (insert then lookup): in a registry reachable by `svc_xprt_set` /
`svc_xprt_clear`, for a handle `h` whose descriptor is not registered,
`svc_xprt_set h` links it (returns NULL), `svc_xprt_get h.xp_fd` then returns
`h`, and it still returns `h` after any further inserts and removes of handles
with other descriptors; once `svc_xprt_clear h` is applied the lookup returns
NULL. -/
theorem C1_insert_then_lookup (s : Registry) (h : SVCXPRT) (flags flags' : Nat)
    (ops : List reg_op) (hs : Reach s)
    (hfree : (svc_xprt_get h.xp_fd s).map Prod.fst = some none)
    (hops : ∀ op ∈ ops, op.xprt.xp_fd ≠ h.xp_fd) :
    ∃ s1 s2 s3, svc_xprt_set h flags s = some (none, s1) ∧
      svc_xprt_get h.xp_fd s1 = some (some h, s1) ∧
      run_ops ops s1 = some s2 ∧
      svc_xprt_get h.xp_fd s2 = some (some h, s2) ∧
      svc_xprt_clear h flags' s2 = some s3 ∧
      svc_xprt_get h.xp_fd s3 = some (none, s3) := by
  have hinv := reach_inv hs
  rw [get_fst_reach hs] at hfree
  have hfree' : lk (cond_init_svc_xprt s) h.xp_fd = none := Option.some.inj hfree
  obtain ⟨s1, h1, h2, h3, _⟩ := set_total hinv h flags
  rw [set_cond_init, hfree'] at h1
  have hl1 : lk s1 h.xp_fd = some h := by rw [h3]; simp [hfree']
  obtain ⟨s2, h4, h5, h6⟩ := ops_total h2 ops
  have hl2 : lk s2 h.xp_fd = some h := by rw [h6 _ hops]; exact hl1
  obtain ⟨s3, h7, h8, h9, _⟩ := clear_total h5 h flags'
  have hl3 : lk s3 h.xp_fd = none := by rw [h9]; simp [hl2]
  refine ⟨s1, s2, s3, h1, ?_, h4, ?_, h7, ?_⟩
  · rw [get_spec h2]; exact congrArg (fun o => some (o, s1)) hl1
  · rw [get_spec h5]; exact congrArg (fun o => some (o, s2)) hl2
  · rw [get_spec h8]; exact congrArg (fun o => some (o, s3)) hl3

/-- A registry holding the handles with descriptors 5 and 9. -/
def reg_5_9 : Registry :=
  ⟨true, ⟨7, some [⟨⟨[], 0⟩⟩, ⟨⟨[], 0⟩⟩, ⟨⟨[⟨9, 2⟩], 1⟩⟩, ⟨⟨[], 0⟩⟩, ⟨⟨[], 0⟩⟩,
    ⟨⟨[⟨5, 1⟩], 1⟩⟩, ⟨⟨[], 0⟩⟩]⟩⟩

theorem reach_5_9 : Reach reg_5_9 :=
  reach_run_ops Reach.static [.set ⟨5, 1⟩ 0, .set ⟨9, 2⟩ 0] (by decide)

/-- Witness of C1: descriptor 14 inserted next to 5 and 9, then 9 removed and
16 inserted. -/
theorem C1_insert_then_lookup_witness :
    Reach reg_5_9 ∧ (svc_xprt_get 14 reg_5_9).map Prod.fst = some none ∧
    ∃ s1 s2 s3, svc_xprt_set ⟨14, 3⟩ 0 reg_5_9 = some (none, s1) ∧
      svc_xprt_get 14 s1 = some (some ⟨14, 3⟩, s1) ∧
      run_ops [.clear ⟨9, 2⟩ 0, .set ⟨16, 4⟩ 0] s1 = some s2 ∧
      svc_xprt_get 14 s2 = some (some ⟨14, 3⟩, s2) ∧
      svc_xprt_clear ⟨14, 3⟩ 0 s2 = some s3 ∧
      svc_xprt_get 14 s3 = some (none, s3) :=
  ⟨reach_5_9, by decide,
    C1_insert_then_lookup reg_5_9 ⟨14, 3⟩ 0 0 [.clear ⟨9, 2⟩ 0, .set ⟨16, 4⟩ 0] reach_5_9
      (by decide) (by decide)⟩

/-- C2 (duplicate-key insert is rejected without overwrite): `svc_xprt_set h`
returns NULL exactly when no handle was registered under `h.xp_fd`; when a
handle `g` holds that descriptor it returns `g`, the registry is unchanged
(so every lookup, that of `h.xp_fd` included, is as before) and `h`, if it
is another handle than `g`, is not linked. -/
theorem C2_duplicate_insert_rejected (s : Registry) (h : SVCXPRT) (flags : Nat)
    (hs : Reach s) :
    ∃ res s', svc_xprt_set h flags s = some (res, s') ∧
      (res = none ↔ (svc_xprt_get h.xp_fd s).map Prod.fst = some none) ∧
      ∀ g, (svc_xprt_get h.xp_fd s).map Prod.fst = some (some g) →
        res = some g ∧ s' = s ∧ svc_xprt_get h.xp_fd s' = some (some g, s') ∧
        (h ≠ g → opr_rbtree_node_valid s' h = false) := by
  have hinv := reach_inv hs
  obtain ⟨s', h1, h2, h3, h4⟩ := set_total hinv h flags
  rw [set_cond_init] at h1
  refine ⟨_, s', h1, ?_, ?_⟩
  · rw [get_fst_reach hs]
    constructor
    · intro h; rw [h]
    · intro h; exact Option.some.inj h
  · intro g hg
    rw [get_fst_reach hs] at hg
    have hg' : lk (cond_init_svc_xprt s) h.xp_fd = some g := Option.some.inj hg
    have hs' := h4 g hg'
    have hsi : Inv s := by
      rcases reach_cases hs with rfl | hi
      · rw [cond_init_static, lk_init] at hg'
        cases hg'
      · exact hi
    have hci := cond_init_of_inv hsi
    have hgs : lk s h.xp_fd = some g := by rw [← hci]; exact hg'
    have hss : s' = s := by rw [hs', hci]
    subst hss
    refine ⟨hg', rfl, ?_, ?_⟩
    · rw [get_spec hsi]; exact congrArg (fun o => some (o, s')) hgs
    · intro hne
      rw [← Bool.not_eq_true, valid_iff hsi, ← lk_some_iff hsi, hgs]
      intro hc
      exact hne (Option.some.inj hc).symm

/-- C4 (remove then lookup): for a registered (linked) handle `h`,
after `svc_xprt_clear h` the lookup of `h.xp_fd` returns NULL and the lookup of
every other descriptor returns what it returned before. -/
theorem C4_remove_then_lookup (s : Registry) (h : SVCXPRT) (flags : Nat) (hs : Reach s)
    (hreg : opr_rbtree_node_valid s h = true) :
    ∃ s', svc_xprt_clear h flags s = some s' ∧
      svc_xprt_get h.xp_fd s' = some (none, s') ∧
      ∀ k, k ≠ h.xp_fd →
        (svc_xprt_get k s').map Prod.fst = (svc_xprt_get k s).map Prod.fst := by
  have hsi : Inv s := by
    rcases reach_cases hs with rfl | hi
    · simp [opr_rbtree_node_valid, svc_xprt_fd] at hreg
    · exact hi
  obtain ⟨s', h1, h2, h3, _⟩ := clear_total hsi h flags
  have hl : lk s h.xp_fd = some h := (lk_some_iff hsi h).mpr ((valid_iff hsi h).mp hreg)
  refine ⟨s', h1, ?_, ?_⟩
  · rw [get_spec h2]
    have : lk s' h.xp_fd = none := by rw [h3]; simp [hl]
    exact congrArg (fun o => some (o, s')) this
  · intro k hk
    rw [get_fst h2, get_fst hsi, h3]
    simp [hk]

/-- Witness of C2: a second handle with descriptor 5 is offered to a registry
that holds descriptors 5 and 9. -/
theorem C2_duplicate_insert_rejected_witness :
    Reach reg_5_9 ∧
    ∃ res s', svc_xprt_set ⟨5, 7⟩ 0 reg_5_9 = some (res, s') ∧
      (res = none ↔ (svc_xprt_get 5 reg_5_9).map Prod.fst = some none) ∧
      ∀ g, (svc_xprt_get 5 reg_5_9).map Prod.fst = some (some g) →
        res = some g ∧ s' = reg_5_9 ∧ svc_xprt_get 5 s' = some (some g, s') ∧
        ((⟨5, 7⟩ : SVCXPRT) ≠ g → opr_rbtree_node_valid s' ⟨5, 7⟩ = false) :=
  ⟨reach_5_9, C2_duplicate_insert_rejected reg_5_9 ⟨5, 7⟩ 0 reach_5_9⟩

/-- Witness of C4: descriptor 9 removed from a registry that holds 5 and 9. -/
theorem C4_remove_then_lookup_witness :
    Reach reg_5_9 ∧ opr_rbtree_node_valid reg_5_9 ⟨9, 2⟩ = true ∧
    ∃ s', svc_xprt_clear ⟨9, 2⟩ 0 reg_5_9 = some s' ∧
      svc_xprt_get 9 s' = some (none, s') ∧
      ∀ k, k ≠ 9 →
        (svc_xprt_get k s').map Prod.fst = (svc_xprt_get k reg_5_9).map Prod.fst :=
  ⟨reach_5_9, by decide, C4_remove_then_lookup reg_5_9 ⟨9, 2⟩ 0 reach_5_9 (by decide)⟩

theorem reach_initialized {s : Registry} (hs : Reach s) (hi : s.initialized = true) : Inv s := by
  rcases reach_cases hs with rfl | h
  · cases hi
  · exact h

theorem valid_cond_init {s : Registry} (hs : Reach s) (h : SVCXPRT) :
    opr_rbtree_node_valid (cond_init_svc_xprt s) h = opr_rbtree_node_valid s h := by
  rcases reach_cases hs with rfl | hi
  · rfl
  · rw [cond_init_of_inv hi]

/-- C5 (remove is idempotent): `svc_xprt_clear` of a handle that is not linked
returns normally and leaves the registry as it is (apart from the lazy
initialization of a registry never used before, which registers nothing);
a second `svc_xprt_clear` of any handle changes nothing; and clearing a
handle whose insert collided with `g` leaves `g` registered. -/
theorem C5_remove_idempotent (s : Registry) (h : SVCXPRT) (flags flags' : Nat)
    (hs : Reach s) :
    (opr_rbtree_node_valid s h = false →
      svc_xprt_clear h flags s = some (cond_init_svc_xprt s) ∧
      (s.initialized = true → svc_xprt_clear h flags s = some s) ∧
      ∀ k, (svc_xprt_get k (cond_init_svc_xprt s)).map Prod.fst
            = (svc_xprt_get k s).map Prod.fst) ∧
    (∃ s1, svc_xprt_clear h flags s = some s1 ∧ svc_xprt_clear h flags' s1 = some s1) ∧
    (∀ g, g ≠ h → (svc_xprt_get h.xp_fd s).map Prod.fst = some (some g) →
      svc_xprt_clear h flags s = some s ∧ svc_xprt_get h.xp_fd s = some (some g, s)) := by
  have hinv := reach_inv hs
  refine ⟨?_, ?_, ?_⟩
  · intro hv
    have hv' : opr_rbtree_node_valid (cond_init_svc_xprt s) h = false := by
      rw [valid_cond_init hs]; exact hv
    have hx : h ∉ nodes_at (cond_init_svc_xprt s) (home h.xp_fd) := by
      rw [← valid_iff hinv, hv']; simp
    have hc := clear_unlinked hinv flags hx
    rw [clear_cond_init] at hc
    refine ⟨hc, ?_, fun k => by rw [get_cond_init]⟩
    intro hi
    rw [hc, cond_init_of_inv (reach_initialized hs hi)]
  · obtain ⟨s1, h1, h2, _, _, h5⟩ := clear_total hinv h flags
    rw [clear_cond_init] at h1
    refine ⟨s1, h1, ?_⟩
    apply clear_unlinked h2
    rw [← valid_iff h2, h5]; simp
  · intro g hne hg
    rw [get_fst_reach hs] at hg
    have hg' : lk (cond_init_svc_xprt s) h.xp_fd = some g := Option.some.inj hg
    have hsi : Inv s := by
      rcases reach_cases hs with rfl | hi
      · rw [cond_init_static, lk_init] at hg'
        cases hg'
      · exact hi
    rw [cond_init_of_inv hsi] at hg'
    obtain ⟨s1, h1, _, _, h4, _⟩ := clear_total hsi h flags
    have : s1 = s := h4 (by rw [hg']; intro hc; exact hne (Option.some.inj hc))
    subst this
    refine ⟨h1, ?_⟩
    rw [get_spec hsi]; exact congrArg (fun o => some (o, s1)) hg'

/-- Witness of C5: a rejected duplicate of descriptor 5 is cleared in a registry
that holds descriptors 5 and 9. -/
theorem C5_remove_idempotent_witness :
    Reach reg_5_9 ∧
    svc_xprt_clear ⟨5, 7⟩ 0 reg_5_9 = some reg_5_9 ∧
    svc_xprt_get 5 reg_5_9 = some (some ⟨5, 1⟩, reg_5_9) :=
  ⟨reach_5_9,
    (C5_remove_idempotent reg_5_9 ⟨5, 7⟩ 0 0 reach_5_9).2.2 ⟨5, 1⟩ (by decide) (by decide)⟩

/-! ## Frame facts for registry calls made during an enumeration -/

theorem op_frame {r : Registry} (h : Inv r) (op : reg_op) :
    ∃ r', op.run r = some r' ∧ Inv r' ∧
      (∀ j, gen_at r j ≤ gen_at r' j) ∧
      (∀ j, gen_at r' j = gen_at r j → part_at r' j = part_at r j) ∧
      (∀ j y, y ∈ nodes_at r' j → y ∈ nodes_at r j ∨ y = op.xprt) := by
  cases op with
  | set x f =>
    cases hl : lk r x.xp_fd with
    | some g =>
      refine ⟨r, by simp [reg_op.run, set_collide h f hl], h, fun _ => le_refl _,
        fun _ _ => rfl, fun _ _ hy => Or.inl hy⟩
    | none =>
      obtain ⟨r', h1, h2, h3, h4, h5, h6⟩ := set_fresh h f hl
      refine ⟨r', by simp [reg_op.run, h1], h2, ?_, ?_, ?_⟩
      · intro j
        by_cases hj : j = home x.xp_fd
        · subst hj; omega
        · unfold gen_at; rw [h6 j hj]
      · intro j hg
        by_cases hj : j = home x.xp_fd
        · subst hj; omega
        · exact h6 j hj
      · intro j y hy
        by_cases hj : j = home x.xp_fd
        · subst hj
          rw [h3, insert_mem h4] at hy
          rcases hy with rfl | hy
          · exact Or.inr rfl
          · exact Or.inl hy
        · unfold nodes_at at hy ⊢; rw [h6 j hj] at hy; exact Or.inl hy
  | clear x f =>
    by_cases hx : x ∈ nodes_at r (home x.xp_fd)
    · obtain ⟨r', h1, h2, h3, h5, h6⟩ := clear_linked h f hx
      refine ⟨r', by simp [reg_op.run, h1], h2, ?_, ?_, ?_⟩
      · intro j
        by_cases hj : j = home x.xp_fd
        · subst hj; omega
        · unfold gen_at; rw [h6 j hj]
      · intro j hg
        by_cases hj : j = home x.xp_fd
        · subst hj; omega
        · exact h6 j hj
      · intro j y hy
        by_cases hj : j = home x.xp_fd
        · subst hj
          rw [h3] at hy
          exact Or.inl (List.mem_of_mem_erase hy)
        · unfold nodes_at at hy ⊢; rw [h6 j hj] at hy; exact Or.inl hy
    · refine ⟨r, by simp [reg_op.run, clear_unlinked h f hx], h, fun _ => le_refl _,
        fun _ _ => rfl, fun _ _ hy => Or.inl hy⟩

theorem ops_frame {r : Registry} (h : Inv r) (ops : List reg_op) :
    ∃ r', run_ops ops r = some r' ∧ Inv r' ∧
      (∀ j, gen_at r j ≤ gen_at r' j) ∧
      (∀ j, gen_at r' j = gen_at r j → part_at r' j = part_at r j) ∧
      (∀ j y, y ∈ nodes_at r' j → y ∈ nodes_at r j ∨ ∃ op ∈ ops, y = op.xprt) := by
  induction ops generalizing r with
  | nil =>
    exact ⟨r, rfl, h, fun _ => le_refl _, fun _ _ => rfl, fun _ _ hy => Or.inl hy⟩
  | cons op ops ih =>
    obtain ⟨r1, h1, h2, h3, h4, h5⟩ := op_frame h op
    obtain ⟨r2, k1, k2, k3, k4, k5⟩ := ih h2
    refine ⟨r2, by simp [run_ops, h1, k1], k2, ?_, ?_, ?_⟩
    · intro j; exact le_trans (h3 j) (k3 j)
    · intro j hg
      have e1 : gen_at r1 j = gen_at r j := by
        have := h3 j; have := k3 j; omega
      have e2 : gen_at r2 j = gen_at r1 j := by omega
      rw [k4 j e2, h4 j e1]
    · intro j y hy
      rcases k5 j y hy with hy1 | ⟨o, ho, rfl⟩
      · rcases h5 j y hy1 with hy0 | rfl
        · exact Or.inl hy0
        · exact Or.inr ⟨op, List.mem_cons_self _ _, rfl⟩
      · exact Or.inr ⟨o, List.mem_cons_of_mem _ ho, rfl⟩

/-! ## The transitions of the enumeration on a well-formed registry -/

/-- Where the inner loop goes after the visitor returned `rflag` for `x` and
left the registry `s'` (lines 249-264). -/
def node_pc (p r tgen : Nat) (x : SVCXPRT) (rflag : Nat) (s' : Registry) : foreach_pc :=
  if rflag = SVC_XPRT_FOREACH_CLEAR then .restart p r
  else if tgen ≠ gen_at s' p then
    match lookup_nodes x.xp_fd (nodes_at s' p) with
    | none => .restart p r
    | some n => .node p r tgen (next_in n (nodes_at s' p))
  else .node p r tgen (next_in x (nodes_at s' p))

theorem step_part_lt {σ : Type} (each_f : svc_xprt_each_func_t σ) {p : Nat}
    (hp : p < SVC_XPRT_PARTITIONS) (s : Registry) (a : σ) (tr : List each_call) :
    foreach_step each_f ⟨.part p, s, a, tr⟩ = some (.inl ⟨.restart p 0, s, a, tr⟩) := by
  simp [foreach_step, hp]

theorem step_part_ge {σ : Type} (each_f : svc_xprt_each_func_t σ) {p : Nat}
    (hp : ¬ p < SVC_XPRT_PARTITIONS) (s : Registry) (a : σ) (tr : List each_call) :
    foreach_step each_f ⟨.part p, s, a, tr⟩ = some (.inr ⟨0, s, a, tr⟩) := by
  simp [foreach_step, hp]

theorem step_restart_over {σ : Type} (each_f : svc_xprt_each_func_t σ) {p r : Nat}
    (hr : 5 ≤ r) (s : Registry) (a : σ) (tr : List each_call) :
    foreach_step each_f ⟨.restart p r, s, a, tr⟩ = some (.inr ⟨1, s, a, tr⟩) := by
  have : r + 1 > 5 := by omega
  simp [foreach_step, this]

theorem step_restart {σ : Type} (each_f : svc_xprt_each_func_t σ) {p r : Nat}
    (hr : r < 5) {s : Registry} (hs : Inv s) (hp : p < SVC_XPRT_PARTITIONS) (a : σ)
    (tr : List each_call) :
    foreach_step each_f ⟨.restart p r, s, a, tr⟩ =
      some (.inl ⟨.node p (r + 1) (gen_at s p) (nodes_at s p).head?, s, a, tr⟩) := by
  have : ¬ r + 1 > 5 := by omega
  simp only [foreach_step, this, if_false, (part_some hs hp).1]
  rfl

theorem step_node_none {σ : Type} (each_f : svc_xprt_each_func_t σ) (p r tgen : Nat)
    (s : Registry) (a : σ) (tr : List each_call) :
    foreach_step each_f ⟨.node p r tgen none, s, a, tr⟩ =
      some (.inl ⟨.part (p + 1), s, a, tr⟩) := by
  simp [foreach_step]

theorem step_node_some {σ : Type} (each_f : svc_xprt_each_func_t σ) (p r tgen : Nat)
    (x : SVCXPRT) {s s' : Registry} (a : σ) (tr : List each_call)
    (hops : run_ops (each_f x a s).ops s = some s') (hs' : Inv s')
    (hp : p < SVC_XPRT_PARTITIONS) :
    foreach_step each_f ⟨.node p r tgen (some x), s, a, tr⟩ =
      some (.inl ⟨node_pc p r tgen x (each_f x a s).rflag s', s', (each_f x a s).arg,
        tr ++ [⟨x, (each_f x a s).rflag, s'⟩]⟩) := by
  simp only [foreach_step, hops, (part_some hs' hp).1, lookup_eq, opr_rbtree_next]
  unfold node_pc gen_at nodes_at
  by_cases h1 : (each_f x a s).rflag = SVC_XPRT_FOREACH_CLEAR
  · simp [h1]
  · by_cases h2 : tgen = (part_at s' p).t.gen
    · simp [h1, h2]
    · simp only [h1, h2, if_false, ne_eq, not_false_eq_true, if_true]
      cases lookup_nodes x.xp_fd (part_at s' p).t.nodes <;> rfl

/-- The locals of `svc_xprt_foreach` fit the registry: the partition index is
in range, the generation snapshot is not ahead of the partition, and the cursor
is a linked node of the partition. -/
def pc_ok (s : Registry) : foreach_pc → Prop
  | .part _ => True
  | .restart p _ => p < SVC_XPRT_PARTITIONS
  | .node p _ tgen n =>
    p < SVC_XPRT_PARTITIONS ∧ tgen ≤ gen_at s p ∧ ∀ x, n = some x → x ∈ nodes_at s p

/-- A machine state of the enumeration over a well-formed registry. -/
def Good {σ : Type} (c : foreach_state σ) : Prop := Inv c.reg ∧ pc_ok c.reg c.pc

theorem node_pc_ok {s' : Registry} (hs' : Inv s') {p r tgen : Nat} (x : SVCXPRT)
    (rflag : Nat) (hp : p < SVC_XPRT_PARTITIONS) (hg : tgen ≤ gen_at s' p) :
    pc_ok s' (node_pc p r tgen x rflag s') := by
  have hsort := sorted_at_ix hs' hp
  unfold node_pc
  split
  · exact hp
  · split
    · split
      · exact hp
      · rename_i n hn
        refine ⟨hp, hg, ?_⟩
        intro m hm
        exact (next_in_some hsort hm).1
    · refine ⟨hp, hg, ?_⟩
      intro m hm
      exact (next_in_some hsort hm).1

theorem step_good {σ : Type} (each_f : svc_xprt_each_func_t σ) {c : foreach_state σ}
    (hc : Good c) :
    ∃ o, foreach_step each_f c = some o ∧ ∀ c', o = .inl c' → Good c' := by
  obtain ⟨pc, s, a, tr⟩ := c
  obtain ⟨hs, hpc⟩ := hc
  simp only at hs hpc
  cases pc with
  | part p =>
    by_cases hp : p < SVC_XPRT_PARTITIONS
    · refine ⟨_, step_part_lt each_f hp s a tr, ?_⟩
      intro c' hc'
      cases hc'
      exact ⟨hs, hp⟩
    · refine ⟨_, step_part_ge each_f hp s a tr, ?_⟩
      intro c' hc'
      cases hc'
  | restart p r =>
    by_cases hr : r < 5
    · refine ⟨_, step_restart each_f hr hs hpc a tr, ?_⟩
      intro c' hc'
      cases hc'
      refine ⟨hs, hpc, le_refl _, ?_⟩
      intro x hx
      exact (head_mem_min (sorted_at_ix hs hpc) hx).1
    · refine ⟨_, step_restart_over each_f (by omega) s a tr, ?_⟩
      intro c' hc'
      cases hc'
  | node p r tgen n =>
    cases n with
    | none =>
      refine ⟨_, step_node_none each_f p r tgen s a tr, ?_⟩
      intro c' hc'
      cases hc'
      exact ⟨hs, trivial⟩
    | some x =>
      obtain ⟨s', h1, h2, h3, _, _⟩ := ops_frame hs (each_f x a s).ops
      refine ⟨_, step_node_some each_f p r tgen x a tr h1 h2 hpc.1, ?_⟩
      intro c' hc'
      cases hc'
      exact ⟨h2, node_pc_ok h2 x _ hpc.1 (le_trans hpc.2.1 (h3 p))⟩

theorem run_invariant {σ : Type} (each_f : svc_xprt_each_func_t σ)
    (P : foreach_state σ → Prop)
    (hP : ∀ c c', P c → foreach_step each_f c = some (.inl c') → P c') :
    ∀ (fuel : Nat) (c : foreach_state σ) (r : foreach_result σ), P c →
      foreach_run each_f fuel c = some r →
      ∃ c', P c' ∧ foreach_step each_f c' = some (.inr r) := by
  intro fuel
  induction fuel with
  | zero => intro c r _ h; simp [foreach_run] at h
  | succ n ih =>
    intro c r hc h
    unfold foreach_run at h
    cases hstep : foreach_step each_f c with
    | none => simp [hstep] at h
    | some o =>
      cases o with
      | inl c' =>
        simp only [hstep] at h
        exact ih c' r (hP c c' hc hstep) h
      | inr r' =>
        simp only [hstep, Option.some.injEq] at h
        subst h
        exact ⟨c, hc, hstep⟩

theorem step_ret {σ : Type} (each_f : svc_xprt_each_func_t σ) {c : foreach_state σ}
    (hc : Good c) {r : foreach_result σ} (h : foreach_step each_f c = some (.inr r)) :
    r.reg = c.reg ∧ r.arg = c.arg ∧ r.calls = c.calls ∧
      ((r.code = 0 ∧ ∃ p, c.pc = .part p ∧ ¬ p < SVC_XPRT_PARTITIONS) ∨
       (r.code = 1 ∧ ∃ p k, c.pc = .restart p k ∧ 5 ≤ k)) := by
  obtain ⟨pc, s, a, tr⟩ := c
  obtain ⟨hs, hpc⟩ := hc
  simp only at hs hpc
  cases pc with
  | part p =>
    by_cases hp : p < SVC_XPRT_PARTITIONS
    · rw [step_part_lt each_f hp] at h; cases h
    · rw [step_part_ge each_f hp] at h; cases h
      exact ⟨rfl, rfl, rfl, Or.inl ⟨rfl, p, rfl, hp⟩⟩
  | restart p k =>
    by_cases hr : k < 5
    · rw [step_restart each_f hr hs hpc] at h; cases h
    · rw [step_restart_over each_f (by omega)] at h; cases h
      exact ⟨rfl, rfl, rfl, Or.inr ⟨rfl, p, k, rfl, by omega⟩⟩
  | node p k tgen n =>
    cases n with
    | none => rw [step_node_none] at h; cases h
    | some x =>
      obtain ⟨s', h1, h2, _⟩ := ops_frame hs (each_f x a s).ops
      rw [step_node_some each_f p k tgen x a tr h1 h2 hpc.1] at h
      cases h

theorem good_start {σ : Type} (a : σ) {s : Registry} (hs : Inv s) :
    Good (⟨.part 0, s, a, []⟩ : foreach_state σ) := ⟨hs, trivial⟩

theorem foreach_inv {σ : Type} (each_f : svc_xprt_each_func_t σ) (fuel : Nat) (a : σ)
    {s : Registry} (hs : Inv (cond_init_svc_xprt s)) {r : foreach_result σ}
    (h : svc_xprt_foreach fuel each_f a s = some r) : Inv r.reg := by
  obtain ⟨c', hc', hstep⟩ := run_invariant each_f Good
    (fun c c' hc hst => by
      obtain ⟨o, ho, hgood⟩ := step_good each_f hc
      rw [ho] at hst
      exact hgood c' (Option.some.inj hst))
    fuel _ r (good_start a hs) h
  rw [(step_ret each_f hc' hstep).1]
  exact hc'.1

/-! ## Key uniqueness -/

/-- The registry states reachable from the freshly initialized (empty) registry
by any sequence of `svc_xprt_set`, `svc_xprt_clear`, `svc_xprt_foreach` (with any
visitor) and `svc_xprt_shutdown`. -/
inductive Reachable : Registry → Prop
  | init : Reachable (svc_xprt_init svc_xprt_fd)
  | set {s s' : Registry} {x : SVCXPRT} {f : Nat} {res : Option SVCXPRT} :
      Reachable s → svc_xprt_set x f s = some (res, s') → Reachable s'
  | clear {s s' : Registry} {x : SVCXPRT} {f : Nat} :
      Reachable s → svc_xprt_clear x f s = some s' → Reachable s'
  | foreach {σ : Type} {s : Registry} {fuel : Nat} {each_f : svc_xprt_each_func_t σ}
      {a : σ} {r : foreach_result σ} :
      Reachable s → svc_xprt_foreach fuel each_f a s = some r → Reachable r.reg
  | shutdown {s : Registry} {fuel : Nat} {r : shutdown_result} :
      Reachable s → svc_xprt_shutdown fuel s = some r → Reachable r.reg

/-- A registry whose partition storage was released by `svc_xprt_shutdown`. -/
def Released (s : Registry) : Prop := s.initialized = true ∧ s.xt.tree = none

theorem released_cond_init {s : Registry} (h : Released s) : cond_init_svc_xprt s = s := by
  unfold cond_init_svc_xprt; simp [h.1]

theorem released_part {s : Registry} (h : Released s) (i : Nat) :
    rbtx_partition_of_ix s.xt i = none := by
  unfold rbtx_partition_of_ix; rw [h.2]; rfl

theorem reachable_cases {s : Registry} (hs : Reachable s) : Inv s ∨ Released s := by
  induction hs with
  | init => exact Or.inl inv_init
  | @set s s' x f res _ hstep ih =>
    rcases ih with ih | ih
    · obtain ⟨r', h1, h2, _⟩ := set_total ih x f
      rw [h1] at hstep; cases hstep
      exact Or.inl h2
    · unfold svc_xprt_set at hstep
      simp [released_cond_init ih, rbtx_partition_of_scalar, released_part ih] at hstep
  | @clear s s' x f _ hstep ih =>
    rcases ih with ih | ih
    · obtain ⟨r', h1, h2, _⟩ := clear_total ih x f
      rw [h1] at hstep; cases hstep
      exact Or.inl h2
    · unfold svc_xprt_clear at hstep
      simp [released_cond_init ih, rbtx_partition_of_scalar, released_part ih,
        opr_rbtree_node_valid, ih.2] at hstep
      subst hstep
      exact Or.inr ih
  | @foreach σ s fuel each_f a r _ hstep ih =>
    rcases ih with ih | ih
    · left
      apply foreach_inv each_f fuel a _ hstep
      rw [cond_init_of_inv ih]; exact ih
    · exfalso
      unfold svc_xprt_foreach at hstep
      rw [released_cond_init ih] at hstep
      cases fuel with
      | zero => simp [foreach_run] at hstep
      | succ n =>
        unfold foreach_run at hstep
        rw [step_part_lt each_f (by decide)] at hstep
        simp only at hstep
        cases n with
        | zero => simp [foreach_run] at hstep
        | succ m =>
          unfold foreach_run at hstep
          simp [foreach_step, released_part ih] at hstep
  | @shutdown s fuel r _ hstep ih =>
    have hi : s.initialized = true := by
      rcases ih with ih | ih
      · exact ih.1
      · exact ih.1
    right
    unfold svc_xprt_shutdown at hstep
    simp only [hi, Bool.not_true, Bool.false_eq_true, if_false] at hstep
    split at hstep
    · cases hstep
    · split at hstep
      · cases hstep
      · split at hstep
        · cases hstep
        · cases hstep
          exact ⟨rfl, rfl⟩

/-- C3 (key uniqueness): in every state reachable from the freshly initialized
registry by `svc_xprt_set`, `svc_xprt_clear`, `svc_xprt_foreach` and
`svc_xprt_shutdown`, the descriptors of the handles linked in one partition are
pairwise distinct. -/
theorem C3_key_uniqueness (s : Registry) (hs : Reachable s) :
    ∀ tr, s.xt.tree = some tr → ∀ p ∈ tr, (p.t.nodes.map rpc_svcxprt.xp_fd).Nodup := by
  intro tr htr p hp
  rcases reachable_cases hs with h | h
  · obtain ⟨_, _, tr', htr', _, hok⟩ := h
    rw [htr] at htr'
    cases htr'
    obtain ⟨i, hi⟩ := List.mem_iff_getElem?.mp hp
    exact fd_sorted_fd_nodup (hok i p hi).1
  · rw [h.2] at htr; cases htr

theorem reachable_run_ops {s s' : Registry} (hs : Reachable s) (ops : List reg_op)
    (h : run_ops ops s = some s') : Reachable s' := by
  induction ops generalizing s with
  | nil => simp [run_ops] at h; subst h; exact hs
  | cons op ops ih =>
    simp only [run_ops, Option.bind_eq_some] at h
    obtain ⟨s1, h1, h2⟩ := h
    refine ih ?_ h2
    cases op with
    | set x f =>
      simp only [reg_op.run, Option.map_eq_some'] at h1
      obtain ⟨⟨res, s2⟩, h3, rfl⟩ := h1
      exact Reachable.set hs h3
    | clear x f => exact @Reachable.clear s s1 x f hs h1

/-- Witness of C3: the registry reached by inserting descriptors 5 and 9 and then
offering a second handle with descriptor 5. -/
theorem C3_key_uniqueness_witness :
    Reachable reg_5_9 ∧
    ∀ tr, reg_5_9.xt.tree = some tr → ∀ p ∈ tr, (p.t.nodes.map rpc_svcxprt.xp_fd).Nodup :=
  ⟨reachable_run_ops Reachable.init [.set ⟨5, 1⟩ 0, .set ⟨9, 2⟩ 0, .set ⟨5, 7⟩ 0] (by decide),
   C3_key_uniqueness reg_5_9
    (reachable_run_ops Reachable.init [.set ⟨5, 1⟩ 0, .set ⟨9, 2⟩ 0, .set ⟨5, 7⟩ 0]
      (by decide))⟩

/-! ## Enumeration of a quiescent registry -/

theorem run_succ_inl {σ : Type} {each_f : svc_xprt_each_func_t σ} {c c' : foreach_state σ}
    (h : foreach_step each_f c = some (.inl c')) (fuel : Nat) :
    foreach_run each_f (fuel + 1) c = foreach_run each_f fuel c' := by
  simp [foreach_run, h]

theorem run_succ_inr {σ : Type} {each_f : svc_xprt_each_func_t σ} {c : foreach_state σ}
    {r : foreach_result σ} (h : foreach_step each_f c = some (.inr r)) (fuel : Nat) :
    foreach_run each_f (fuel + 1) c = some r := by
  simp [foreach_run, h]

/-- The visitor applied to the handles `xs` in order over an unchanging registry:
its final private data and the invocations recorded. -/
def visit_all {σ : Type} (each_f : svc_xprt_each_func_t σ) (s : Registry) :
    List SVCXPRT → σ → List each_call → σ × List each_call
  | [], a, tr => (a, tr)
  | x :: xs, a, tr =>
    visit_all each_f s xs (each_f x a s).arg (tr ++ [⟨x, (each_f x a s).rflag, s⟩])

theorem visit_all_calls {σ : Type} (each_f : svc_xprt_each_func_t σ) (s : Registry)
    (xs : List SVCXPRT) (a : σ) (tr : List each_call) :
    (visit_all each_f s xs a tr).2.map each_call.xprt = tr.map each_call.xprt ++ xs := by
  induction xs generalizing a tr with
  | nil => simp [visit_all]
  | cons x xs ih => simp [visit_all, ih]

theorem visit_all_append {σ : Type} (each_f : svc_xprt_each_func_t σ) (s : Registry)
    (xs ys : List SVCXPRT) (a : σ) (tr : List each_call) :
    visit_all each_f s (xs ++ ys) a tr =
      visit_all each_f s ys (visit_all each_f s xs a tr).1 (visit_all each_f s xs a tr).2 := by
  induction xs generalizing a tr with
  | nil => simp [visit_all]
  | cons x xs ih => simp [visit_all, ih]

theorem next_in_append {x : SVCXPRT} {pre post : List SVCXPRT} (hx : x ∉ pre) :
    next_in x (pre ++ x :: post) = post.head? := by
  induction pre with
  | nil => simp [next_in]
  | cons p pre ih =>
    have hp : p ≠ x := fun h => hx (by simp [h])
    have hx' : x ∉ pre := fun h => hx (List.mem_cons_of_mem _ h)
    simp [next_in, hp, ih hx']

theorem quiet_pass {σ : Type} (each_f : svc_xprt_each_func_t σ) {s : Registry} (hs : Inv s)
    {p : Nat} (hp : p < SVC_XPRT_PARTITIONS) (r : Nat)
    (hv : ∀ x a, (each_f x a s).rflag = SVC_XPRT_FOREACH_NONE ∧
      run_ops (each_f x a s).ops s = some s) :
    ∀ (post pre : List SVCXPRT) (x : SVCXPRT) (a : σ) (tr : List each_call) (fuel : Nat),
      nodes_at s p = pre ++ x :: post →
      foreach_run each_f (post.length + 2 + fuel)
          ⟨.node p r (gen_at s p) (some x), s, a, tr⟩ =
        foreach_run each_f fuel
          ⟨.part (p + 1), s, (visit_all each_f s (x :: post) a tr).1,
            (visit_all each_f s (x :: post) a tr).2⟩ := by
  intro post
  induction post with
  | nil =>
    intro pre x a tr fuel hn
    have hnd : (pre ++ [x]).Nodup := by rw [← hn]; exact fd_sorted_nodup (sorted_at_ix hs hp)
    have hx : x ∉ pre := by
      intro hmem
      have := List.nodup_append.mp hnd
      exact this.2.2 hmem (by simp)
    have hstep := step_node_some each_f p r (gen_at s p) x a tr (hv x a).2 hs hp
    have hpc : node_pc p r (gen_at s p) x (each_f x a s).rflag s =
        .node p r (gen_at s p) none := by
      unfold node_pc
      rw [(hv x a).1, hn, next_in_append hx]
      simp [SVC_XPRT_FOREACH_NONE, SVC_XPRT_FOREACH_CLEAR]
    rw [hpc] at hstep
    have e : ([] : List SVCXPRT).length + 2 + fuel = (fuel + 1) + 1 := by
      have := @List.length_nil SVCXPRT; omega
    rw [e, run_succ_inl hstep, run_succ_inl (step_node_none each_f p r (gen_at s p) s _ _)]
    rfl
  | cons y post ih =>
    intro pre x a tr fuel hn
    have hnd : (pre ++ x :: y :: post).Nodup := by
      rw [← hn]; exact fd_sorted_nodup (sorted_at_ix hs hp)
    have hx : x ∉ pre := by
      intro hmem
      have := List.nodup_append.mp hnd
      exact this.2.2 hmem (by simp)
    have hstep := step_node_some each_f p r (gen_at s p) x a tr (hv x a).2 hs hp
    have hpc : node_pc p r (gen_at s p) x (each_f x a s).rflag s =
        .node p r (gen_at s p) (some y) := by
      unfold node_pc
      rw [(hv x a).1, hn, next_in_append hx]
      simp [SVC_XPRT_FOREACH_NONE, SVC_XPRT_FOREACH_CLEAR]
    rw [hpc] at hstep
    have e : (y :: post).length + 2 + fuel = (post.length + 2 + fuel) + 1 := by
      have := List.length_cons y post; omega
    have hn' : nodes_at s p = (pre ++ [x]) ++ y :: post := by rw [hn]; simp
    rw [e, run_succ_inl hstep, ih (pre ++ [x]) y _ _ fuel hn']
    rfl

theorem quiet_part {σ : Type} (each_f : svc_xprt_each_func_t σ) {s : Registry} (hs : Inv s)
    {p : Nat} (hp : p < SVC_XPRT_PARTITIONS)
    (hv : ∀ x a, (each_f x a s).rflag = SVC_XPRT_FOREACH_NONE ∧
      run_ops (each_f x a s).ops s = some s)
    (a : σ) (tr : List each_call) (fuel : Nat) :
    foreach_run each_f ((nodes_at s p).length + 3 + fuel) ⟨.part p, s, a, tr⟩ =
      foreach_run each_f fuel
        ⟨.part (p + 1), s, (visit_all each_f s (nodes_at s p) a tr).1,
          (visit_all each_f s (nodes_at s p) a tr).2⟩ := by
  have e : (nodes_at s p).length + 3 + fuel = ((nodes_at s p).length + 1 + fuel) + 1 + 1 := by
    omega
  rw [e, run_succ_inl (step_part_lt each_f hp s a tr),
    run_succ_inl (step_restart each_f (by decide) hs hp a tr)]
  cases hn : nodes_at s p with
  | nil =>
    have e2 : ([] : List SVCXPRT).length + 1 + fuel = fuel + 1 := by
      have := @List.length_nil SVCXPRT; omega
    rw [e2]
    simp only [List.head?_nil]
    rw [run_succ_inl (step_node_none each_f p 1 (gen_at s p) s a tr)]
    rfl
  | cons x post =>
    have e2 : (x :: post).length + 1 + fuel = post.length + 2 + fuel := by
      have := List.length_cons x post; omega
    rw [e2]
    simp only [List.head?_cons]
    exact quiet_pass each_f hs hp 1 hv post [] x a tr fuel (by simpa using hn)

/-- The handles linked in the `n` partitions from partition `p` on, in the order
of the sweep. -/
def linked_from (s : Registry) : Nat → Nat → List SVCXPRT
  | 0, _ => []
  | n + 1, p => nodes_at s p ++ linked_from s n (p + 1)

theorem quiet_sweep {σ : Type} (each_f : svc_xprt_each_func_t σ) {s : Registry} (hs : Inv s)
    (hv : ∀ x a, (each_f x a s).rflag = SVC_XPRT_FOREACH_NONE ∧
      run_ops (each_f x a s).ops s = some s) :
    ∀ (n p : Nat) (a : σ) (tr : List each_call) (fuel : Nat),
      p + n = SVC_XPRT_PARTITIONS →
      foreach_run each_f ((linked_from s n p).length + 3 * n + 1 + fuel) ⟨.part p, s, a, tr⟩ =
        some ⟨0, s, (visit_all each_f s (linked_from s n p) a tr).1,
          (visit_all each_f s (linked_from s n p) a tr).2⟩ := by
  intro n
  induction n with
  | zero =>
    intro p a tr fuel hpn
    have hp : ¬ p < SVC_XPRT_PARTITIONS := by omega
    have e : (linked_from s 0 p).length + 3 * 0 + 1 + fuel = fuel + 1 := by
      have : (linked_from s 0 p).length = 0 := rfl
      omega
    rw [e, run_succ_inr (step_part_ge each_f hp s a tr)]
    rfl
  | succ n ih =>
    intro p a tr fuel hpn
    have hp : p < SVC_XPRT_PARTITIONS := by omega
    have e : (linked_from s (n + 1) p).length + 3 * (n + 1) + 1 + fuel =
        (nodes_at s p).length + 3 + ((linked_from s n (p + 1)).length + 3 * n + 1 + fuel) := by
      have : (linked_from s (n + 1) p).length =
          (nodes_at s p).length + (linked_from s n (p + 1)).length := by
        simp only [linked_from, List.length_append]
      omega
    rw [e, quiet_part each_f hs hp hv, ih (p + 1) _ _ fuel (by omega)]
    simp only [linked_from, visit_all_append]

theorem mem_linked_from {s : Registry} {y : SVCXPRT} :
    ∀ (n p : Nat), y ∈ linked_from s n p ↔ ∃ j, p ≤ j ∧ j < p + n ∧ y ∈ nodes_at s j := by
  intro n
  induction n with
  | zero =>
    intro p
    simp only [linked_from, List.not_mem_nil, false_iff]
    rintro ⟨j, h1, h2, _⟩
    omega
  | succ n ih =>
    intro p
    simp only [linked_from, List.mem_append, ih]
    constructor
    · rintro (h | ⟨j, h1, h2, h3⟩)
      · exact ⟨p, le_refl _, by omega, h⟩
      · exact ⟨j, by omega, by omega, h3⟩
    · rintro ⟨j, h1, h2, h3⟩
      by_cases hj : j = p
      · subst hj; exact Or.inl h3
      · exact Or.inr ⟨j, by omega, by omega, h3⟩

theorem nodup_linked_from {s : Registry} (hs : Inv s) :
    ∀ (n p : Nat), p + n ≤ SVC_XPRT_PARTITIONS → (linked_from s n p).Nodup := by
  intro n
  induction n with
  | zero => intro p _; simp [linked_from]
  | succ n ih =>
    intro p hpn
    have hp : p < SVC_XPRT_PARTITIONS := by omega
    simp only [linked_from]
    rw [List.nodup_append]
    refine ⟨fd_sorted_nodup (sorted_at_ix hs hp), ih (p + 1) (by omega), ?_⟩
    intro y hy1 hy2
    obtain ⟨j, h1, h2, h3⟩ := (mem_linked_from n (p + 1)).mp hy2
    have e1 := home_at hs hp hy1
    have e2 := home_at hs (by omega : j < SVC_XPRT_PARTITIONS) h3
    omega

theorem mem_linked_iff_valid {s : Registry} (hs : Inv s) (y : SVCXPRT) :
    y ∈ linked_from s SVC_XPRT_PARTITIONS 0 ↔ opr_rbtree_node_valid s y = true := by
  rw [valid_iff hs, mem_linked_from]
  constructor
  · rintro ⟨j, _, h2, h3⟩
    have := home_at hs (by omega : j < SVC_XPRT_PARTITIONS) h3
    rw [this]; exact h3
  · intro h
    exact ⟨home y.xp_fd, Nat.zero_le _, by have := home_lt y.xp_fd; omega, h⟩

/-- C6 (quiescent enumeration is exact): for a visitor that returns
`SVC_XPRT_FOREACH_NONE` and whose registry calls, if any, leave the registry as
it is, `svc_xprt_foreach` returns 0 once the fuel covers one transition per
handle plus 22, leaves the registry unchanged, and has invoked the visitor
exactly once on every linked handle and on nothing else, whatever the
distribution of the descriptors over the partitions. -/
theorem C6_quiescent_enumeration {σ : Type} (each_f : svc_xprt_each_func_t σ) (a : σ)
    (s : Registry) (hs : Reach s)
    (hv : ∀ x a, (each_f x a (cond_init_svc_xprt s)).rflag = SVC_XPRT_FOREACH_NONE ∧
      run_ops (each_f x a (cond_init_svc_xprt s)).ops (cond_init_svc_xprt s)
        = some (cond_init_svc_xprt s)) :
    ∃ r, (∀ fuel, (linked_from (cond_init_svc_xprt s) SVC_XPRT_PARTITIONS 0).length + 22 ≤ fuel →
        svc_xprt_foreach fuel each_f a s = some r) ∧
      r.code = 0 ∧ r.reg = cond_init_svc_xprt s ∧
      ∀ h, (r.calls.map each_call.xprt).count h =
        if opr_rbtree_node_valid s h = true then 1 else 0 := by
  have hinv := reach_inv hs
  refine ⟨⟨0, cond_init_svc_xprt s,
    (visit_all each_f (cond_init_svc_xprt s)
      (linked_from (cond_init_svc_xprt s) SVC_XPRT_PARTITIONS 0) a []).1,
    (visit_all each_f (cond_init_svc_xprt s)
      (linked_from (cond_init_svc_xprt s) SVC_XPRT_PARTITIONS 0) a []).2⟩, ?_, rfl, rfl, ?_⟩
  · intro fuel hfuel
    obtain ⟨k, rfl⟩ := Nat.exists_eq_add_of_le hfuel
    have := quiet_sweep each_f hinv hv SVC_XPRT_PARTITIONS 0 a [] k (by simp)
    have e : (linked_from (cond_init_svc_xprt s) SVC_XPRT_PARTITIONS 0).length + 22 + k =
        (linked_from (cond_init_svc_xprt s) SVC_XPRT_PARTITIONS 0).length
          + 3 * SVC_XPRT_PARTITIONS + 1 + k := by
      simp only [SVC_XPRT_PARTITIONS]
    unfold svc_xprt_foreach
    rw [e, this]
  · intro h
    simp only [visit_all_calls, List.map_nil, List.nil_append]
    rw [← valid_cond_init hs]
    by_cases hv' : opr_rbtree_node_valid (cond_init_svc_xprt s) h = true
    · simp only [hv', if_true]
      exact List.count_eq_one_of_mem (nodup_linked_from hinv _ _ (by simp))
        ((mem_linked_iff_valid hinv h).mpr hv')
    · simp only [hv', if_false]
      exact List.count_eq_zero_of_not_mem (fun hm => hv' ((mem_linked_iff_valid hinv h).mp hm))

/-- A visitor that counts its invocations, continues and touches nothing. -/
def counting_visitor : svc_xprt_each_func_t Nat :=
  fun _ n _ => ⟨SVC_XPRT_FOREACH_NONE, [], n + 1⟩

/-- Witness of C6: the counting visitor over a registry that holds descriptors
5 and 9. -/
theorem C6_quiescent_enumeration_witness :
    Reach reg_5_9 ∧
    ∃ r, (∀ fuel, (linked_from (cond_init_svc_xprt reg_5_9) SVC_XPRT_PARTITIONS 0).length + 22
          ≤ fuel → svc_xprt_foreach fuel counting_visitor 0 reg_5_9 = some r) ∧
      r.code = 0 ∧ r.reg = cond_init_svc_xprt reg_5_9 ∧
      ∀ h, (r.calls.map each_call.xprt).count h =
        if opr_rbtree_node_valid reg_5_9 h = true then 1 else 0 :=
  ⟨reach_5_9, C6_quiescent_enumeration counting_visitor 0 reg_5_9 reach_5_9
    (fun _ _ => ⟨rfl, rfl⟩)⟩

/-- The registry of the concrete scenario: descriptors 5, 9 and 14 in a
7-partition registry (partitions 5, 2 and 0). -/
def reg_5_9_14 : Registry :=
  ⟨true, ⟨7, some [⟨⟨[⟨14, 3⟩], 1⟩⟩, ⟨⟨[], 0⟩⟩, ⟨⟨[⟨9, 2⟩], 1⟩⟩, ⟨⟨[], 0⟩⟩, ⟨⟨[], 0⟩⟩,
    ⟨⟨[⟨5, 1⟩], 1⟩⟩, ⟨⟨[], 0⟩⟩]⟩⟩

theorem reach_5_9_14 : Reach reg_5_9_14 :=
  reach_run_ops (Reach.init Reach.static)
    [.set ⟨5, 1⟩ 0, .set ⟨9, 2⟩ 0, .set ⟨14, 3⟩ 0] (by decide)

/-- C7 (concrete scenario): from the empty 7-partition registry, inserting
descriptors 5, 9 and 14 gives a registry on which `svc_xprt_foreach` with the
counting visitor makes exactly 3 invocations and returns 0; after
`svc_xprt_clear` of the handle with descriptor 9, `svc_xprt_get 9` returns NULL
while `svc_xprt_get 5` and `svc_xprt_get 14` return their handles. -/
theorem C7_concrete_scenario :
    run_ops [.set ⟨5, 1⟩ 0, .set ⟨9, 2⟩ 0, .set ⟨14, 3⟩ 0] (svc_xprt_init svc_xprt_fd)
      = some reg_5_9_14 ∧
    (∀ fuel, 25 ≤ fuel → ∃ r, svc_xprt_foreach fuel counting_visitor 0 reg_5_9_14 = some r ∧
      r.code = 0 ∧ r.calls.length = 3 ∧ r.arg = 3 ∧ r.reg = reg_5_9_14) ∧
    ∃ s', svc_xprt_clear ⟨9, 2⟩ 0 reg_5_9_14 = some s' ∧
      svc_xprt_get 9 s' = some (none, s') ∧
      svc_xprt_get 5 s' = some (some ⟨5, 1⟩, s') ∧
      svc_xprt_get 14 s' = some (some ⟨14, 3⟩, s') := by
  refine ⟨by decide, ?_, ?_⟩
  · intro fuel hfuel
    obtain ⟨k, rfl⟩ := Nat.exists_eq_add_of_le hfuel
    have hinv : Inv reg_5_9_14 := reach_initialized reach_5_9_14 rfl
    have := quiet_sweep counting_visitor hinv (fun _ _ => ⟨rfl, rfl⟩)
      SVC_XPRT_PARTITIONS 0 0 [] k (by simp)
    refine ⟨_, this, rfl, rfl, rfl, rfl⟩
  · exact ⟨⟨true, ⟨7, some [⟨⟨[⟨14, 3⟩], 1⟩⟩, ⟨⟨[], 0⟩⟩, ⟨⟨[], 2⟩⟩, ⟨⟨[], 0⟩⟩, ⟨⟨[], 0⟩⟩,
      ⟨⟨[⟨5, 1⟩], 1⟩⟩, ⟨⟨[], 0⟩⟩]⟩⟩, by decide, by decide, by decide, by decide⟩

/-! ## Coverage of handles that stay registered -/

theorem sorted_fd_inj {l : List SVCXPRT} (hs : fd_sorted l) {x y : SVCXPRT} (hx : x ∈ l)
    (hy : y ∈ l) (hxy : x.xp_fd = y.xp_fd) : x = y := by
  have h1 : lookup_nodes y.xp_fd l = some x := (lookup_nodes_some hs).mpr ⟨hx, hxy⟩
  have h2 : lookup_nodes y.xp_fd l = some y := (lookup_nodes_some hs).mpr ⟨hy, rfl⟩
  rw [h1] at h2
  exact Option.some.inj h2

theorem next_cover {l : List SVCXPRT} (hs : fd_sorted l) {n h : SVCXPRT} (hn : n ∈ l)
    (hh : h ∈ l) (hlt : n.xp_fd < h.xp_fd) :
    ∃ m, next_in n l = some m ∧ m.xp_fd ≤ h.xp_fd := by
  cases hnx : next_in n l with
  | none =>
    have := next_in_none hs hn hnx h hh
    omega
  | some m =>
    exact ⟨m, rfl, (next_in_some hs hnx).2.2 h hh hlt⟩

/-- Progress of the sweep towards the handle `h`, read off the control point:
its partition is still ahead, or the cursor of the current pass over its
partition has not gone beyond its descriptor. -/
def pc_cover (h : SVCXPRT) : foreach_pc → Prop
  | .part p => p ≤ home h.xp_fd
  | .restart p _ => p ≤ home h.xp_fd
  | .node p _ _ n =>
    p < home h.xp_fd ∨ (p = home h.xp_fd ∧ ∃ x, n = some x ∧ x.xp_fd ≤ h.xp_fd)

/-- The sweep has not missed `h`: it was already passed to the visitor, or the
sweep is still on its way to it. -/
def cover {σ : Type} (h : SVCXPRT) (c : foreach_state σ) : Prop :=
  (∃ e ∈ c.calls, e.xprt = h) ∨ pc_cover h c.pc

/-- The invariant behind the coverage claim: as long as `h` was linked after every
visitor invocation made so far, it is linked now and the sweep has not
missed it. -/
def cover_inv {σ : Type} (h : SVCXPRT) (c : foreach_state σ) : Prop :=
  Good c ∧ ((∀ e ∈ c.calls, opr_rbtree_node_valid e.after h = true) →
    opr_rbtree_node_valid c.reg h = true ∧ cover h c)

theorem node_pc_cover {s s' : Registry} (hs : Inv s) (hs' : Inv s') {p k tgen : Nat}
    {x h : SVCXPRT} (rflag : Nat) (hp : p < SVC_XPRT_PARTITIONS)
    (hg : tgen ≤ gen_at s p) (hx : x ∈ nodes_at s p)
    (hmono : gen_at s p ≤ gen_at s' p)
    (hsame : gen_at s' p = gen_at s p → part_at s' p = part_at s p)
    (hh : h ∈ nodes_at s (home h.xp_fd)) (hh' : h ∈ nodes_at s' (home h.xp_fd))
    (hne : x ≠ h)
    (hc : p < home h.xp_fd ∨ (p = home h.xp_fd ∧ x.xp_fd ≤ h.xp_fd)) :
    pc_cover h (node_pc p k tgen x rflag s') := by
  have hple : p ≤ home h.xp_fd := by rcases hc with hc | hc <;> omega
  have hsort' := sorted_at_ix hs' hp
  -- the descriptor of the visited handle is strictly below that of `h`
  have hlt : p = home h.xp_fd → x.xp_fd < h.xp_fd := by
    intro hph
    rcases hc with hc | hc
    · omega
    · have hne' : x.xp_fd ≠ h.xp_fd := by
        intro heq
        rw [hph] at hx
        exact hne (sorted_fd_inj (sorted_at hs _) hx hh heq)
      omega
  unfold node_pc
  by_cases h1 : rflag = SVC_XPRT_FOREACH_CLEAR
  · rw [if_pos h1]; exact hple
  · rw [if_neg h1]
    by_cases h2 : tgen ≠ gen_at s' p
    · rw [if_pos h2]
      cases hn : lookup_nodes x.xp_fd (nodes_at s' p) with
      | none => exact hple
      | some n =>
        have hnm := lookup_nodes_mem hn
        show _ ∨ _
        by_cases hph : p = home h.xp_fd
        · right
          refine ⟨hph, ?_⟩
          rw [← hph] at hh'
          obtain ⟨m, hm1, hm2⟩ := next_cover hsort' hnm.1 hh' (by rw [hnm.2]; exact hlt hph)
          exact ⟨m, hm1, hm2⟩
        · left; omega
    · rw [if_neg h2]
      have hgen' : tgen = gen_at s' p := by
        by_contra hcon; exact h2 hcon
      have hx' : x ∈ nodes_at s' p := by
        unfold nodes_at
        rw [hsame (by omega)]
        exact hx
      show _ ∨ _
      by_cases hph : p = home h.xp_fd
      · right
        refine ⟨hph, ?_⟩
        rw [← hph] at hh'
        obtain ⟨m, hm1, hm2⟩ := next_cover hsort' hx' hh' (hlt hph)
        exact ⟨m, hm1, hm2⟩
      · left; omega

theorem cover_step {σ : Type} (each_f : svc_xprt_each_func_t σ) (h : SVCXPRT)
    (c c' : foreach_state σ) (hc : cover_inv h c)
    (hstep : foreach_step each_f c = some (.inl c')) : cover_inv h c' := by
  obtain ⟨hgood, himp⟩ := hc
  have hgood' : Good c' := by
    obtain ⟨o, ho, hg⟩ := step_good each_f hgood
    rw [ho] at hstep
    exact hg c' (Option.some.inj hstep)
  refine ⟨hgood', ?_⟩
  obtain ⟨pc, s, a, tr⟩ := c
  obtain ⟨hs, hpc⟩ := hgood
  simp only at hs hpc himp
  cases pc with
  | part p =>
    by_cases hp : p < SVC_XPRT_PARTITIONS
    · rw [step_part_lt each_f hp] at hstep
      cases hstep
      intro hall
      obtain ⟨hv, hcov⟩ := himp hall
      exact ⟨hv, hcov⟩
    · rw [step_part_ge each_f hp] at hstep; cases hstep
  | restart p k =>
    by_cases hr : k < 5
    · rw [step_restart each_f hr hs hpc] at hstep
      cases hstep
      intro hall
      obtain ⟨hv, hcov⟩ := himp hall
      refine ⟨hv, ?_⟩
      rcases hcov with hvis | hle
      · exact Or.inl hvis
      · right
        have hle : p ≤ home h.xp_fd := hle
        show _ ∨ _
        by_cases hph : p = home h.xp_fd
        · right
          refine ⟨hph, ?_⟩
          have hmem := (valid_iff hs h).mp hv
          rw [← hph] at hmem
          cases hn : nodes_at s p with
          | nil => rw [hn] at hmem; cases hmem
          | cons y l =>
            refine ⟨y, rfl, ?_⟩
            have := head_mem_min (sorted_at_ix hs hpc) (by rw [hn]; rfl : (nodes_at s p).head? = some y)
            exact this.2 h hmem
        · left; omega
    · rw [step_restart_over each_f (by omega)] at hstep; cases hstep
  | node p k tgen n =>
    cases n with
    | none =>
      rw [step_node_none] at hstep
      cases hstep
      intro hall
      obtain ⟨hv, hcov⟩ := himp hall
      refine ⟨hv, ?_⟩
      rcases hcov with hvis | hle
      · exact Or.inl hvis
      · right
        have hle : p < home h.xp_fd ∨ (p = home h.xp_fd ∧ ∃ y, (none : Option SVCXPRT) = some y
            ∧ y.xp_fd ≤ h.xp_fd) := hle
        show p + 1 ≤ home h.xp_fd
        rcases hle with hlt | ⟨_, y, hy, _⟩
        · omega
        · cases hy
    | some x =>
      obtain ⟨s', h1, h2, h3, h4, _⟩ := ops_frame hs (each_f x a s).ops
      rw [step_node_some each_f p k tgen x a tr h1 h2 hpc.1] at hstep
      cases hstep
      intro hall
      simp only at hall
      have hall0 : ∀ e ∈ tr, opr_rbtree_node_valid e.after h = true :=
        fun e he => hall e (List.mem_append_left _ he)
      have hv' : opr_rbtree_node_valid s' h = true :=
        hall ⟨x, (each_f x a s).rflag, s'⟩ (by simp)
      obtain ⟨hv, hcov⟩ := himp hall0
      refine ⟨hv', ?_⟩
      by_cases hxh : x = h
      · left
        exact ⟨⟨x, (each_f x a s).rflag, s'⟩, by simp, hxh⟩
      · rcases hcov with ⟨e, he, heq⟩ | hle
        · left
          exact ⟨e, List.mem_append_left _ he, heq⟩
        · right
          have hle : p < home h.xp_fd ∨ (p = home h.xp_fd ∧ ∃ y, some x = some y
              ∧ y.xp_fd ≤ h.xp_fd) := hle
          have hle' : p < home h.xp_fd ∨ (p = home h.xp_fd ∧ x.xp_fd ≤ h.xp_fd) := by
            rcases hle with hlt | ⟨hph, y, hy, hyle⟩
            · exact Or.inl hlt
            · cases hy; exact Or.inr ⟨hph, hyle⟩
          exact node_pc_cover hs h2 (each_f x a s).rflag hpc.1 hpc.2.1 (hpc.2.2 x rfl)
            (h3 p) (h4 p) ((valid_iff hs h).mp hv) ((valid_iff h2 h).mp hv') hxh hle'

/-- C8 (at-least-once coverage under mutation): for every visitor, whatever
registry calls it makes and whatever verdicts it returns, if
`svc_xprt_foreach` returns 0 then a handle that was linked when the call began
and was linked whenever the visitor returned has been passed to the visitor. -/
theorem C8_coverage_under_mutation {σ : Type} (each_f : svc_xprt_each_func_t σ) (a : σ)
    (s : Registry) (fuel : Nat) (r : foreach_result σ) (h : SVCXPRT) (hs : Reach s)
    (hrun : svc_xprt_foreach fuel each_f a s = some r) (hcode : r.code = 0)
    (hbegin : opr_rbtree_node_valid s h = true)
    (hstay : ∀ e ∈ r.calls, opr_rbtree_node_valid e.after h = true) :
    ∃ e ∈ r.calls, e.xprt = h := by
  have hinv := reach_inv hs
  have hstart : cover_inv h (⟨.part 0, cond_init_svc_xprt s, a, []⟩ : foreach_state σ) := by
    refine ⟨good_start a hinv, fun _ => ⟨?_, Or.inr (Nat.zero_le (home h.xp_fd))⟩⟩
    rw [valid_cond_init hs]; exact hbegin
  obtain ⟨c, hc, hlast⟩ := run_invariant each_f (cover_inv h) (cover_step each_f h) fuel _ r
    hstart hrun
  obtain ⟨_, _, hcalls, hcase⟩ := step_ret each_f hc.1 hlast
  rw [hcalls] at hstay ⊢
  obtain ⟨_, hcov⟩ := hc.2 hstay
  rcases hcase with ⟨_, p, hpc, hp⟩ | ⟨h1, _⟩
  · rcases hcov with hvis | hle
    · exact hvis
    · rw [hpc] at hle
      have hle : p ≤ home h.xp_fd := hle
      have := home_lt h.xp_fd
      omega
  · rw [hcode] at h1; cases h1

/-- A visitor that, when shown descriptor 14, removes the handle with descriptor 9
and inserts one with descriptor 21 into the partition being scanned. -/
def churn_visitor : svc_xprt_each_func_t Nat :=
  fun x n _ =>
    if x.xp_fd = 14 then ⟨SVC_XPRT_FOREACH_NONE, [.clear ⟨9, 2⟩ 0, .set ⟨21, 4⟩ 0], n + 1⟩
    else ⟨SVC_XPRT_FOREACH_NONE, [], n + 1⟩

/-- What the sweep with `churn_visitor` over descriptors 5, 9 and 14 leaves. -/
def churn_result : foreach_result Nat :=
  (svc_xprt_foreach 40 churn_visitor 0 reg_5_9_14).getD ⟨1, svc_xprt_fd, 0, []⟩

/-- Witness of C8: under `churn_visitor` the handle with descriptor 5 stays
linked and is visited. -/
theorem C8_coverage_under_mutation_witness :
    Reach reg_5_9_14 ∧
    svc_xprt_foreach 40 churn_visitor 0 reg_5_9_14 = some churn_result ∧
    churn_result.code = 0 ∧
    opr_rbtree_node_valid reg_5_9_14 ⟨5, 1⟩ = true ∧
    (∀ e ∈ churn_result.calls, opr_rbtree_node_valid e.after ⟨5, 1⟩ = true) ∧
    ∃ e ∈ churn_result.calls, e.xprt = ⟨5, 1⟩ :=
  ⟨reach_5_9_14, rfl, rfl, by decide, by decide,
    C8_coverage_under_mutation churn_visitor 0 reg_5_9_14 40 churn_result ⟨5, 1⟩ reach_5_9_14
      rfl rfl (by decide) (by decide)⟩

/-! ## Running out the restart budget -/

theorem run_mono {σ : Type} (each_f : svc_xprt_each_func_t σ) :
    ∀ (n : Nat) (c : foreach_state σ) (r : foreach_result σ),
      foreach_run each_f n c = some r → ∀ k, foreach_run each_f (n + k) c = some r := by
  intro n
  induction n with
  | zero => intro c r h; simp [foreach_run] at h
  | succ n ih =>
    intro c r h k
    have e : n + 1 + k = (n + k) + 1 := by omega
    rw [e]
    unfold foreach_run at h ⊢
    cases hstep : foreach_step each_f c with
    | none => simp [hstep] at h
    | some o =>
      cases o with
      | inl c' =>
        simp only [hstep] at h ⊢
        exact ih c' r h k
      | inr r' =>
        simp only [hstep] at h ⊢
        exact h

theorem run_mono_le {σ : Type} (each_f : svc_xprt_each_func_t σ) {n m : Nat}
    {c : foreach_state σ} {r : foreach_result σ} (h : foreach_run each_f n c = some r)
    (hnm : n ≤ m) : foreach_run each_f m c = some r := by
  obtain ⟨k, rfl⟩ := Nat.exists_eq_add_of_le hnm
  exact run_mono each_f n c r h k

theorem skip_empty {σ : Type} (each_f : svc_xprt_each_func_t σ) {s : Registry} (hs : Inv s)
    {p : Nat} (hp : p < SVC_XPRT_PARTITIONS) (hn : nodes_at s p = []) (a : σ)
    (tr : List each_call) (fuel : Nat) :
    foreach_run each_f (fuel + 3) ⟨.part p, s, a, tr⟩ =
      foreach_run each_f fuel ⟨.part (p + 1), s, a, tr⟩ := by
  rw [run_succ_inl (step_part_lt each_f hp s a tr),
    run_succ_inl (step_restart each_f (by decide) hs hp a tr), hn]
  exact run_succ_inl (step_node_none each_f p 1 (gen_at s p) s a tr) fuel

/-- A visitor invocation that removes the visited handle `x` and links a handle
with the same descriptor leaves the partition of `x` non-empty. -/
theorem reinsert_keeps {s : Registry} (hs : Inv s) {p : Nat} (hp : p < SVC_XPRT_PARTITIONS)
    {x y : SVCXPRT} (hx : x ∈ nodes_at s p) (hxy : y.xp_fd = x.xp_fd) (f1 f2 : Nat) :
    ∃ s', run_ops [.clear x f1, .set y f2] s = some s' ∧ Inv s' ∧ nodes_at s' p ≠ [] := by
  have hh : home x.xp_fd = p := home_at hs hp hx
  rw [← hh] at hx
  obtain ⟨s1, h1, h2, h3, _, _⟩ := clear_linked hs f1 hx
  have hl : lookup_nodes y.xp_fd (nodes_at s1 (home y.xp_fd)) = none := by
    rw [hxy, h3, lookup_erase (sorted_at hs _) hx]
    simp
  obtain ⟨s2, k1, k2, k3, k4, _, _⟩ := set_fresh h2 f2 hl
  refine ⟨s2, by simp [run_ops, reg_op.run, h1, k1], k2, ?_⟩
  rw [← hh, ← hxy]
  intro hnil
  have : y ∈ nodes_at s2 (home y.xp_fd) := by rw [k3, insert_mem k4]; exact Or.inl rfl
  rw [hnil] at this
  cases this

theorem adversary_loop {σ : Type} (each_f : svc_xprt_each_func_t σ) {p : Nat}
    (hp : p < SVC_XPRT_PARTITIONS)
    (hadv : ∀ x a r, (each_f x a r).rflag = SVC_XPRT_FOREACH_CLEAR ∧
      ∃ y f1 f2, y.xp_fd = x.xp_fd ∧ (each_f x a r).ops = [.clear x f1, .set y f2]) :
    ∀ (k : Nat), k ≤ 5 → ∀ (s : Registry) (a : σ) (tr : List each_call), Inv s →
      nodes_at s p ≠ [] →
      ∃ r, foreach_run each_f (2 * k + 1) ⟨.restart p (5 - k), s, a, tr⟩ = some r ∧
        r.code = 1 ∧ r.calls.length = tr.length + k := by
  intro k
  induction k with
  | zero =>
    intro _ s a tr _ _
    exact ⟨_, run_succ_inr (step_restart_over each_f (le_refl 5) s a tr) 0, rfl, rfl⟩
  | succ k ih =>
    intro hk s a tr hs hne
    have hr : 5 - (k + 1) < 5 := by omega
    cases hn : nodes_at s p with
    | nil => exact absurd hn hne
    | cons x l =>
      have hx : x ∈ nodes_at s p := by rw [hn]; simp
      obtain ⟨hflag, y, f1, f2, hxy, hops⟩ := hadv x a s
      obtain ⟨s', h1, h2, h3⟩ := reinsert_keeps hs hp hx hxy f1 f2
      rw [← hops] at h1
      have hstep := step_node_some each_f p (5 - (k + 1) + 1) (gen_at s p) x a tr h1 h2 hp
      have hpc : node_pc p (5 - (k + 1) + 1) (gen_at s p) x (each_f x a s).rflag s' =
          .restart p (5 - k) := by
        unfold node_pc
        rw [if_pos hflag]
        congr 1
        omega
      rw [hpc] at hstep
      obtain ⟨r, hr1, hr2, hr3⟩ := ih (by omega) s' (each_f x a s).arg
        (tr ++ [⟨x, (each_f x a s).rflag, s'⟩]) h2 h3
      refine ⟨r, ?_, hr2, ?_⟩
      · have e : 2 * (k + 1) + 1 = (2 * k + 1) + 1 + 1 := by omega
        rw [e, run_succ_inl (step_restart each_f hr hs hp a tr), hn]
        simp only [List.head?_cons]
        rw [run_succ_inl hstep]
        exact hr1
      · rw [hr3]; simp; omega

theorem adversary_sweep {σ : Type} (each_f : svc_xprt_each_func_t σ)
    (hadv : ∀ x a r, (each_f x a r).rflag = SVC_XPRT_FOREACH_CLEAR ∧
      ∃ y f1 f2, y.xp_fd = x.xp_fd ∧ (each_f x a r).ops = [.clear x f1, .set y f2])
    {s : Registry} (hs : Inv s) (a : σ) (tr : List each_call) :
    ∀ (n p : Nat), p + n = SVC_XPRT_PARTITIONS →
      (∃ j, p ≤ j ∧ j < SVC_XPRT_PARTITIONS ∧ nodes_at s j ≠ []) →
      ∃ r, foreach_run each_f (3 * n + 9) ⟨.part p, s, a, tr⟩ = some r ∧
        r.code = 1 ∧ r.calls.length = tr.length + 5 := by
  intro n
  induction n with
  | zero =>
    intro p hpn ⟨j, h1, h2, _⟩
    omega
  | succ n ih =>
    intro p hpn ⟨j, h1, h2, h3⟩
    have hp : p < SVC_XPRT_PARTITIONS := by omega
    by_cases hn : nodes_at s p = []
    · have hj : p + 1 ≤ j := by
        by_contra hcon
        have : j = p := by omega
        subst this
        exact h3 hn
      obtain ⟨r, hr1, hr2, hr3⟩ := ih (p + 1) (by omega) ⟨j, hj, h2, h3⟩
      refine ⟨r, ?_, hr2, hr3⟩
      have e : 3 * (n + 1) + 9 = (3 * n + 9) + 3 := by omega
      rw [e, skip_empty each_f hs hp hn]
      exact hr1
    · obtain ⟨r, hr1, hr2, hr3⟩ := adversary_loop each_f hp hadv 5 (le_refl 5) s a tr hs hn
      refine ⟨r, ?_, hr2, hr3⟩
      have e : 3 * (n + 1) + 9 = (2 * 5 + 1 + 3 * n) + 1 := by omega
      rw [e, run_succ_inl (step_part_lt each_f hp s a tr)]
      exact run_mono each_f _ _ r hr1 _

/-- C10 (adversarial re-insert is reported as incomplete): on a registry that
holds at least one handle, if on every invocation the visitor removes the visited
handle, links a handle with the same descriptor and returns
`SVC_XPRT_FOREACH_CLEAR`, then `svc_xprt_foreach` returns 1 after exactly five
visitor invocations (for every fuel of at least 30 transitions). -/
theorem C10_adversarial_reinsert {σ : Type} (each_f : svc_xprt_each_func_t σ) (a : σ)
    (s : Registry) (hs : Reach s) (hne : ∃ x, opr_rbtree_node_valid s x = true)
    (hadv : ∀ x a r, (each_f x a r).rflag = SVC_XPRT_FOREACH_CLEAR ∧
      ∃ y f1 f2, y.xp_fd = x.xp_fd ∧ (each_f x a r).ops = [.clear x f1, .set y f2]) :
    ∃ r, (∀ fuel, 30 ≤ fuel → svc_xprt_foreach fuel each_f a s = some r) ∧
      r.code = 1 ∧ r.calls.length = 5 := by
  have hinv := reach_inv hs
  obtain ⟨x, hx⟩ := hne
  rw [← valid_cond_init hs] at hx
  have hmem := (valid_iff hinv x).mp hx
  obtain ⟨r, hr1, hr2, hr3⟩ := adversary_sweep each_f hadv hinv a [] SVC_XPRT_PARTITIONS 0
    (by simp) ⟨home x.xp_fd, Nat.zero_le _, home_lt _, fun h => by rw [h] at hmem; cases hmem⟩
  refine ⟨r, ?_, hr2, by simpa using hr3⟩
  intro fuel hfuel
  exact run_mono_le each_f hr1 (by simp only [SVC_XPRT_PARTITIONS]; omega)

/-- The adversary: remove the visited handle, link a new handle with the same
descriptor, ask for a restart. -/
def adversary : svc_xprt_each_func_t Nat :=
  fun x n _ =>
    ⟨SVC_XPRT_FOREACH_CLEAR, [.clear x 0, .set ⟨x.xp_fd, x.xp_id + 100⟩ 0], n + 1⟩

/-- Witness of C10: the adversary on the registry holding descriptors 5, 9, 14. -/
theorem C10_adversarial_reinsert_witness :
    Reach reg_5_9_14 ∧ (∃ x, opr_rbtree_node_valid reg_5_9_14 x = true) ∧
    ∃ r, (∀ fuel, 30 ≤ fuel → svc_xprt_foreach fuel adversary 0 reg_5_9_14 = some r) ∧
      r.code = 1 ∧ r.calls.length = 5 :=
  ⟨reach_5_9_14, ⟨⟨5, 1⟩, by decide⟩,
    C10_adversarial_reinsert adversary 0 reg_5_9_14 reach_5_9_14 ⟨⟨5, 1⟩, by decide⟩
      (fun x _ _ => ⟨rfl, ⟨x.xp_fd, x.xp_id + 100⟩, 0, 0, rfl, rfl⟩)⟩

/-! ## Termination of the enumeration -/

/-- Every linked handle carries a descriptor that fits a C `int`. -/
def in_range (s : Registry) : Prop := ∀ j y, y ∈ nodes_at s j → int_range y.xp_fd

/-- Transitions still to go, at most, from a control point: whole partitions
ahead, passes left in the restart budget, and descriptors left above the
cursor in the current pass. -/
def mu : foreach_pc → Nat
  | .part p => (7 - p) * 21474836491
  | .restart p r => (7 - (p + 1)) * 21474836491 + (5 - r) * 4294967298
  | .node p r _ none => (7 - (p + 1)) * 21474836491 + (5 - r) * 4294967298 + 1
  | .node p r _ (some x) =>
    (7 - (p + 1)) * 21474836491 + (5 - r) * 4294967298 + (INT_MAX - x.xp_fd).toNat + 2

/-- Transitions that always suffice for `svc_xprt_foreach` to return. -/
def foreach_fuel : Nat := 150323855438

theorem mu_node_bound (p r tgen : Nat) (n : Option SVCXPRT)
    (hn : ∀ x, n = some x → int_range x.xp_fd) :
    mu (.node p r tgen n) ≤
      (7 - (p + 1)) * 21474836491 + (5 - r) * 4294967298 + 4294967297 := by
  cases n with
  | none => simp only [mu]; omega
  | some x =>
    have := hn x rfl
    unfold int_range INT_MIN INT_MAX at this
    simp only [mu, INT_MAX]
    omega

theorem mu_node_pc {s' : Registry} (hs' : Inv s') (hr' : in_range s') {p r tgen : Nat}
    (hp : p < SVC_XPRT_PARTITIONS) {x : SVCXPRT} (hx : int_range x.xp_fd) (rflag : Nat) :
    mu (node_pc p r tgen x rflag s') < mu (.node p r tgen (some x)) := by
  have hsort := sorted_at_ix hs' hp
  have key : ∀ n : SVCXPRT, n.xp_fd = x.xp_fd →
      mu (.node p r tgen (next_in n (nodes_at s' p))) < mu (.node p r tgen (some x)) := by
    intro n hnx
    cases hm : next_in n (nodes_at s' p) with
    | none => simp only [mu]; omega
    | some m =>
      have h1 := next_in_some hsort hm
      have h2 := hr' p m h1.1
      unfold int_range INT_MIN INT_MAX at h2 hx
      simp only [mu, INT_MAX]
      omega
  unfold node_pc
  by_cases h1 : rflag = SVC_XPRT_FOREACH_CLEAR
  · rw [if_pos h1]; simp only [mu]; omega
  · rw [if_neg h1]
    by_cases h2 : tgen ≠ gen_at s' p
    · rw [if_pos h2]
      cases hn : lookup_nodes x.xp_fd (nodes_at s' p) with
      | none => simp only [mu]; omega
      | some n => exact key n (lookup_nodes_mem hn).2
    · rw [if_neg h2]
      exact key x rfl

theorem term_run {σ : Type} (each_f : svc_xprt_each_func_t σ)
    (hv : ∀ x a r, ∀ op ∈ (each_f x a r).ops, int_range op.xprt.xp_fd) :
    ∀ (n : Nat) (c : foreach_state σ), Good c → in_range c.reg → mu c.pc < n →
      ∃ r, foreach_run each_f n c = some r := by
  intro n
  induction n with
  | zero => intro c _ _ h; omega
  | succ n ih =>
    intro c hgood hrange hmu
    obtain ⟨pc, s, a, tr⟩ := c
    obtain ⟨hs, hpc⟩ := hgood
    simp only at hs hpc hrange hmu
    cases pc with
    | part p =>
      by_cases hp : p < SVC_XPRT_PARTITIONS
      · rw [run_succ_inl (step_part_lt each_f hp s a tr)]
        apply ih ⟨.restart p 0, s, a, tr⟩ ⟨hs, hp⟩ hrange
        simp only [mu, SVC_XPRT_PARTITIONS] at hmu hp ⊢
        omega
      · exact ⟨_, run_succ_inr (step_part_ge each_f hp s a tr) n⟩
    | restart p r =>
      by_cases hr : r < 5
      · rw [run_succ_inl (step_restart each_f hr hs hpc a tr)]
        have hok : pc_ok s (.node p (r + 1) (gen_at s p) (nodes_at s p).head?) :=
          ⟨hpc, le_refl _, fun x hx => (head_mem_min (sorted_at_ix hs hpc) hx).1⟩
        apply ih ⟨.node p (r + 1) (gen_at s p) (nodes_at s p).head?, s, a, tr⟩ ⟨hs, hok⟩ hrange
        have := mu_node_bound p (r + 1) (gen_at s p) (nodes_at s p).head?
          (fun x hx => hrange p x (hok.2.2 x hx))
        simp only [mu] at hmu
        simp only
        omega
      · exact ⟨_, run_succ_inr (step_restart_over each_f (by omega) s a tr) n⟩
    | node p r tgen m =>
      cases m with
      | none =>
        rw [run_succ_inl (step_node_none each_f p r tgen s a tr)]
        apply ih ⟨.part (p + 1), s, a, tr⟩ ⟨hs, trivial⟩ hrange
        simp only [mu, SVC_XPRT_PARTITIONS] at hmu hpc ⊢
        omega
      | some x =>
        obtain ⟨s', h1, h2, h3, _, h5⟩ := ops_frame hs (each_f x a s).ops
        have hrange' : in_range s' := by
          intro j y hy
          rcases h5 j y hy with hy | ⟨op, hop, rfl⟩
          · exact hrange j y hy
          · exact hv x a s op hop
        rw [run_succ_inl (step_node_some each_f p r tgen x a tr h1 h2 hpc.1)]
        refine ih _ ?_ hrange' ?_
        · exact ⟨h2, node_pc_ok h2 x _ hpc.1 (le_trans hpc.2.1 (h3 p))⟩
        have : mu (node_pc p r tgen x (each_f x a s).rflag s') < mu (.node p r tgen (some x)) :=
          mu_node_pc h2 hrange' hpc.1 (hrange p x (hpc.2.2 x rfl)) (each_f x a s).rflag
        simp only at hmu ⊢
        omega

theorem nodes_at_ge {s : Registry} (hs : Inv s) {j : Nat} (hj : SVC_XPRT_PARTITIONS ≤ j) :
    nodes_at s j = [] := by
  obtain ⟨_, _, tr, htr, hlen, _⟩ := hs
  have : tr[j]? = none := by rw [List.getElem?_eq_none_iff]; omega
  unfold nodes_at part_at rbtx_partition_of_ix
  rw [htr]
  simp [this, opr_rbtree_init]

theorem in_range_of_valid {s : Registry} (hs : Inv s)
    (h : ∀ x, opr_rbtree_node_valid s x = true → int_range x.xp_fd) : in_range s := by
  intro j y hy
  by_cases hj : j < SVC_XPRT_PARTITIONS
  · apply h
    rw [valid_iff hs, home_at hs hj hy]
    exact hy
  · rw [nodes_at_ge hs (by omega)] at hy
    cases hy

theorem step_calls {σ : Type} (each_f : svc_xprt_each_func_t σ) {c c' : foreach_state σ}
    (hc : Good c) (h : foreach_step each_f c = some (.inl c')) :
    c.calls.length ≤ c'.calls.length ∧ c'.calls.length ≤ c.calls.length + 1 := by
  obtain ⟨pc, s, a, tr⟩ := c
  obtain ⟨hs, hpc⟩ := hc
  simp only at hs hpc
  cases pc with
  | part p =>
    by_cases hp : p < SVC_XPRT_PARTITIONS
    · rw [step_part_lt each_f hp] at h; cases h; simp
    · rw [step_part_ge each_f hp] at h; cases h
  | restart p k =>
    by_cases hr : k < 5
    · rw [step_restart each_f hr hs hpc] at h; cases h; simp
    · rw [step_restart_over each_f (by omega)] at h; cases h
  | node p k tgen n =>
    cases n with
    | none => rw [step_node_none] at h; cases h; simp
    | some x =>
      obtain ⟨s', h1, h2, _⟩ := ops_frame hs (each_f x a s).ops
      rw [step_node_some each_f p k tgen x a tr h1 h2 hpc.1] at h
      cases h
      simp

theorem good_step {σ : Type} (each_f : svc_xprt_each_func_t σ) {c c' : foreach_state σ}
    (hc : Good c) (h : foreach_step each_f c = some (.inl c')) : Good c' := by
  obtain ⟨o, ho, hg⟩ := step_good each_f hc
  rw [ho] at h
  exact hg c' (Option.some.inj h)

theorem run_calls {σ : Type} (each_f : svc_xprt_each_func_t σ) :
    ∀ (n : Nat) (c : foreach_state σ) (r : foreach_result σ), Good c →
      foreach_run each_f n c = some r → r.calls.length ≤ c.calls.length + n := by
  intro n
  induction n with
  | zero => intro c r _ h; simp [foreach_run] at h
  | succ n ih =>
    intro c r hc h
    unfold foreach_run at h
    cases hstep : foreach_step each_f c with
    | none => simp [hstep] at h
    | some o =>
      cases o with
      | inl c' =>
        simp only [hstep] at h
        have := ih c' r (good_step each_f hc hstep) h
        have := (step_calls each_f hc hstep).2
        omega
      | inr r' =>
        simp only [hstep, Option.some.injEq] at h
        subst h
        rw [(step_ret each_f hc hstep).2.2.1]
        omega

/-- C9, amended (enumeration always terminates): for every reachable registry
and every visitor, whatever registry calls it makes and whatever verdicts it
returns, as long as all descriptors involved fit a C `int`,
`svc_xprt_foreach` returns within `foreach_fuel` transitions, hence after at
most that many visitor invocations.  The bound is made of at most five passes
per partition (the restart budget) times the length of a pass, which is limited
by the descriptor range because the descriptors visited within one pass
strictly increase. -/
theorem C9_foreach_terminates {σ : Type} (each_f : svc_xprt_each_func_t σ) (a : σ)
    (s : Registry) (hs : Reach s)
    (hreg : ∀ x, opr_rbtree_node_valid s x = true → int_range x.xp_fd)
    (hv : ∀ x a r, ∀ op ∈ (each_f x a r).ops, int_range op.xprt.xp_fd) :
    ∃ r, (∀ fuel, foreach_fuel ≤ fuel → svc_xprt_foreach fuel each_f a s = some r) ∧
      r.calls.length ≤ foreach_fuel := by
  have hinv := reach_inv hs
  have hrange : in_range (cond_init_svc_xprt s) := by
    apply in_range_of_valid hinv
    intro x hx
    rw [valid_cond_init hs] at hx
    exact hreg x hx
  obtain ⟨r, hr⟩ := term_run each_f hv foreach_fuel ⟨.part 0, cond_init_svc_xprt s, a, []⟩
    (good_start a hinv) hrange (by simp only [mu, foreach_fuel]; omega)
  refine ⟨r, fun fuel hfuel => run_mono_le each_f hr hfuel, ?_⟩
  have := run_calls each_f _ _ r (good_start a hinv) hr
  simpa using this

/-- Witness of C9 (amended): the churning visitor on the registry holding 5, 9, 14. -/
theorem C9_foreach_terminates_witness :
    Reach reg_5_9_14 ∧
    (∀ x, opr_rbtree_node_valid reg_5_9_14 x = true → int_range x.xp_fd) ∧
    (∀ x a r, ∀ op ∈ (churn_visitor x a r).ops, int_range op.xprt.xp_fd) ∧
    ∃ r, (∀ fuel, foreach_fuel ≤ fuel →
        svc_xprt_foreach fuel churn_visitor 0 reg_5_9_14 = some r) ∧
      r.calls.length ≤ foreach_fuel :=
  have h1 : ∀ x, opr_rbtree_node_valid reg_5_9_14 x = true → int_range x.xp_fd := by
    intro x hx
    have := (valid_iff (reach_initialized reach_5_9_14 rfl) x).mp hx
    have hj := home_lt x.xp_fd
    generalize home x.xp_fd = j at this hj
    simp only [SVC_XPRT_PARTITIONS] at hj
    interval_cases j <;> simp [nodes_at, part_at, rbtx_partition_of_ix, reg_5_9_14] at this
      <;> subst this <;> decide
  have h2 : ∀ x a r, ∀ op ∈ (churn_visitor x a r).ops, int_range op.xprt.xp_fd := by
    intro x a r op hop
    unfold churn_visitor at hop
    split at hop
    · simp at hop
      rcases hop with rfl | rfl <;> decide
    · simp at hop
  ⟨reach_5_9_14, h1, h2, C9_foreach_terminates churn_visitor 0 reg_5_9_14 reach_5_9_14 h1 h2⟩

/-! ## A pass that grows without a restart -/

/-- A visitor that always continues and, when shown a descriptor below `7 * K`,
links a new handle whose descriptor is 7 higher (the same partition, right
after the cursor). -/
def grow (K : Nat) : svc_xprt_each_func_t Unit :=
  fun x _ _ =>
    ⟨SVC_XPRT_FOREACH_NONE,
      if 0 ≤ x.xp_fd ∧ x.xp_fd < 7 * (K : Int) then [.set ⟨x.xp_fd + 7, 0⟩ 0] else [], ()⟩

/-- A registry that holds the single descriptor 0. -/
def reg_0 : Registry :=
  ⟨true, ⟨7, some [⟨⟨[⟨0, 0⟩], 1⟩⟩, ⟨⟨[], 0⟩⟩, ⟨⟨[], 0⟩⟩, ⟨⟨[], 0⟩⟩, ⟨⟨[], 0⟩⟩,
    ⟨⟨[], 0⟩⟩, ⟨⟨[], 0⟩⟩]⟩⟩

theorem reach_0 : Reach reg_0 :=
  reach_run_ops Reach.static [.set ⟨0, 0⟩ 0] (by decide)

theorem grow_in_range (K : Nat) (hK : K ≤ 306783377) :
    ∀ x a r, ∀ op ∈ (grow K x a r).ops, int_range op.xprt.xp_fd := by
  intro x a r op hop
  unfold grow at hop
  simp only at hop
  split at hop
  · rename_i hx
    simp only [List.mem_singleton] at hop
    subst hop
    simp only [reg_op.xprt, int_range, INT_MIN, INT_MAX]
    omega
  · cases hop

theorem node_pc_continue {s' : Registry} (hs' : Inv s') {p r tgen : Nat}
    (hp : p < SVC_XPRT_PARTITIONS) {x : SVCXPRT} (hx : x ∈ nodes_at s' p) {rflag : Nat}
    (hflag : rflag ≠ SVC_XPRT_FOREACH_CLEAR) :
    node_pc p r tgen x rflag s' = .node p r tgen (next_in x (nodes_at s' p)) := by
  unfold node_pc
  rw [if_neg hflag]
  by_cases h2 : tgen ≠ gen_at s' p
  · rw [if_pos h2]
    have : lookup_nodes x.xp_fd (nodes_at s' p) = some x :=
      (lookup_nodes_some (sorted_at_ix hs' hp)).mpr ⟨hx, rfl⟩
    rw [this]
  · rw [if_neg h2]

theorem grow_flag (K : Nat) (x : SVCXPRT) (a : Unit) (s : Registry) :
    (grow K x a s).rflag ≠ SVC_XPRT_FOREACH_CLEAR := by
  show SVC_XPRT_FOREACH_NONE ≠ SVC_XPRT_FOREACH_CLEAR
  decide

theorem home_mul7 (j : Nat) (hj : j ≤ 306783378) : home (7 * (j : Int)) = 0 := by
  unfold home SVC_XPRT_PARTITIONS
  have h1 : (7 * (j : Int)) % 4294967296 = 7 * (j : Int) :=
    Int.emod_eq_of_lt (by omega) (by omega)
  have h2 : (7 * (j : Int)).toNat = 7 * j := by omega
  rw [h1, h2]
  exact Nat.mul_mod_right 7 j

/-- While the sweep with `grow K` is in partition 0: the cursor is at descriptor
`7 * j`, `j` invocations were made, and nothing is linked beyond the cursor. -/
def grow_phase (K : Nat) {σ : Type} (c : foreach_state σ) : Prop :=
  match c.pc with
  | .part p => p = 0 ∧ c.calls = [] ∧ nodes_at c.reg 0 = [⟨0, 0⟩]
  | .restart p r => p = 0 ∧ r = 0 ∧ c.calls = [] ∧ nodes_at c.reg 0 = [⟨0, 0⟩]
  | .node p _ _ n =>
    p = 0 ∧ ∃ (j : Nat) (x : SVCXPRT), n = some x ∧ x.xp_fd = 7 * (j : Int) ∧ j ≤ K ∧
      c.calls.length = j ∧ ∀ y ∈ nodes_at c.reg 0, y.xp_fd ≤ x.xp_fd

/-- Invariant of the sweep with `grow K`: either at least `K + 1` invocations were
made, or the sweep is still growing partition 0. -/
def grow_inv (K : Nat) (c : foreach_state Unit) : Prop :=
  Good c ∧ (K + 1 ≤ c.calls.length ∨ grow_phase K c)

theorem grow_step (K : Nat) (hK : K ≤ 306783377) (c c' : foreach_state Unit)
    (hc : grow_inv K c) (hstep : foreach_step (grow K) c = some (.inl c')) :
    grow_inv K c' := by
  obtain ⟨hgood, hcase⟩ := hc
  refine ⟨good_step (grow K) hgood hstep, ?_⟩
  rcases hcase with hdone | hphase
  · left
    have := (step_calls (grow K) hgood hstep).1
    omega
  · obtain ⟨pc, s, a, tr⟩ := c
    obtain ⟨hs, hpc⟩ := hgood
    simp only at hs hpc
    cases pc with
    | part p =>
      obtain ⟨rfl, htr, hn⟩ := hphase
      rw [step_part_lt (grow K) (by decide)] at hstep
      cases hstep
      exact Or.inr ⟨rfl, rfl, htr, hn⟩
    | restart p r =>
      obtain ⟨rfl, rfl, htr, hn⟩ := hphase
      simp only at htr hn
      rw [step_restart (grow K) (by decide) hs (by decide)] at hstep
      cases hstep
      right
      refine ⟨rfl, 0, ⟨0, 0⟩, ?_, rfl, Nat.zero_le _, ?_, ?_⟩
      · show (nodes_at s 0).head? = _
        rw [hn]; rfl
      · show tr.length = 0
        rw [htr]; rfl
      · intro y hy
        have hy' : y ∈ nodes_at s 0 := hy
        rw [hn] at hy'
        simp only [List.mem_singleton] at hy'
        subst hy'
        exact le_refl _
    | node p r tgen n =>
      obtain ⟨rfl, j, x, hn, hxfd, hjK, hlen, hmax⟩ := hphase
      simp only at hn hlen hmax
      subst hn
      have hxmem : x ∈ nodes_at s 0 := hpc.2.2 x rfl
      by_cases hj : j < K
      · -- the visitor links the handle with descriptor 7 * (j + 1)
        have hops : (grow K x a s).ops = [.set ⟨x.xp_fd + 7, 0⟩ 0] := by
          unfold grow
          simp only
          rw [if_pos]
          constructor <;> omega
        have hhome : home (x.xp_fd + 7) = 0 := by
          have := home_mul7 (j + 1) (by omega)
          rw [hxfd]
          have e : (7 : Int) * (j : Int) + 7 = 7 * ((j + 1 : Nat) : Int) := by
            push_cast; ring
          rw [e]; exact this
        have hl : lookup_nodes (x.xp_fd + 7) (nodes_at s (home (x.xp_fd + 7))) = none := by
          rw [hhome, lookup_nodes_none]
          intro y hy
          have := hmax y hy
          omega
        obtain ⟨s', k1, k2, k3, k4, _, _⟩ :=
          set_fresh hs (x := ⟨x.xp_fd + 7, 0⟩) 0 hl
        simp only at k3 k4
        rw [hhome] at k3 k4
        have hmem' : ∀ y, y ∈ nodes_at s' 0 ↔ y = ⟨x.xp_fd + 7, 0⟩ ∨ y ∈ nodes_at s 0 := by
          intro y; rw [k3, insert_mem k4]
        have hrun : run_ops (grow K x a s).ops s = some s' := by
          rw [hops]; simp [run_ops, reg_op.run, k1]
        have hx' : x ∈ nodes_at s' 0 := (hmem' x).mpr (Or.inr hxmem)
        have hnew' : (⟨x.xp_fd + 7, 0⟩ : SVCXPRT) ∈ nodes_at s' 0 := (hmem' _).mpr (Or.inl rfl)
        have hsort' := sorted_at_ix k2 (by decide : 0 < SVC_XPRT_PARTITIONS)
        obtain ⟨m, hm1, hm2⟩ := next_cover hsort' hx' hnew' (by simp)
        have hm3 := next_in_some hsort' hm1
        have hm : m = ⟨x.xp_fd + 7, 0⟩ := by
          rcases (hmem' m).mp hm3.1 with h | h
          · exact h
          · have := hmax m h; omega
        subst hm
        have hpc' : node_pc 0 r tgen x (grow K x a s).rflag s' =
            .node 0 r tgen (some ⟨x.xp_fd + 7, 0⟩) := by
          rw [node_pc_continue k2 (by decide) hx' (grow_flag K x a s), hm1]
        rw [step_node_some (grow K) 0 r tgen x a tr hrun k2 (by decide), hpc'] at hstep
        cases hstep
        right
        refine ⟨rfl, j + 1, ⟨x.xp_fd + 7, 0⟩, rfl, ?_, by omega, ?_, ?_⟩
        · show x.xp_fd + 7 = 7 * ((j + 1 : Nat) : Int)
          push_cast; omega
        · show (tr ++ [_]).length = j + 1
          rw [List.length_append, hlen]; rfl
        · intro y hy
          rcases (hmem' y).mp hy with h | h
          · subst h; exact le_refl _
          · have := hmax y h
            show y.xp_fd ≤ x.xp_fd + 7
            omega
      · -- the cursor is at 7 * K: the visitor touches nothing and the pass ends
        have hjK' : j = K := by omega
        have hops : (grow K x a s).ops = [] := by
          unfold grow
          simp only
          rw [if_neg]
          intro h; omega
        have hrun : run_ops (grow K x a s).ops s = some s := by rw [hops]; rfl
        have hpc' : node_pc 0 r tgen x (grow K x a s).rflag s = .node 0 r tgen none := by
          rw [node_pc_continue hs (by decide) hxmem (grow_flag K x a s)]
          cases hm : next_in x (nodes_at s 0) with
          | none => rfl
          | some m =>
            have hm3 := next_in_some (sorted_at_ix hs (by decide : 0 < SVC_XPRT_PARTITIONS)) hm
            have := hmax m hm3.1
            omega
        rw [step_node_some (grow K) 0 r tgen x a tr hrun hs (by decide), hpc'] at hstep
        cases hstep
        left
        show K + 1 ≤ (tr ++ [_]).length
        rw [List.length_append, hlen, hjK']
        exact le_refl _

theorem grow_calls (K : Nat) (hK : K ≤ 306783377) :
    ∃ r, svc_xprt_foreach foreach_fuel (grow K) () reg_0 = some r ∧ K + 1 ≤ r.calls.length := by
  have hinv : Inv reg_0 := reach_initialized reach_0 rfl
  have hrange : in_range reg_0 := by
    apply in_range_of_valid hinv
    intro x hx
    have := (valid_iff hinv x).mp hx
    have hj := home_lt x.xp_fd
    generalize home x.xp_fd = j at this hj
    simp only [SVC_XPRT_PARTITIONS] at hj
    interval_cases j <;> simp [nodes_at, part_at, rbtx_partition_of_ix, reg_0] at this
    subst this
    decide
  have hstart : Good (⟨.part 0, reg_0, (), []⟩ : foreach_state Unit) := good_start () hinv
  obtain ⟨r, hr⟩ := term_run (grow K) (grow_in_range K hK) foreach_fuel _ hstart hrange
    (by simp only [mu, foreach_fuel]; omega)
  refine ⟨r, hr, ?_⟩
  obtain ⟨c, hc, hlast⟩ := run_invariant (grow K) (grow_inv K) (grow_step K hK) foreach_fuel
    _ r ⟨hstart, Or.inr ⟨rfl, rfl, rfl⟩⟩ hr
  obtain ⟨_, _, hcalls, hcase⟩ := step_ret (grow K) hc.1 hlast
  rw [hcalls]
  rcases hc.2 with hdone | hphase
  · exact hdone
  · exfalso
    rcases hcase with ⟨_, p, hpc, hp⟩ | ⟨_, p, k, hpc, hk⟩
    · unfold grow_phase at hphase
      rw [hpc] at hphase
      have : p = 0 := hphase.1
      subst this
      exact hp (by decide)
    · unfold grow_phase at hphase
      rw [hpc] at hphase
      have : k = 0 := hphase.2.1
      omega

set_option maxRecDepth 100000 in
theorem grow_40_run :
    (svc_xprt_foreach 70 (grow 40) () reg_0).map (fun r => (r.code, r.calls.length))
      = some (0, 41) := by decide

/-- C9, counterexample: the restart budget does not bound the loop.  On the
registry that holds the single descriptor 0, the visitor `grow 40` (it always
continues and links, when shown a descriptor below 280, a handle 7 higher,
right after the cursor) is invoked 41 times in one pass over partition 0,
without a single restart, and the call returns 0.  In general no number `B` up
to 306783377 bounds the visitor invocations of one `svc_xprt_foreach` call on
that registry for all visitors confined to C `int` descriptors: what bounds a
pass is the descriptor range. -/
theorem C9_budget_does_not_bound :
    (svc_xprt_foreach 70 (grow 40) () reg_0).map (fun r => (r.code, r.calls.length))
      = some (0, 41) ∧
    ¬ ∃ B : Nat, B ≤ 306783377 ∧
      ∀ (each_f : svc_xprt_each_func_t Unit) (fuel : Nat) (r : foreach_result Unit),
        (∀ x a s, ∀ op ∈ (each_f x a s).ops, int_range op.xprt.xp_fd) →
        svc_xprt_foreach fuel each_f () reg_0 = some r → r.calls.length ≤ B := by
  refine ⟨grow_40_run, ?_⟩
  rintro ⟨B, hB, h⟩
  obtain ⟨r, hr, hlen⟩ := grow_calls B hB
  have := h (grow B) foreach_fuel r (grow_in_range B hB) hr
  omega

/-! ## Initialization and shutdown -/

/-- C17 (initialization is idempotent): `svc_xprt_init` on an initialized
registry changes nothing (partition array, partition contents and flag are the
same), so init after init equals init, and every lookup after a second call
returns what it returned before. -/
theorem C17_init_idempotent (r : Registry) :
    (r.initialized = true → svc_xprt_init r = r) ∧
    svc_xprt_init (svc_xprt_init r) = svc_xprt_init r ∧
    (svc_xprt_init r).initialized = true ∧
    (r.initialized = true → ∀ k, svc_xprt_get k (svc_xprt_init r) = svc_xprt_get k r) ∧
    ∀ k, svc_xprt_get k (svc_xprt_init (svc_xprt_init r)) = svc_xprt_get k (svc_xprt_init r) := by
  have h1 : r.initialized = true → svc_xprt_init r = r := by
    intro h; unfold svc_xprt_init; rw [if_pos h]
  have h3 : (svc_xprt_init r).initialized = true := by
    unfold svc_xprt_init
    cases h : r.initialized <;> simp [h]
  have h2 : svc_xprt_init (svc_xprt_init r) = svc_xprt_init r := by
    generalize hq : svc_xprt_init r = q at h3 ⊢
    unfold svc_xprt_init; rw [if_pos h3]
  exact ⟨h1, h2, h3, fun h k => by rw [h1 h], fun k => by rw [h2]⟩

/-- C16 (the code at the failing input): `svc_xprt_shutdown` of the freshly
initialized registry releases the partition storage and leaves `initialized`
true; a following `svc_xprt_init` therefore changes nothing and allocates
nothing, and `svc_xprt_get`, `svc_xprt_set` and `svc_xprt_foreach` go on to
dereference the released storage (no defined result). -/
theorem C16_shutdown_keeps_initialized :
    ∃ r, svc_xprt_shutdown 1 (svc_xprt_init svc_xprt_fd) = some r ∧
      r.reg.initialized = true ∧ r.reg.xt.tree = none ∧
      svc_xprt_init r.reg = r.reg ∧ cond_init_svc_xprt r.reg = r.reg ∧
      svc_xprt_get 5 r.reg = none ∧ svc_xprt_set ⟨5, 1⟩ 0 r.reg = none ∧
      svc_xprt_foreach 100 counting_visitor 0 r.reg = none ∧
      svc_xprt_shutdown 1 r.reg = none :=
  ⟨⟨⟨true, ⟨7, none⟩⟩, List.replicate 7 ⟨opr_rbtree_init⟩, []⟩,
    by decide, rfl, rfl, by decide, by decide, by decide, by decide, rfl, by decide⟩

/-- The calls of `SVC_DESTROY` made while a partition with in-order sequence `l`
and generation `g` is drained. -/
def destroy_events : List SVCXPRT → Nat → List destroy_call
  | [], _ => []
  | x :: l, g => ⟨x, ⟨l, g + 1⟩⟩ :: destroy_events l (g + 1)

/-- The calls of `SVC_DESTROY` made while the partitions `ps` are drained. -/
def all_destroy_events : List rbtree_x_part → List destroy_call
  | [] => []
  | t :: rest => destroy_events t.t.nodes t.t.gen ++ all_destroy_events rest

theorem destroy_events_xprt (l : List SVCXPRT) (g : Nat) :
    (destroy_events l g).map destroy_call.xprt = l := by
  induction l generalizing g with
  | nil => rfl
  | cons x l ih => simp [destroy_events, ih]

theorem destroy_events_unlinked {l : List SVCXPRT} (hl : l.Nodup) (g : Nat) :
    ∀ e ∈ destroy_events l g, e.xprt ∉ e.t.nodes := by
  induction l generalizing g with
  | nil => intro e he; cases he
  | cons x l ih =>
    rw [List.nodup_cons] at hl
    intro e he
    simp only [destroy_events, List.mem_cons] at he
    rcases he with rfl | he
    · exact hl.1
    · exact ih hl.2 (g + 1) e he

theorem shutdown_loop_spec (l : List SVCXPRT) :
    ∀ (g fuel : Nat) (d : List destroy_call), l.length + 1 ≤ fuel →
      shutdown_loop fuel l.head? ⟨l, g⟩ d =
        some (⟨[], g + l.length⟩, d ++ destroy_events l g) := by
  induction l with
  | nil =>
    intro g fuel d hf
    obtain ⟨n, rfl⟩ := Nat.exists_eq_add_of_le hf
    have e : ([] : List SVCXPRT).length + 1 + n = n + 1 := by
      have := @List.length_nil SVCXPRT; omega
    rw [e]
    simp [shutdown_loop, destroy_events]
  | cons x l ih =>
    intro g fuel d hf
    have hlen := List.length_cons x l
    obtain ⟨n, rfl⟩ := Nat.exists_eq_add_of_le hf
    have e : (x :: l).length + 1 + n = (l.length + 1 + n) + 1 := by omega
    rw [e]
    have hnext : opr_rbtree_next ⟨x :: l, g⟩ x = l.head? := by
      simp [opr_rbtree_next, next_in]
    have hrem : opr_rbtree_remove ⟨x :: l, g⟩ x = ⟨l, g + 1⟩ := by
      simp [opr_rbtree_remove]
    simp only [List.head?_cons, shutdown_loop, hnext, hrem]
    rw [ih (g + 1) (l.length + 1 + n) _ (by omega)]
    have e2 : g + 1 + l.length = g + (x :: l).length := by omega
    rw [e2]
    simp only [destroy_events, List.append_assoc, List.singleton_append]

/-- A drained partition. -/
def drained_part (t : rbtree_x_part) : rbtree_x_part :=
  ⟨⟨[], t.t.gen + t.t.nodes.length⟩⟩

theorem shutdown_parts_spec (fuel : Nat) (ps : List rbtree_x_part) :
    ∀ (d : List destroy_call), (∀ t ∈ ps, t.t.nodes.length + 1 ≤ fuel) →
      shutdown_parts fuel ps d = some (ps.map drained_part, d ++ all_destroy_events ps) := by
  induction ps with
  | nil => intro d _; simp [shutdown_parts, all_destroy_events]
  | cons t rest ih =>
    intro d hf
    have h1 := shutdown_loop_spec t.t.nodes t.t.gen fuel d (hf t (List.mem_cons_self _ _))
    have h2 := ih (d ++ destroy_events t.t.nodes t.t.gen)
      (fun t' ht' => hf t' (List.mem_cons_of_mem _ ht'))
    simp only [shutdown_parts, opr_rbtree_first, h1, h2, all_destroy_events, List.map_cons,
      List.append_assoc]
    rfl

theorem nodes_at_eq {s : Registry} {tr : List rbtree_x_part} (htr : s.xt.tree = some tr)
    {p : Nat} (hp : p < tr.length) : nodes_at s p = (tr.get ⟨p, hp⟩).t.nodes := by
  unfold nodes_at part_at rbtx_partition_of_ix
  rw [htr]
  simp [List.getElem?_eq_getElem hp]

theorem length_nodes_le_linked (s : Registry) :
    ∀ (n p j : Nat), p ≤ j → j < p + n →
      (nodes_at s j).length ≤ (linked_from s n p).length := by
  intro n
  induction n with
  | zero => intro p j h1 h2; omega
  | succ n ih =>
    intro p j h1 h2
    simp only [linked_from, List.length_append]
    by_cases hj : j = p
    · subst hj; omega
    · have := ih (p + 1) j (by omega) (by omega)
      omega

theorem events_linked {s : Registry} {tr : List rbtree_x_part} (htr : s.xt.tree = some tr)
    (hlen : tr.length = SVC_XPRT_PARTITIONS) :
    ∀ (n p : Nat), p + n = SVC_XPRT_PARTITIONS →
      (all_destroy_events (tr.drop p)).map destroy_call.xprt = linked_from s n p := by
  intro n
  induction n with
  | zero =>
    intro p hpn
    have : tr.drop p = [] := List.drop_eq_nil_of_le (by omega)
    rw [this]; rfl
  | succ n ih =>
    intro p hpn
    have hp : p < tr.length := by omega
    rw [List.drop_eq_getElem_cons hp]
    simp only [all_destroy_events, List.map_append, destroy_events_xprt, linked_from]
    rw [ih (p + 1) (by omega), nodes_at_eq htr hp]
    rfl

/-- C15 (shutdown drains and destroys): on an initialized registry reachable by
`svc_xprt_set` / `svc_xprt_clear`, `svc_xprt_shutdown` returns (once the fuel
covers the handles), has called `SVC_DESTROY` exactly once on every linked
handle and on no other handle, each time after the handle was unlinked from
its partition, and has left all `SVC_XPRT_PARTITIONS` partitions empty before
their storage was released. -/
theorem C15_shutdown_drains (s : Registry) (hs : Reach s) (hi : s.initialized = true) :
    ∃ r, (∀ fuel, (linked_from s SVC_XPRT_PARTITIONS 0).length + 1 ≤ fuel →
        svc_xprt_shutdown fuel s = some r) ∧
      (∀ h, (r.destroyed.map destroy_call.xprt).count h =
        if opr_rbtree_node_valid s h = true then 1 else 0) ∧
      (∀ e ∈ r.destroyed, e.xprt ∉ e.t.nodes) ∧
      r.drained.length = SVC_XPRT_PARTITIONS ∧
      (∀ p ∈ r.drained, p.t.nodes = []) ∧
      r.reg.xt.tree = none := by
  have hinv := reach_initialized hs hi
  obtain ⟨_, hnp, tr, htr, hlen, hok⟩ := hinv
  refine ⟨⟨⟨s.initialized, ⟨s.xt.npart, none⟩⟩, tr.map drained_part, all_destroy_events tr⟩,
    ?_, ?_, ?_, ?_, ?_, rfl⟩
  · intro fuel hfuel
    have htake : tr.take SVC_XPRT_PARTITIONS = tr := List.take_of_length_le (by omega)
    have hf : ∀ t ∈ tr, t.t.nodes.length + 1 ≤ fuel := by
      intro t ht
      obtain ⟨i, hi', rfl⟩ := List.getElem_of_mem ht
      have h1 := length_nodes_le_linked s SVC_XPRT_PARTITIONS 0 i (Nat.zero_le _) (by omega)
      rw [nodes_at_eq htr hi'] at h1
      have : (tr.get ⟨i, hi'⟩) = tr[i] := rfl
      rw [this] at h1
      omega
    unfold svc_xprt_shutdown
    simp only [hi, Bool.not_true, Bool.false_eq_true, if_false, htr]
    rw [if_neg (by omega), htake, shutdown_parts_spec fuel tr [] hf]
    simp
  · intro h
    have hev := events_linked htr hlen SVC_XPRT_PARTITIONS 0 (by simp)
    simp only [List.drop_zero] at hev
    simp only [hev]
    have hinv := reach_initialized hs hi
    by_cases hv : opr_rbtree_node_valid s h = true
    · simp only [hv, if_true]
      exact List.count_eq_one_of_mem (nodup_linked_from hinv _ _ (by simp))
        ((mem_linked_iff_valid hinv h).mpr hv)
    · simp only [hv, if_false]
      exact List.count_eq_zero_of_not_mem (fun hm => hv ((mem_linked_iff_valid hinv h).mp hm))
  · have key : ∀ ps : List rbtree_x_part, (∀ t ∈ ps, t.t.nodes.Nodup) →
        ∀ e ∈ all_destroy_events ps, e.xprt ∉ e.t.nodes := by
      intro ps
      induction ps with
      | nil => intro _ e he; cases he
      | cons t rest ih =>
        intro hnd e he
        simp only [all_destroy_events, List.mem_append] at he
        rcases he with he | he
        · exact destroy_events_unlinked (hnd t (List.mem_cons_self _ _)) _ e he
        · exact ih (fun t' ht' => hnd t' (List.mem_cons_of_mem _ ht')) e he
    apply key
    intro t ht
    obtain ⟨i, hi'⟩ := List.mem_iff_getElem?.mp ht
    exact fd_sorted_nodup (hok i t hi').1
  · simp [hlen]
  · intro p hp
    simp only [List.mem_map] at hp
    obtain ⟨t, _, rfl⟩ := hp
    rfl

/-- Witness of C15: shutdown of the registry holding descriptors 5 and 9. -/
theorem C15_shutdown_drains_witness :
    Reach reg_5_9 ∧ reg_5_9.initialized = true ∧
    ∃ r, (∀ fuel, (linked_from reg_5_9 SVC_XPRT_PARTITIONS 0).length + 1 ≤ fuel →
        svc_xprt_shutdown fuel reg_5_9 = some r) ∧
      (∀ h, (r.destroyed.map destroy_call.xprt).count h =
        if opr_rbtree_node_valid reg_5_9 h = true then 1 else 0) ∧
      (∀ e ∈ r.destroyed, e.xprt ∉ e.t.nodes) ∧
      r.drained.length = SVC_XPRT_PARTITIONS ∧
      (∀ p ∈ r.drained, p.t.nodes = []) ∧
      r.reg.xt.tree = none :=
  ⟨reach_5_9, rfl, C15_shutdown_drains reg_5_9 reach_5_9 rfl⟩

/-! ## The restart budget -/

/-- How the control point moves in one transition of `svc_xprt_foreach`. -/
def pc_next : foreach_pc → foreach_pc → Prop
  | .part p, q => p < SVC_XPRT_PARTITIONS ∧ q = .restart p 0
  | .restart p k, q => k < 5 ∧ ∃ tgen n, q = .node p (k + 1) tgen n
  | .node p _ _ none, q => q = .part (p + 1)
  | .node p r tgen (some _), q => q = .restart p r ∨ ∃ n, q = .node p r tgen n

theorem step_pc_next {σ : Type} (each_f : svc_xprt_each_func_t σ) {c c' : foreach_state σ}
    (h : foreach_step each_f c = some (.inl c')) : pc_next c.pc c'.pc := by
  obtain ⟨pc, s, a, tr⟩ := c
  cases pc with
  | part p =>
    by_cases hp : p < SVC_XPRT_PARTITIONS
    · rw [step_part_lt each_f hp] at h; cases h; exact ⟨hp, rfl⟩
    · rw [step_part_ge each_f hp] at h; cases h
  | restart p k =>
    by_cases hk : k < 5
    · have hk' : ¬ k + 1 > 5 := by omega
      simp only [foreach_step, hk', if_false] at h
      split at h
      · cases h
      · cases h; exact ⟨hk, _, _, rfl⟩
    · rw [step_restart_over each_f (by omega)] at h; cases h
  | node p r tgen n =>
    cases n with
    | none => rw [step_node_none] at h; cases h; exact rfl
    | some x =>
      simp only [foreach_step] at h
      split at h
      · cases h
      · split at h
        · cases h; exact Or.inl rfl
        · split at h
          · cases h
          · split at h
            · split at h
              · cases h; exact Or.inl rfl
              · cases h; exact Or.inr ⟨_, rfl⟩
            · cases h; exact Or.inr ⟨_, rfl⟩

theorem step_ret_any {σ : Type} (each_f : svc_xprt_each_func_t σ) {c : foreach_state σ}
    {r : foreach_result σ} (h : foreach_step each_f c = some (.inr r)) :
    r.reg = c.reg ∧ r.arg = c.arg ∧ r.calls = c.calls ∧
      ((r.code = 0 ∧ ∃ p, c.pc = .part p ∧ ¬ p < SVC_XPRT_PARTITIONS) ∨
       (r.code = 1 ∧ ∃ p k, c.pc = .restart p k ∧ 5 ≤ k)) := by
  obtain ⟨pc, s, a, tr⟩ := c
  cases pc with
  | part p =>
    by_cases hp : p < SVC_XPRT_PARTITIONS
    · rw [step_part_lt each_f hp] at h; cases h
    · rw [step_part_ge each_f hp] at h; cases h
      exact ⟨rfl, rfl, rfl, Or.inl ⟨rfl, p, rfl, hp⟩⟩
  | restart p k =>
    by_cases hk : k < 5
    · have hk' : ¬ k + 1 > 5 := by omega
      simp only [foreach_step, hk', if_false] at h
      split at h <;> cases h
    · rw [step_restart_over each_f (by omega)] at h; cases h
      exact ⟨rfl, rfl, rfl, Or.inr ⟨rfl, p, k, rfl, by omega⟩⟩
  | node p k tgen n =>
    cases n with
    | none => rw [step_node_none] at h; cases h
    | some x =>
      simp only [foreach_step] at h
      split at h
      · cases h
      · split at h
        · cases h
        · split at h
          · cases h
          · split at h
            · split at h <;> cases h
            · cases h

/-- Count of the restarts taken by a running `svc_xprt_foreach`: for each
partition whose scan was completed the number of `goto restart` taken in it,
and the number taken so far in the partition being scanned. -/
structure restart_log where
  done : List Nat
  cur : Nat
deriving DecidableEq, Repr

/-- The restart count after the transition from control point `pc` to `pc'`:
reset on entering a partition, one more on each `goto restart`, filed when
the partition is left. -/
def log_step (pc pc' : foreach_pc) (g : restart_log) : restart_log :=
  match pc, pc' with
  | .part _, _ => ⟨g.done, 0⟩
  | .node _ _ _ (some _), .restart _ _ => ⟨g.done, g.cur + 1⟩
  | .node _ _ _ none, _ => ⟨g.done ++ [g.cur], g.cur⟩
  | _, _ => g

/-- The run of `foreach_run`, with the restarts counted on the side. -/
def foreach_run_log {σ : Type} (each_f : svc_xprt_each_func_t σ) :
    Nat → foreach_state σ → restart_log → Option (foreach_result σ × restart_log)
  | 0, _, _ => none
  | fuel + 1, c, g =>
    match foreach_step each_f c with
    | none => none
    | some (.inl c') => foreach_run_log each_f fuel c' (log_step c.pc c'.pc g)
    | some (.inr r) => some (r, g)

/-- `svc_xprt_foreach`, with the restarts counted on the side. -/
def svc_xprt_foreach_log {σ : Type} (fuel : Nat) (each_f : svc_xprt_each_func_t σ) (arg : σ)
    (r : Registry) : Option (foreach_result σ × restart_log) :=
  foreach_run_log each_f fuel ⟨.part 0, cond_init_svc_xprt r, arg, []⟩ ⟨[], 0⟩

theorem run_log_fst {σ : Type} (each_f : svc_xprt_each_func_t σ) :
    ∀ (fuel : Nat) (c : foreach_state σ) (g : restart_log),
      (foreach_run_log each_f fuel c g).map Prod.fst = foreach_run each_f fuel c := by
  intro fuel
  induction fuel with
  | zero => intro c g; rfl
  | succ n ih =>
    intro c g
    unfold foreach_run_log foreach_run
    cases hstep : foreach_step each_f c with
    | none => rfl
    | some o =>
      cases o with
      | inl c' => simp only; exact ih c' _
      | inr r => rfl

/-- The restart count fits the control point: completed partitions took at most
four restarts each, and the local `restarts` is the count of the current
partition plus the first pass. -/
def log_ok (g : restart_log) : foreach_pc → Prop
  | .part p => g.done.length = p ∧ p ≤ SVC_XPRT_PARTITIONS ∧ g.cur ≤ 4 ∧ ∀ n ∈ g.done, n ≤ 4
  | .restart p k =>
    g.done.length = p ∧ p < SVC_XPRT_PARTITIONS ∧ g.cur = k ∧ k ≤ 5 ∧ ∀ n ∈ g.done, n ≤ 4
  | .node p r _ _ =>
    g.done.length = p ∧ p < SVC_XPRT_PARTITIONS ∧ g.cur + 1 = r ∧ r ≤ 5 ∧ ∀ n ∈ g.done, n ≤ 4

theorem log_ok_step {pc pc' : foreach_pc} {g : restart_log} (h : pc_next pc pc')
    (hg : log_ok g pc) : log_ok (log_step pc pc' g) pc' := by
  cases pc with
  | part p =>
    obtain ⟨hp, rfl⟩ := h
    obtain ⟨h1, _, _, h4⟩ := hg
    exact ⟨h1, hp, rfl, Nat.zero_le _, h4⟩
  | restart p k =>
    obtain ⟨hk, tgen, n, rfl⟩ := h
    obtain ⟨h1, h2, h3, _, h5⟩ := hg
    exact ⟨h1, h2, by show g.cur + 1 = k + 1; rw [h3], by omega, h5⟩
  | node p r tgen n =>
    obtain ⟨h1, h2, h3, h4, h5⟩ := hg
    cases n with
    | none =>
      have h : pc' = .part (p + 1) := h
      subst h
      refine ⟨by simp [log_step, h1], by omega, by simp only [log_step]; omega, ?_⟩
      intro m hm
      simp only [log_step, List.mem_append, List.mem_singleton] at hm
      rcases hm with hm | rfl
      · exact h5 m hm
      · omega
    | some x =>
      have h : pc' = .restart p r ∨ ∃ n, pc' = .node p r tgen n := h
      rcases h with rfl | ⟨n, rfl⟩
      · exact ⟨h1, h2, h3, h4, h5⟩
      · exact ⟨h1, h2, h3, h4, h5⟩

theorem run_log_spec {σ : Type} (each_f : svc_xprt_each_func_t σ) :
    ∀ (fuel : Nat) (c : foreach_state σ) (g : restart_log) (r : foreach_result σ)
      (g' : restart_log), log_ok g c.pc → foreach_run_log each_f fuel c g = some (r, g') →
      (∀ n ∈ g'.done, n ≤ 4) ∧ g'.cur ≤ 5 ∧
      ((r.code = 0 ∧ g'.done.length = SVC_XPRT_PARTITIONS ∧ g'.cur ≤ 4) ∨
       (r.code = 1 ∧ g'.done.length < SVC_XPRT_PARTITIONS ∧ g'.cur = 5)) := by
  intro fuel
  induction fuel with
  | zero => intro c g r g' _ h; simp [foreach_run_log] at h
  | succ n ih =>
    intro c g r g' hg h
    unfold foreach_run_log at h
    cases hstep : foreach_step each_f c with
    | none => simp [hstep] at h
    | some o =>
      cases o with
      | inl c' =>
        simp only [hstep] at h
        exact ih c' _ r g' (log_ok_step (step_pc_next each_f hstep) hg) h
      | inr r' =>
        simp only [hstep, Option.some.injEq, Prod.mk.injEq] at h
        obtain ⟨rfl, rfl⟩ := h
        obtain ⟨_, _, _, hcase⟩ := step_ret_any each_f hstep
        rcases hcase with ⟨hc, p, hpc, hp⟩ | ⟨hc, p, k, hpc, hk⟩
        · rw [hpc] at hg
          obtain ⟨h1, h2, h3, h4⟩ := hg
          exact ⟨h4, by omega, Or.inl ⟨hc, by omega, h3⟩⟩
        · rw [hpc] at hg
          obtain ⟨h1, h2, h3, h4, h5⟩ := hg
          exact ⟨h5, by omega, Or.inr ⟨hc, by omega, by omega⟩⟩

/-- C11, amended (the restart budget is five passes): whenever
`svc_xprt_foreach` returns, it returns 1 exactly when the scan of the partition
it was in took its fifth restart, and 0 exactly when that count stayed at
four or below; every partition whose scan was completed took at most four
restarts, and with result 0 all `SVC_XPRT_PARTITIONS` scans were completed.
(The local `restarts` is incremented on the first entry to the label as
well, so `++restarts > 5` lets five passes, that is four restarts, go by.) -/
theorem C11_restart_budget {σ : Type} (each_f : svc_xprt_each_func_t σ) (a : σ)
    (s : Registry) (fuel : Nat) (r : foreach_result σ) (g : restart_log)
    (h : svc_xprt_foreach_log fuel each_f a s = some (r, g)) :
    svc_xprt_foreach fuel each_f a s = some r ∧
    (r.code = 1 ↔ g.cur = 5) ∧ (r.code = 0 ↔ g.cur ≤ 4) ∧
    (∀ n ∈ g.done, n ≤ 4) ∧
    (r.code = 0 → g.done.length = SVC_XPRT_PARTITIONS) ∧
    (r.code = 1 → g.done.length < SVC_XPRT_PARTITIONS) := by
  have h1 : svc_xprt_foreach fuel each_f a s = some r := by
    have := run_log_fst each_f fuel ⟨.part 0, cond_init_svc_xprt s, a, []⟩ ⟨[], 0⟩
    unfold svc_xprt_foreach_log at h
    rw [h] at this
    exact this.symm
  have hstart : log_ok ⟨[], 0⟩ (foreach_pc.part 0) :=
    ⟨rfl, Nat.zero_le _, Nat.zero_le _, fun n hn => by cases hn⟩
  obtain ⟨h2, h3, hcase⟩ := run_log_spec each_f fuel _ _ r g hstart h
  refine ⟨h1, ?_, ?_, h2, ?_, ?_⟩
  · rcases hcase with ⟨hc, _, h4⟩ | ⟨hc, _, h5⟩
    · constructor
      · intro h; rw [hc] at h; cases h
      · intro h; omega
    · exact ⟨fun _ => h5, fun _ => hc⟩
  · rcases hcase with ⟨hc, _, h4⟩ | ⟨hc, _, h5⟩
    · exact ⟨fun _ => h4, fun _ => hc⟩
    · constructor
      · intro h; rw [hc] at h; cases h
      · intro h; omega
  · rcases hcase with ⟨hc, h4, _⟩ | ⟨hc, _, _⟩
    · exact fun _ => h4
    · intro h; rw [hc] at h; cases h
  · rcases hcase with ⟨hc, _, _⟩ | ⟨hc, h4, _⟩
    · intro h; rw [hc] at h; cases h
    · exact fun _ => h4

/-- The visitor of the restart-budget example: it removes the handle it is shown
and returns `SVC_XPRT_FOREACH_CLEAR`. -/
def remover : svc_xprt_each_func_t Nat :=
  fun x n _ => ⟨SVC_XPRT_FOREACH_CLEAR, [.clear x 0], n + 1⟩

/-- A registry with four handles, all in partition 0. -/
def reg_four : Registry :=
  ⟨true, ⟨7, some [⟨⟨[⟨0, 0⟩, ⟨7, 1⟩, ⟨14, 2⟩, ⟨21, 3⟩], 4⟩⟩, ⟨⟨[], 0⟩⟩, ⟨⟨[], 0⟩⟩,
    ⟨⟨[], 0⟩⟩, ⟨⟨[], 0⟩⟩, ⟨⟨[], 0⟩⟩, ⟨⟨[], 0⟩⟩]⟩⟩

/-- A registry with five handles, all in partition 0. -/
def reg_five : Registry :=
  ⟨true, ⟨7, some [⟨⟨[⟨0, 0⟩, ⟨7, 1⟩, ⟨14, 2⟩, ⟨21, 3⟩, ⟨28, 4⟩], 5⟩⟩, ⟨⟨[], 0⟩⟩, ⟨⟨[], 0⟩⟩,
    ⟨⟨[], 0⟩⟩, ⟨⟨[], 0⟩⟩, ⟨⟨[], 0⟩⟩, ⟨⟨[], 0⟩⟩]⟩⟩

theorem reach_five : Reach reg_five :=
  reach_run_ops Reach.static
    [.set ⟨0, 0⟩ 0, .set ⟨7, 1⟩ 0, .set ⟨14, 2⟩ 0, .set ⟨21, 3⟩ 0, .set ⟨28, 4⟩ 0] (by decide)

/-- What the sweep with `remover` over `reg_four` leaves. -/
def four_result : foreach_result Nat × restart_log :=
  (svc_xprt_foreach_log 40 remover 0 reg_four).getD (⟨1, svc_xprt_fd, 0, []⟩, ⟨[], 0⟩)

/-- Witness of C11 (amended): four handles of one partition are removed with four
restarts and the call returns 0. -/
theorem C11_restart_budget_witness :
    svc_xprt_foreach_log 40 remover 0 reg_four = some four_result ∧
    four_result.1.code = 0 ∧ four_result.2 = ⟨[4, 0, 0, 0, 0, 0, 0], 0⟩ ∧
    (svc_xprt_foreach 40 remover 0 reg_four = some four_result.1 ∧
    (four_result.1.code = 1 ↔ four_result.2.cur = 5) ∧
    (four_result.1.code = 0 ↔ four_result.2.cur ≤ 4) ∧
    (∀ n ∈ four_result.2.done, n ≤ 4) ∧
    (four_result.1.code = 0 → four_result.2.done.length = SVC_XPRT_PARTITIONS) ∧
    (four_result.1.code = 1 → four_result.2.done.length < SVC_XPRT_PARTITIONS)) :=
  ⟨rfl, rfl, by decide, C11_restart_budget remover 0 reg_four 40 four_result.1 four_result.2 rfl⟩

/-- C11, counterexample: five handles of one partition, each removed by the
visitor with `SVC_XPRT_FOREACH_CLEAR`, are five restarts; the call does not
complete with 0 but returns 1, after five invocations, on its fifth restart,
before any partition scan was completed. -/
theorem C11_five_restarts_abort :
    Reach reg_five ∧
    (svc_xprt_foreach_log 40 remover 0 reg_five).map
        (fun q => (q.1.code, q.1.calls.length, q.2)) = some (1, 5, ⟨[], 5⟩) ∧
    (svc_xprt_foreach 40 remover 0 reg_five).map (fun r => r.code) = some 1 :=
  ⟨reach_five, by decide, by decide⟩

/-! ## A visitor that always removes -/

theorem remove_head {s : Registry} (hs : Inv s) {p : Nat} (hp : p < SVC_XPRT_PARTITIONS)
    {x : SVCXPRT} {l : List SVCXPRT} (hn : nodes_at s p = x :: l) (f : Nat) :
    ∃ s', run_ops [.clear x f] s = some s' ∧ Inv s' ∧ nodes_at s' p = l ∧
      ∀ j, j ≠ p → part_at s' j = part_at s j := by
  have hx : x ∈ nodes_at s p := by rw [hn]; simp
  have hh : home x.xp_fd = p := home_at hs hp hx
  rw [← hh] at hx
  obtain ⟨s', h1, h2, h3, _, h5⟩ := clear_linked hs f hx
  rw [hh] at h3 h5
  refine ⟨s', by simp [run_ops, reg_op.run, h1], h2, ?_, h5⟩
  rw [h3, hn]
  simp

theorem remove_scan_done {σ : Type} (each_f : svc_xprt_each_func_t σ) {p : Nat}
    (hp : p < SVC_XPRT_PARTITIONS)
    (hrm : ∀ x a r, (each_f x a r).rflag = SVC_XPRT_FOREACH_CLEAR ∧
      ∃ f, (each_f x a r).ops = [.clear x f]) :
    ∀ (l : List SVCXPRT) (k : Nat) (s : Registry) (a : σ) (tr : List each_call), Inv s →
      nodes_at s p = l → l.length + k < 5 →
      ∃ s' a' tr', (∀ fuel, foreach_run each_f (2 * l.length + 2 + fuel)
            ⟨.restart p k, s, a, tr⟩ = foreach_run each_f fuel ⟨.part (p + 1), s', a', tr'⟩) ∧
        Inv s' ∧ nodes_at s' p = [] ∧ (∀ j, j ≠ p → part_at s' j = part_at s j) ∧
        tr'.length = tr.length + l.length := by
  intro l
  induction l with
  | nil =>
    intro k s a tr hs hn hk
    refine ⟨s, a, tr, ?_, hs, hn, fun _ _ => rfl, rfl⟩
    intro fuel
    have e : 2 * ([] : List SVCXPRT).length + 2 + fuel = (fuel + 1) + 1 := by
      have := @List.length_nil SVCXPRT; omega
    rw [e, run_succ_inl (step_restart each_f (by omega) hs hp a tr), hn]
    exact run_succ_inl (step_node_none each_f p (k + 1) (gen_at s p) s a tr) fuel
  | cons x l ih =>
    intro k s a tr hs hn hk
    have hlen := List.length_cons x l
    obtain ⟨hflag, f, hops⟩ := hrm x a s
    obtain ⟨s1, h1, h2, h3, h4⟩ := remove_head hs hp hn f
    rw [← hops] at h1
    have hstep := step_node_some each_f p (k + 1) (gen_at s p) x a tr h1 h2 hp
    have hpc : node_pc p (k + 1) (gen_at s p) x (each_f x a s).rflag s1 =
        .restart p (k + 1) := by
      unfold node_pc; rw [if_pos hflag]
    rw [hpc] at hstep
    obtain ⟨s', a', tr', k1, k2, k3, k4, k5⟩ := ih (k + 1) s1 (each_f x a s).arg
      (tr ++ [⟨x, (each_f x a s).rflag, s1⟩]) h2 h3 (by omega)
    refine ⟨s', a', tr', ?_, k2, k3, ?_, ?_⟩
    · intro fuel
      have e : 2 * (x :: l).length + 2 + fuel = (2 * l.length + 2 + fuel) + 1 + 1 := by omega
      rw [e, run_succ_inl (step_restart each_f (by omega) hs hp a tr), hn]
      simp only [List.head?_cons]
      rw [run_succ_inl hstep]
      exact k1 fuel
    · intro j hj; rw [k4 j hj, h4 j hj]
    · rw [k5, List.length_append]; simp; omega

theorem remove_scan_abort {σ : Type} (each_f : svc_xprt_each_func_t σ) {p : Nat}
    (hp : p < SVC_XPRT_PARTITIONS)
    (hrm : ∀ x a r, (each_f x a r).rflag = SVC_XPRT_FOREACH_CLEAR ∧
      ∃ f, (each_f x a r).ops = [.clear x f]) :
    ∀ (l : List SVCXPRT) (k : Nat) (s : Registry) (a : σ) (tr : List each_call), Inv s →
      nodes_at s p = l → k ≤ 5 → 5 ≤ l.length + k →
      ∃ r, foreach_run each_f (2 * (5 - k) + 1) ⟨.restart p k, s, a, tr⟩ = some r ∧
        r.code = 1 ∧ Inv r.reg ∧ (nodes_at r.reg p).length + (5 - k) = l.length ∧
        (∀ j, j ≠ p → part_at r.reg j = part_at s j) ∧
        r.calls.length = tr.length + (5 - k) := by
  intro l
  induction l with
  | nil =>
    intro k s a tr hs hn hk5 hk
    have hk' : k = 5 := by
      have := @List.length_nil SVCXPRT; omega
    subst hk'
    refine ⟨_, run_succ_inr (step_restart_over each_f (le_refl 5) s a tr) 0, rfl, hs, ?_,
      fun _ _ => rfl, rfl⟩
    show (nodes_at s p).length + 0 = _
    rw [hn]; rfl
  | cons x l ih =>
    intro k s a tr hs hn hk5 hk
    have hlen := List.length_cons x l
    by_cases hk' : k = 5
    · subst hk'
      refine ⟨_, run_succ_inr (step_restart_over each_f (le_refl 5) s a tr) 0, rfl, hs, ?_,
        fun _ _ => rfl, rfl⟩
      show (nodes_at s p).length + 0 = _
      rw [hn]; rfl
    · obtain ⟨hflag, f, hops⟩ := hrm x a s
      obtain ⟨s1, h1, h2, h3, h4⟩ := remove_head hs hp hn f
      rw [← hops] at h1
      have hstep := step_node_some each_f p (k + 1) (gen_at s p) x a tr h1 h2 hp
      have hpc : node_pc p (k + 1) (gen_at s p) x (each_f x a s).rflag s1 =
          .restart p (k + 1) := by
        unfold node_pc; rw [if_pos hflag]
      rw [hpc] at hstep
      obtain ⟨r, k1, k2, k3, k4, k5, k6⟩ := ih (k + 1) s1 (each_f x a s).arg
        (tr ++ [⟨x, (each_f x a s).rflag, s1⟩]) h2 h3 (by omega) (by omega)
      refine ⟨r, ?_, k2, k3, by omega, ?_, ?_⟩
      · have e : 2 * (5 - k) + 1 = (2 * (5 - (k + 1)) + 1) + 1 + 1 := by omega
        rw [e, run_succ_inl (step_restart each_f (by omega) hs hp a tr), hn]
        simp only [List.head?_cons]
        rw [run_succ_inl hstep]
        exact k1
      · intro j hj; rw [k5 j hj, h4 j hj]
      · rw [k6, List.length_append]; simp; omega

/-- One call of `svc_xprt_foreach` with a visitor that always removes, from
partition `p` on: either every partition from `p` on held at most four
handles, all of them are empty now and the result is 0; or the result is 1
and a partition that held at least five handles has lost five of them.  No
partition has grown. -/
theorem remove_sweep {σ : Type} (each_f : svc_xprt_each_func_t σ)
    (hrm : ∀ x a r, (each_f x a r).rflag = SVC_XPRT_FOREACH_CLEAR ∧
      ∃ f, (each_f x a r).ops = [.clear x f]) :
    ∀ (n p : Nat) (s : Registry) (a : σ) (tr : List each_call),
      p + n = SVC_XPRT_PARTITIONS → Inv s →
      ∃ r, foreach_run each_f (12 * n + 1) ⟨.part p, s, a, tr⟩ = some r ∧ Inv r.reg ∧
        (∀ j, j < p → part_at r.reg j = part_at s j) ∧
        (∀ j, (nodes_at r.reg j).length ≤ (nodes_at s j).length) ∧
        ((r.code = 0 ∧ (∀ j, p ≤ j → nodes_at r.reg j = []) ∧
            ∀ j, p ≤ j → (nodes_at s j).length < 5) ∨
         (r.code = 1 ∧ tr.length < r.calls.length ∧ ∃ q, p ≤ q ∧ q < SVC_XPRT_PARTITIONS ∧
            5 ≤ (nodes_at s q).length ∧
            (nodes_at r.reg q).length < (nodes_at s q).length)) := by
  intro n
  induction n with
  | zero =>
    intro p s a tr hpn hs
    have hp : ¬ p < SVC_XPRT_PARTITIONS := by omega
    refine ⟨_, run_succ_inr (step_part_ge each_f hp s a tr) 0, hs, fun _ _ => rfl,
      fun _ => le_refl _, Or.inl ⟨rfl, ?_, ?_⟩⟩
    · intro j hj; exact nodes_at_ge hs (by omega)
    · intro j hj; rw [nodes_at_ge hs (by omega)]; simp
  | succ n ih =>
    intro p s a tr hpn hs
    have hp : p < SVC_XPRT_PARTITIONS := by omega
    have hpart := step_part_lt each_f hp s a tr
    by_cases hsmall : (nodes_at s p).length < 5
    · obtain ⟨s', a', tr', k1, k2, k3, k4, k5⟩ :=
        remove_scan_done each_f hp hrm (nodes_at s p) 0 s a tr hs rfl (by omega)
      obtain ⟨r, r1, r2, r3, r4, r5⟩ := ih (p + 1) s' a' tr' (by omega) k2
      have hsame : ∀ j, j ≠ p → nodes_at s' j = nodes_at s j := by
        intro j hj; unfold nodes_at; rw [k4 j hj]
      have hrp : nodes_at r.reg p = [] := by
        unfold nodes_at; rw [r3 p (by omega)]; exact k3
      refine ⟨r, ?_, r2, ?_, ?_, ?_⟩
      · have e : 12 * (n + 1) + 1 =
            (2 * (nodes_at s p).length + 2 + (12 * n + 1 + (9 - 2 * (nodes_at s p).length)))
              + 1 := by omega
        rw [e, run_succ_inl hpart, k1]
        exact run_mono each_f _ _ r r1 _
      · intro j hj; rw [r3 j (by omega), k4 j (by omega)]
      · intro j
        by_cases hj : j = p
        · subst hj; rw [hrp]; simp
        · have := r4 j; rw [hsame j hj] at this; exact this
      · rcases r5 with ⟨c0, e1, e2⟩ | ⟨c1, hl, q, q1, q2, q3, q4⟩
        · left
          refine ⟨c0, ?_, ?_⟩
          · intro j hj
            by_cases hjp : j = p
            · subst hjp; exact hrp
            · exact e1 j (by omega)
          · intro j hj
            by_cases hjp : j = p
            · subst hjp; exact hsmall
            · have := e2 j (by omega); rw [hsame j hjp] at this; exact this
        · right
          have hqp : q ≠ p := by omega
          rw [hsame q hqp] at q3 q4
          exact ⟨c1, by omega, q, by omega, q2, q3, q4⟩
    · obtain ⟨r, r1, r2, r3, r4, r5, r6⟩ :=
        remove_scan_abort each_f hp hrm (nodes_at s p) 0 s a tr hs rfl (by omega) (by omega)
      have hsame : ∀ j, j ≠ p → nodes_at r.reg j = nodes_at s j := by
        intro j hj; unfold nodes_at; rw [r5 j hj]
      refine ⟨r, ?_, r3, fun j hj => r5 j (by omega), ?_, Or.inr ⟨r2, by omega, p, le_refl _,
        hp, by omega, by omega⟩⟩
      · have e : 12 * (n + 1) + 1 = (2 * (5 - 0) + 1 + (12 * n + 1)) + 1 := by omega
        rw [e, run_succ_inl hpart]
        exact run_mono each_f _ _ r r1 _
      · intro j
        by_cases hj : j = p
        · subst hj; omega
        · rw [hsame j hj]

/-- Number of handles linked in the registry. -/
def handles (s : Registry) : Nat := (linked_from s SVC_XPRT_PARTITIONS 0).length

theorem linked_len_le {r s : Registry}
    (h : ∀ j, (nodes_at r j).length ≤ (nodes_at s j).length) :
    ∀ (n p : Nat), (linked_from r n p).length ≤ (linked_from s n p).length := by
  intro n
  induction n with
  | zero => intro p; simp [linked_from]
  | succ n ih =>
    intro p
    simp only [linked_from, List.length_append]
    have := ih (p + 1)
    have := h p
    omega

theorem linked_len_lt {r s : Registry}
    (h : ∀ j, (nodes_at r j).length ≤ (nodes_at s j).length) {q : Nat}
    (hq : (nodes_at r q).length < (nodes_at s q).length) :
    ∀ (n p : Nat), p ≤ q → q < p + n →
      (linked_from r n p).length < (linked_from s n p).length := by
  intro n
  induction n with
  | zero => intro p h1 h2; omega
  | succ n ih =>
    intro p h1 h2
    simp only [linked_from, List.length_append]
    have hle := linked_len_le h n (p + 1)
    have hp := h p
    by_cases hqp : q = p
    · subst hqp; omega
    · have := ih (p + 1) (by omega) (by omega)
      omega

theorem linked_nil {r : Registry} :
    ∀ (n p : Nat), (∀ j, p ≤ j → nodes_at r j = []) → linked_from r n p = [] := by
  intro n
  induction n with
  | zero => intro p _; rfl
  | succ n ih =>
    intro p h
    simp only [linked_from, h p (le_refl _), ih (p + 1) (fun j hj => h j (by omega)),
      List.append_nil]

theorem handles_zero {s : Registry} (hs : Inv s) (h : handles s = 0) :
    ∀ x, opr_rbtree_node_valid s x = false := by
  intro x
  rw [← Bool.not_eq_true, ← mem_linked_iff_valid hs]
  have : linked_from s SVC_XPRT_PARTITIONS 0 = [] := List.length_eq_zero.mp h
  rw [this]
  simp

theorem foreach_cond_init {σ : Type} (fuel : Nat) (each_f : svc_xprt_each_func_t σ) (a : σ)
    (s : Registry) :
    svc_xprt_foreach fuel each_f a (cond_init_svc_xprt s) = svc_xprt_foreach fuel each_f a s := by
  unfold svc_xprt_foreach
  rw [cond_init_idem]

theorem foreach_reach {σ : Type} (each_f : svc_xprt_each_func_t σ) (fuel : Nat) (a : σ)
    {s : Registry} (hs : Reach s) {r : foreach_result σ}
    (h : svc_xprt_foreach fuel each_f a s = some r) : Reach r.reg := by
  have hstart : Reach (cond_init_svc_xprt s) := by
    unfold cond_init_svc_xprt
    split
    · exact Reach.init hs
    · exact hs
  obtain ⟨c, hc, hlast⟩ := run_invariant each_f (fun c => Good c ∧ Reach c.reg)
    (fun c c' hc hst => by
      refine ⟨good_step each_f hc.1 hst, ?_⟩
      obtain ⟨pc, s1, a1, tr1⟩ := c
      obtain ⟨⟨hs1, hpc⟩, hr⟩ := hc
      simp only at hs1 hpc hr
      cases pc with
      | part p =>
        by_cases hp : p < SVC_XPRT_PARTITIONS
        · rw [step_part_lt each_f hp] at hst; cases hst; exact hr
        · rw [step_part_ge each_f hp] at hst; cases hst
      | restart p k =>
        by_cases hk : k < 5
        · rw [step_restart each_f hk hs1 hpc] at hst; cases hst; exact hr
        · rw [step_restart_over each_f (by omega)] at hst; cases hst
      | node p k tgen n =>
        cases n with
        | none => rw [step_node_none] at hst; cases hst; exact hr
        | some x =>
          obtain ⟨s', h1, h2, _⟩ := ops_frame hs1 (each_f x a1 s1).ops
          rw [step_node_some each_f p k tgen x a1 tr1 h1 h2 hpc.1] at hst
          cases hst
          exact reach_run_ops hr _ h1)
    fuel _ r ⟨good_start a (reach_inv hs), hstart⟩ h
  rw [(step_ret each_f hc.1 hlast).1]
  exact hc.2

/-- Repeat `svc_xprt_foreach` until it returns 0, at most `rounds` times: the
number of calls made and the registry left. -/
def foreach_until_zero {σ : Type} (fuel : Nat) (each_f : svc_xprt_each_func_t σ) :
    Nat → σ → Registry → Option (Nat × Registry)
  | 0, _, _ => none
  | rounds + 1, a, s =>
    match svc_xprt_foreach fuel each_f a s with
    | none => none
    | some r =>
      if r.code = 0 then some (1, r.reg)
      else (foreach_until_zero fuel each_f rounds r.arg r.reg).map (fun q => (q.1 + 1, q.2))

theorem remove_call {σ : Type} (each_f : svc_xprt_each_func_t σ)
    (hrm : ∀ x a r, (each_f x a r).rflag = SVC_XPRT_FOREACH_CLEAR ∧
      ∃ f, (each_f x a r).ops = [.clear x f])
    (a : σ) {s : Registry} (hs : Inv s) :
    ∃ r, (∀ fuel, 85 ≤ fuel → svc_xprt_foreach fuel each_f a s = some r) ∧ Inv r.reg ∧
      ((r.code = 0 ∧ handles r.reg = 0) ∨
       (r.code = 1 ∧ handles r.reg < handles s ∧ r.calls ≠ [])) := by
  obtain ⟨r, r1, r2, _, r4, r5⟩ := remove_sweep each_f hrm SVC_XPRT_PARTITIONS 0 s a []
    (by simp) hs
  refine ⟨r, ?_, r2, ?_⟩
  · intro fuel hfuel
    unfold svc_xprt_foreach
    rw [cond_init_of_inv hs]
    exact run_mono_le each_f r1 (by simp only [SVC_XPRT_PARTITIONS]; omega)
  · rcases r5 with ⟨c0, e1, _⟩ | ⟨c1, hl, q, q1, q2, _, q4⟩
    · left
      refine ⟨c0, ?_⟩
      unfold handles
      rw [linked_nil _ _ e1]; rfl
    · right
      refine ⟨c1, linked_len_lt r4 q4 _ _ q1 (by omega), ?_⟩
      intro hnil
      rw [hnil] at hl
      simp at hl

theorem until_zero_spec {σ : Type} (each_f : svc_xprt_each_func_t σ)
    (hrm : ∀ x a r, (each_f x a r).rflag = SVC_XPRT_FOREACH_CLEAR ∧
      ∃ f, (each_f x a r).ops = [.clear x f]) (fuel : Nat) (hfuel : 85 ≤ fuel) :
    ∀ (rounds : Nat) (s : Registry) (a : σ), Inv s → handles s < rounds →
      ∃ k s', foreach_until_zero fuel each_f rounds a s = some (k, s') ∧
        k ≤ handles s + 1 ∧ Inv s' ∧ handles s' = 0 := by
  intro rounds
  induction rounds with
  | zero => intro s a _ h; omega
  | succ n ih =>
    intro s a hs hlt
    obtain ⟨r, r1, r2, r3⟩ := remove_call each_f hrm a hs
    have hcall := r1 fuel hfuel
    rcases r3 with ⟨c0, h0⟩ | ⟨c1, hless, _⟩
    · refine ⟨1, r.reg, ?_, by omega, r2, h0⟩
      simp [foreach_until_zero, hcall, c0]
    · obtain ⟨k, s', k1, k2, k3, k4⟩ := ih r.reg r.arg r2 (by omega)
      refine ⟨k + 1, s', ?_, by omega, k3, k4⟩
      have hne : ¬ r.code = 0 := by rw [c1]; decide
      simp [foreach_until_zero, hcall, hne, k1]

/-- C14 (an always-remove visitor eventually empties the registry): for a
visitor that removes the handle it is given and returns
`SVC_XPRT_FOREACH_CLEAR`, every call of `svc_xprt_foreach` returns 0 or 1 (with
85 transitions of fuel); a call that returns 1 has invoked the visitor and
left fewer handles linked than before, and after a call that returns 0 no
handle is linked.  Repeating the call until it returns 0 therefore takes at
most as many calls as handles were linked, plus one, and ends with an empty
registry. -/
theorem C14_always_remove_empties {σ : Type} (each_f : svc_xprt_each_func_t σ) (a : σ)
    (s : Registry) (hs : Reach s)
    (hrm : ∀ x a r, (each_f x a r).rflag = SVC_XPRT_FOREACH_CLEAR ∧
      ∃ f, (each_f x a r).ops = [.clear x f]) :
    (∃ r, (∀ fuel, 85 ≤ fuel → svc_xprt_foreach fuel each_f a s = some r) ∧ Reach r.reg ∧
      (r.code = 0 ∨ r.code = 1) ∧
      (r.code = 1 → handles r.reg < handles (cond_init_svc_xprt s) ∧ r.calls ≠ []) ∧
      (r.code = 0 → ∀ x, opr_rbtree_node_valid r.reg x = false)) ∧
    (∀ fuel rounds, 85 ≤ fuel → handles (cond_init_svc_xprt s) < rounds →
      ∃ k s', foreach_until_zero fuel each_f rounds a s = some (k, s') ∧
        k ≤ handles (cond_init_svc_xprt s) + 1 ∧
        ∀ x, opr_rbtree_node_valid s' x = false) := by
  have hinv := reach_inv hs
  constructor
  · obtain ⟨r, r1, r2, r3⟩ := remove_call each_f hrm a hinv
    have hcall : ∀ fuel, 85 ≤ fuel → svc_xprt_foreach fuel each_f a s = some r := by
      intro fuel hfuel
      rw [← foreach_cond_init]; exact r1 fuel hfuel
    refine ⟨r, hcall, foreach_reach each_f 85 a hs (hcall 85 (le_refl _)), ?_, ?_, ?_⟩
    · rcases r3 with ⟨c0, _⟩ | ⟨c1, _⟩
      · exact Or.inl c0
      · exact Or.inr c1
    · intro hc
      rcases r3 with ⟨c0, _⟩ | ⟨_, h1, h2⟩
      · rw [c0] at hc; cases hc
      · exact ⟨h1, h2⟩
    · intro hc
      rcases r3 with ⟨_, h0⟩ | ⟨c1, _⟩
      · exact handles_zero r2 h0
      · rw [c1] at hc; cases hc
  · intro fuel rounds hfuel hrounds
    obtain ⟨k, s', k1, k2, k3, k4⟩ :=
      until_zero_spec each_f hrm fuel hfuel rounds (cond_init_svc_xprt s) a hinv hrounds
    refine ⟨k, s', ?_, k2, handles_zero k3 k4⟩
    cases rounds with
    | zero => omega
    | succ n =>
      unfold foreach_until_zero at k1 ⊢
      rw [foreach_cond_init] at k1
      exact k1

theorem remover_removes : ∀ (x : SVCXPRT) (a : Nat) (r : Registry),
    (remover x a r).rflag = SVC_XPRT_FOREACH_CLEAR ∧
      ∃ f, (remover x a r).ops = [.clear x f] :=
  fun _ _ _ => ⟨rfl, 0, rfl⟩

set_option maxRecDepth 100000 in
theorem remover_two_calls :
    (foreach_until_zero 85 remover 6 0 reg_five).map
      (fun q => (q.1, handles q.2)) = some (2, 0) := by
  decide

/-- Witness of C14: `remover` on the registry with five handles in one partition
(the first call returns 1, the second 0, and no handle is left). -/
theorem C14_always_remove_empties_witness :
    Reach reg_five ∧
    (foreach_until_zero 85 remover 6 0 reg_five).map
      (fun q => (q.1, handles q.2)) = some (2, 0) ∧
    ((∃ r, (∀ fuel, 85 ≤ fuel → svc_xprt_foreach fuel remover 0 reg_five = some r) ∧
      Reach r.reg ∧ (r.code = 0 ∨ r.code = 1) ∧
      (r.code = 1 → handles r.reg < handles (cond_init_svc_xprt reg_five) ∧ r.calls ≠ []) ∧
      (r.code = 0 → ∀ x, opr_rbtree_node_valid r.reg x = false)) ∧
    (∀ fuel rounds, 85 ≤ fuel → handles (cond_init_svc_xprt reg_five) < rounds →
      ∃ k s', foreach_until_zero fuel remover rounds 0 reg_five = some (k, s') ∧
        k ≤ handles (cond_init_svc_xprt reg_five) + 1 ∧
        ∀ x, opr_rbtree_node_valid s' x = false)) :=
  ⟨reach_five, remover_two_calls,
    C14_always_remove_empties remover 0 reg_five reach_five remover_removes⟩

/-! ## The sweep ends at the partition that exhausts the budget -/

theorem node_pc_cases (p r tgen : Nat) (x : SVCXPRT) (rflag : Nat) (s' : Registry) :
    node_pc p r tgen x rflag s' = .restart p r ∨
      ∃ n, node_pc p r tgen x rflag s' = .node p r tgen n := by
  unfold node_pc
  split
  · exact Or.inl rfl
  · split
    · split
      · exact Or.inl rfl
      · exact Or.inr ⟨_, rfl⟩
    · exact Or.inr ⟨_, rfl⟩

/-- Where the recorded invocations lie, relative to the partition being
scanned: all of them in partitions up to the current one, and a restart that is
not the first entry of the partition follows an invocation in that partition. -/
def sweep_ok (calls : List each_call) : foreach_pc → Prop
  | .part p => ∀ e ∈ calls, home e.xprt.xp_fd < p
  | .restart p k =>
    (∀ e ∈ calls, home e.xprt.xp_fd ≤ p) ∧
      (1 ≤ k → ∃ e, calls.getLast? = some e ∧ home e.xprt.xp_fd = p)
  | .node p k _ _ => (∀ e ∈ calls, home e.xprt.xp_fd ≤ p) ∧ 1 ≤ k

theorem sweep_ok_step {σ : Type} (each_f : svc_xprt_each_func_t σ) {c c' : foreach_state σ}
    (hc : Good c) (hok : sweep_ok c.calls c.pc)
    (h : foreach_step each_f c = some (.inl c')) : sweep_ok c'.calls c'.pc := by
  obtain ⟨pc, s, a, tr⟩ := c
  obtain ⟨hs, hpc⟩ := hc
  simp only at hs hpc hok
  cases pc with
  | part p =>
    by_cases hp : p < SVC_XPRT_PARTITIONS
    · rw [step_part_lt each_f hp] at h; cases h
      refine ⟨fun e he => Nat.le_of_lt (hok e he), fun h1 => ?_⟩
      omega
    · rw [step_part_ge each_f hp] at h; cases h
  | restart p k =>
    by_cases hr : k < 5
    · rw [step_restart each_f hr hs hpc] at h; cases h
      exact ⟨hok.1, by omega⟩
    · rw [step_restart_over each_f (by omega)] at h; cases h
  | node p k tgen n =>
    cases n with
    | none =>
      rw [step_node_none] at h; cases h
      intro e he
      have := hok.1 e he
      show home e.xprt.xp_fd < p + 1
      omega
    | some x =>
      obtain ⟨s', h1, h2, _⟩ := ops_frame hs (each_f x a s).ops
      rw [step_node_some each_f p k tgen x a tr h1 h2 hpc.1] at h
      cases h
      have hx : home x.xp_fd = p := home_at hs hpc.1 (hpc.2.2 x rfl)
      have hall : ∀ e ∈ tr ++ [(⟨x, (each_f x a s).rflag, s'⟩ : each_call)],
          home e.xprt.xp_fd ≤ p := by
        intro e he
        rcases List.mem_append.mp he with he | he
        · exact hok.1 e he
        · rw [List.mem_singleton] at he
          subst he
          exact Nat.le_of_eq hx
      show sweep_ok _ (node_pc p k tgen x (each_f x a s).rflag s')
      rcases node_pc_cases p k tgen x (each_f x a s).rflag s' with e | ⟨n, e⟩
      · rw [e]
        exact ⟨hall, fun _ => ⟨_, List.getLast?_concat _, hx⟩⟩
      · rw [e]
        exact ⟨hall, hok.2⟩

/-- C12, amended (an aborted partition ends the sweep): when `svc_xprt_foreach`
returns 1, the visitor was last invoked on a handle of some partition p, every
invocation of the call was on a handle of a partition up to p, and no handle
whose descriptor belongs to a later partition was passed to the visitor. -/
theorem C12_abort_ends_sweep {σ : Type} (each_f : svc_xprt_each_func_t σ) (a : σ)
    (s : Registry) (hs : Reach s) (fuel : Nat) (r : foreach_result σ)
    (h : svc_xprt_foreach fuel each_f a s = some r) (hcode : r.code = 1) :
    ∃ p e, p < SVC_XPRT_PARTITIONS ∧ r.calls.getLast? = some e ∧ home e.xprt.xp_fd = p ∧
      (∀ c ∈ r.calls, home c.xprt.xp_fd ≤ p) ∧
      (∀ x, p < home x.xp_fd → x ∉ r.calls.map each_call.xprt) := by
  obtain ⟨c, ⟨hg, hok⟩, hlast⟩ := run_invariant each_f
    (fun c => Good c ∧ sweep_ok c.calls c.pc)
    (fun c c' hc hst => ⟨good_step each_f hc.1 hst, sweep_ok_step each_f hc.1 hc.2 hst⟩)
    fuel _ r ⟨good_start a (reach_inv hs), fun e he => by cases he⟩ h
  obtain ⟨_, _, hcalls, hcase⟩ := step_ret each_f hg hlast
  rcases hcase with ⟨h0, _⟩ | ⟨_, p, k, hpc, hk⟩
  · rw [h0] at hcode; cases hcode
  · have hp : p < SVC_XPRT_PARTITIONS := by
      have := hg.2
      rw [hpc] at this
      exact this
    rw [hpc] at hok
    obtain ⟨e, he1, he2⟩ := hok.2 (by omega)
    rw [← hcalls] at hok he1
    refine ⟨p, e, hp, he1, he2, hok.1, ?_⟩
    intro x hx hmem
    obtain ⟨c0, hc0, rfl⟩ := List.mem_map.mp hmem
    have := hok.1 c0 hc0
    omega

/-- Five handles in partition 0 and one in partition 3. -/
def reg_six : Registry :=
  ⟨true, ⟨7, some [⟨⟨[⟨0, 0⟩, ⟨7, 1⟩, ⟨14, 2⟩, ⟨21, 3⟩, ⟨28, 4⟩], 5⟩⟩, ⟨⟨[], 0⟩⟩, ⟨⟨[], 0⟩⟩,
    ⟨⟨[⟨3, 5⟩], 1⟩⟩, ⟨⟨[], 0⟩⟩, ⟨⟨[], 0⟩⟩, ⟨⟨[], 0⟩⟩]⟩⟩

theorem reach_six : Reach reg_six :=
  reach_run_ops Reach.static
    [.set ⟨0, 0⟩ 0, .set ⟨7, 1⟩ 0, .set ⟨14, 2⟩ 0, .set ⟨21, 3⟩ 0, .set ⟨28, 4⟩ 0,
      .set ⟨3, 5⟩ 0] (by decide)

/-- What the sweep with `remover` over `reg_six` returns. -/
def six_result : foreach_result Nat :=
  (svc_xprt_foreach 40 remover 0 reg_six).getD ⟨0, svc_xprt_fd, 0, []⟩

theorem six_result_eq : svc_xprt_foreach 40 remover 0 reg_six = some six_result := rfl

set_option maxRecDepth 100000 in
theorem six_result_code : six_result.code = 1 := by
  decide

/-- Witness of C12 (amended): `remover` over five handles in partition 0 and one
in partition 3. -/
theorem C12_abort_ends_sweep_witness :
    Reach reg_six ∧ svc_xprt_foreach 40 remover 0 reg_six = some six_result ∧
    six_result.code = 1 ∧
    ∃ p e, p < SVC_XPRT_PARTITIONS ∧ six_result.calls.getLast? = some e ∧
      home e.xprt.xp_fd = p ∧
      (∀ c ∈ six_result.calls, home c.xprt.xp_fd ≤ p) ∧
      (∀ x, p < home x.xp_fd → x ∉ six_result.calls.map each_call.xprt) :=
  ⟨reach_six, six_result_eq, six_result_code,
    C12_abort_ends_sweep remover 0 reg_six reach_six 40 six_result six_result_eq
      six_result_code⟩

set_option maxRecDepth 100000 in
/-- C12, counterexample: partition 0 holds five handles and partition 3 holds
the handle with descriptor 3; the visitor removes each handle it is shown and
returns `SVC_XPRT_FOREACH_CLEAR`.  The call returns 1 after the five invocations
in partition 0; the handle of partition 3, which the visitor never touched, is
still registered and was not passed to the visitor. -/
theorem C12_later_partition_not_visited :
    Reach reg_six ∧
    (svc_xprt_foreach 40 remover 0 reg_six).map
      (fun r => (r.code, r.calls.map (fun c => c.xprt.xp_fd),
        opr_rbtree_node_valid r.reg ⟨3, 5⟩,
        (svc_xprt_get 3 r.reg).map Prod.fst)) =
      some (1, [0, 7, 14, 21, 28], true, some (some ⟨3, 5⟩)) :=
  ⟨reach_six, by decide⟩

/-! ## A visitor that asks for a restart without removing -/

/-- A line written by `svc_xprt_dump_xprts`: the header of a partition, with its
index and the size of its tree, or one handle. -/
inductive dump_line where
  | tree (tag : String) (p_ix : Nat) (size : Nat)
  | xprt (tag : String) (xprt : SVCXPRT)
deriving DecidableEq, Repr

/-- The inner loop of `svc_xprt_dump_xprts` (lines 291-297): log the handle at
the cursor and advance, until the cursor is NULL. -/
def dump_loop (t : opr_rbtree) (tag : String) :
    Nat → Option SVCXPRT → List dump_line → Option (List dump_line)
  | 0, _, _ => none
  | _ + 1, none, out => some out
  | fuel + 1, some xprt, out =>
    dump_loop t tag fuel (opr_rbtree_next t xprt) (out ++ [.xprt tag xprt])

/-- The outer loop of `svc_xprt_dump_xprts` (lines 285-300) from partition
`p_ix`, with `n` partitions to go. -/
def dump_parts (fuel : Nat) (tag : String) :
    Nat → Nat → Registry → List dump_line → Option (List dump_line × Registry)
  | 0, _, r, out => some (out, r)
  | n + 1, p_ix, r, out =>
    match rbtx_partition_of_ix r.xt p_ix with
    | none => none
    | some t =>
      match dump_loop t.t tag fuel (opr_rbtree_first t.t)
          (out ++ [.tree tag p_ix t.t.nodes.length]) with
      | none => none
      | some out' => dump_parts fuel tag n (p_ix + 1) r out'

/-- `svc_xprt_dump_xprts` (lines 273-303): the lines logged and the registry
afterwards.  `fuel` bounds the inner loop. -/
def svc_xprt_dump_xprts (fuel : Nat) (tag : String) (r : Registry) :
    Option (List dump_line × Registry) :=
  if !r.initialized then some ([], r)
  else dump_parts fuel tag SVC_XPRT_PARTITIONS 0 r []

/-- The lines a dump of partitions `p .. p + n - 1` consists of. -/
def dump_lines (tag : String) (s : Registry) : Nat → Nat → List dump_line
  | 0, _ => []
  | n + 1, p =>
    [dump_line.tree tag p (nodes_at s p).length] ++
      (nodes_at s p).map (dump_line.xprt tag) ++ dump_lines tag s n (p + 1)

theorem dump_parts_reg (fuel : Nat) (tag : String) :
    ∀ (n p : Nat) (r : Registry) (out out' : List dump_line) (r' : Registry),
      dump_parts fuel tag n p r out = some (out', r') → r' = r := by
  intro n
  induction n with
  | zero =>
    intro p r out out' r' h
    simp only [dump_parts, Option.some.injEq, Prod.mk.injEq] at h
    exact h.2.symm
  | succ n ih =>
    intro p r out out' r' h
    unfold dump_parts at h
    cases ht : rbtx_partition_of_ix r.xt p with
    | none => simp [ht] at h
    | some t =>
      simp only [ht] at h
      cases hl : dump_loop t.t tag fuel (opr_rbtree_first t.t)
          (out ++ [.tree tag p t.t.nodes.length]) with
      | none => simp [hl] at h
      | some o =>
        simp only [hl] at h
        exact ih _ _ _ _ _ h

theorem dump_loop_spec (t : opr_rbtree) (tag : String) (hnd : t.nodes.Nodup) :
    ∀ (post pre : List SVCXPRT) (x : SVCXPRT) (out : List dump_line) (fuel : Nat),
      t.nodes = pre ++ x :: post → post.length + 2 ≤ fuel →
      dump_loop t tag fuel (some x) out =
        some (out ++ (x :: post).map (dump_line.xprt tag)) := by
  intro post
  induction post with
  | nil =>
    intro pre x out fuel hl hfuel
    have hx : x ∉ pre := by
      intro hx
      rw [hl] at hnd
      exact List.disjoint_left.mp (List.nodup_append.mp hnd).2.2 hx (by simp)
    obtain ⟨f, rfl⟩ : ∃ f, fuel = f + 2 := ⟨fuel - 2, by simp at hfuel; omega⟩
    simp only [dump_loop, opr_rbtree_next, hl, next_in_append hx, List.head?_nil,
      List.map_cons, List.map_nil]
  | cons y post ih =>
    intro pre x out fuel hl hfuel
    have hx : x ∉ pre := by
      intro hx
      rw [hl] at hnd
      exact List.disjoint_left.mp (List.nodup_append.mp hnd).2.2 hx (by simp)
    have hlen := List.length_cons y post
    obtain ⟨f, rfl⟩ : ∃ f, fuel = f + 1 := ⟨fuel - 1, by omega⟩
    have hl2 : t.nodes = (pre ++ [x]) ++ y :: post := by rw [hl]; simp
    have := ih (pre ++ [x]) y (out ++ [.xprt tag x]) f hl2 (by omega)
    have hnext : opr_rbtree_next t x = some y := by
      unfold opr_rbtree_next
      rw [hl, next_in_append hx]
      rfl
    simp only [dump_loop, hnext]
    rw [this]
    simp

theorem dump_part_spec (t : opr_rbtree) (tag : String) (hnd : t.nodes.Nodup)
    (out : List dump_line) (fuel : Nat) (hfuel : t.nodes.length + 1 ≤ fuel) :
    dump_loop t tag fuel (opr_rbtree_first t) out =
      some (out ++ t.nodes.map (dump_line.xprt tag)) := by
  cases hl : t.nodes with
  | nil =>
    obtain ⟨f, rfl⟩ : ∃ f, fuel = f + 1 := ⟨fuel - 1, by omega⟩
    simp [dump_loop, opr_rbtree_first, hl]
  | cons x post =>
    have hlen := List.length_cons x post
    rw [hl] at hfuel
    have := dump_loop_spec t tag hnd post [] x out fuel (by rw [hl]; rfl) (by omega)
    simp only [opr_rbtree_first, hl, List.head?_cons]
    exact this

theorem dump_parts_spec (tag : String) {s : Registry} (hs : Inv s) (fuel : Nat)
    (hfuel : ∀ j, (nodes_at s j).length + 1 ≤ fuel) :
    ∀ (n p : Nat) (out : List dump_line), p + n = SVC_XPRT_PARTITIONS →
      dump_parts fuel tag n p s out = some (out ++ dump_lines tag s n p, s) := by
  intro n
  induction n with
  | zero => intro p out _; simp [dump_parts, dump_lines]
  | succ n ih =>
    intro p out hpn
    have hp : p < SVC_XPRT_PARTITIONS := by omega
    have hps := part_some hs hp
    unfold dump_parts
    simp only [hps.1]
    have hsort : fd_sorted (part_at s p).t.nodes := sorted_at_ix hs hp
    rw [dump_part_spec (part_at s p).t tag (fd_sorted_nodup hsort) _ fuel (hfuel p)]
    simp only
    rw [ih (p + 1) _ (by omega)]
    simp [dump_lines, nodes_at]

/-- C18 (dump is read-only): whenever `svc_xprt_dump_xprts` returns, the
registry is the one it was given (same partitions, same handles, same
generation counters, same `initialized` flag); on a registry that is not
initialized it logs nothing and returns it as it is, not initialized; and on
every registry reachable through the operations it does return (with fuel for
the largest partition), having logged the header of each partition followed by
the handles linked in it. -/
theorem C18_dump_read_only (tag : String) (r : Registry) :
    (∀ fuel out r', svc_xprt_dump_xprts fuel tag r = some (out, r') → r' = r) ∧
    (r.initialized = false → ∀ fuel, svc_xprt_dump_xprts fuel tag r = some ([], r)) ∧
    (Reach r → ∀ fuel, handles r + 1 ≤ fuel →
      svc_xprt_dump_xprts fuel tag r =
        some (if r.initialized then dump_lines tag r SVC_XPRT_PARTITIONS 0 else [], r)) := by
  refine ⟨?_, ?_, ?_⟩
  · intro fuel out r' h
    unfold svc_xprt_dump_xprts at h
    split at h
    · simp only [Option.some.injEq, Prod.mk.injEq] at h
      exact h.2.symm
    · exact dump_parts_reg fuel tag _ _ _ _ _ _ h
  · intro hi fuel
    simp [svc_xprt_dump_xprts, hi]
  · intro hr fuel hfuel
    rcases reach_cases hr with rfl | hinv
    · rfl
    · have hi := hinv.1
      simp only [svc_xprt_dump_xprts, hi, Bool.not_true, if_true]
      rw [dump_parts_spec tag hinv fuel ?_ SVC_XPRT_PARTITIONS 0 [] (by simp)]
      · simp
      · intro j
        by_cases hj : j < SVC_XPRT_PARTITIONS
        · have := length_nodes_le_linked r SVC_XPRT_PARTITIONS 0 j (Nat.zero_le _) (by omega)
          unfold handles at hfuel
          omega
        · rw [nodes_at_ge hinv (by omega)]
          simp only [List.length_nil]
          omega

/-- The dump of the registry holding descriptors 5 and 9, and of the registry
before initialization. -/
theorem dump_examples :
    svc_xprt_dump_xprts 3 "t" reg_5_9 =
      some ([.tree "t" 0 0, .tree "t" 1 0, .tree "t" 2 1, .xprt "t" ⟨9, 2⟩, .tree "t" 3 0,
        .tree "t" 4 0, .tree "t" 5 1, .xprt "t" ⟨5, 1⟩, .tree "t" 6 0], reg_5_9) ∧
    svc_xprt_dump_xprts 0 "t" svc_xprt_fd = some ([], svc_xprt_fd) ∧
    (svc_xprt_get 5 svc_xprt_fd).map (fun q => q.2.initialized) = some true :=
  ⟨rfl, rfl, rfl⟩

/-! ## Partition locks taken by the enumeration -/

/-- What the enumerating thread does that matters for the locking discipline:
`rwlock_rdlock` and `rwlock_unlock` on the lock of partition `p_ix`, the call
of the visitor, and the `return`. -/
inductive lock_event where
  | rdlock (p_ix : Nat)
  | unlock (p_ix : Nat)
  | visit (xprt : SVCXPRT)
  | ret (code : Int)
deriving DecidableEq, Repr

/-- One transition of `svc_xprt_foreach` (lines 222-270), as `foreach_step`,
together with the lock operations, visitor call and `return` it passes, in
program order. -/
def foreach_step_locks {σ : Type} (each_f : svc_xprt_each_func_t σ) (c : foreach_state σ) :
    Option ((foreach_state σ ⊕ foreach_result σ) × List lock_event) :=
  match c.pc with
  | .part p_ix =>
    if p_ix < SVC_XPRT_PARTITIONS then
      some (.inl ⟨.restart p_ix 0, c.reg, c.arg, c.calls⟩, [])
    else
      -- return (0);
      some (.inr ⟨0, c.reg, c.arg, c.calls⟩, [.ret 0])
  | .restart p_ix restarts =>
    -- if (++restarts > 5) return (1);
    if restarts + 1 > 5 then some (.inr ⟨1, c.reg, c.arg, c.calls⟩, [.ret 1])
    else
      -- rwlock_rdlock(&t->lock); tgen = t->t.gen; n = opr_rbtree_first(&t->t);
      match rbtx_partition_of_ix c.reg.xt p_ix with
      | none => none
      | some t =>
        some (.inl ⟨.node p_ix (restarts + 1) t.t.gen (opr_rbtree_first t.t),
                    c.reg, c.arg, c.calls⟩, [.rdlock p_ix])
  | .node p_ix _ _ none =>
    -- inner loop left: rwlock_unlock(&t->lock); p_ix++
    some (.inl ⟨.part (p_ix + 1), c.reg, c.arg, c.calls⟩, [.unlock p_ix])
  | .node p_ix restarts tgen (some xprt) =>
    -- rwlock_unlock(&t->lock); rflag = each_f(xprt, arg);
    let sk : SVCXPRT := ⟨xprt.xp_fd, 0⟩
    let r := each_f xprt c.arg c.reg
    match run_ops r.ops c.reg with
    | none => none
    | some reg =>
      let calls := c.calls ++ [⟨xprt, r.rflag, reg⟩]
      if r.rflag = SVC_XPRT_FOREACH_CLEAR then
        -- goto restart;
        some (.inl ⟨.restart p_ix restarts, reg, r.arg, calls⟩, [.unlock p_ix, .visit xprt])
      else
        -- rwlock_rdlock(&t->lock);
        match rbtx_partition_of_ix reg.xt p_ix with
        | none => none
        | some t =>
          if tgen ≠ t.t.gen then
            match opr_rbtree_lookup t.t sk with
            | none =>
              -- rwlock_unlock(&t->lock); goto restart;
              some (.inl ⟨.restart p_ix restarts, reg, r.arg, calls⟩,
                [.unlock p_ix, .visit xprt, .rdlock p_ix, .unlock p_ix])
            | some n =>
              some (.inl ⟨.node p_ix restarts tgen (opr_rbtree_next t.t n), reg, r.arg, calls⟩,
                [.unlock p_ix, .visit xprt, .rdlock p_ix])
          else
            some (.inl ⟨.node p_ix restarts tgen (opr_rbtree_next t.t xprt), reg, r.arg, calls⟩,
              [.unlock p_ix, .visit xprt, .rdlock p_ix])

/-- Run the transitions until the `return`, collecting the events. -/
def foreach_run_locks {σ : Type} (each_f : svc_xprt_each_func_t σ) :
    Nat → foreach_state σ → List lock_event → Option (foreach_result σ × List lock_event)
  | 0, _, _ => none
  | fuel + 1, c, evs =>
    match foreach_step_locks each_f c with
    | none => none
    | some (.inl c', es) => foreach_run_locks each_f fuel c' (evs ++ es)
    | some (.inr r, es) => some (r, evs ++ es)

/-- `svc_xprt_foreach`, with the lock operations of the enumerating thread
recorded. -/
def svc_xprt_foreach_locks {σ : Type} (fuel : Nat) (each_f : svc_xprt_each_func_t σ) (arg : σ)
    (r : Registry) : Option (foreach_result σ × List lock_event) :=
  foreach_run_locks each_f fuel ⟨.part 0, cond_init_svc_xprt r, arg, []⟩ []

/-- The partition lock the thread holds after the events, starting with `held`;
`none` when the discipline is broken: a lock taken while one is held, a lock
released that is not the one held, or the visitor called or the function left
while a lock is held. -/
def lock_state : Option Nat → List lock_event → Option (Option Nat)
  | held, [] => some held
  | none, .rdlock p :: rest => lock_state (some p) rest
  | some _, .rdlock _ :: _ => none
  | some q, .unlock p :: rest => if p = q then lock_state none rest else none
  | none, .unlock _ :: _ => none
  | none, .visit _ :: rest => lock_state none rest
  | some _, .visit _ :: _ => none
  | none, .ret _ :: rest => lock_state none rest
  | some _, .ret _ :: _ => none

/-- The partition lock held at a control point: the read lock of the current
partition while the cursor is in use, none elsewhere. -/
def pc_held : foreach_pc → Option Nat
  | .node p _ _ _ => some p
  | _ => none

/-- The lock held after a transition. -/
def out_held {σ : Type} : foreach_state σ ⊕ foreach_result σ → Option Nat
  | .inl c => pc_held c.pc
  | .inr _ => none

/-- The invocations recorded after a transition. -/
def out_calls {σ : Type} : foreach_state σ ⊕ foreach_result σ → List each_call
  | .inl c => c.calls
  | .inr r => r.calls

/-- The handle of a `visit` event. -/
def visit_of : lock_event → Option SVCXPRT
  | .visit x => some x
  | _ => none

theorem step_locks_fst {σ : Type} (each_f : svc_xprt_each_func_t σ) (c : foreach_state σ) :
    (foreach_step_locks each_f c).map Prod.fst = foreach_step each_f c := by
  obtain ⟨pc, s, a, tr⟩ := c
  cases pc with
  | part p =>
    simp only [foreach_step_locks, foreach_step]
    split <;> rfl
  | restart p k =>
    simp only [foreach_step_locks, foreach_step]
    split
    · rfl
    · cases rbtx_partition_of_ix s.xt p <;> rfl
  | node p k tgen n =>
    cases n with
    | none => rfl
    | some x =>
      simp only [foreach_step_locks, foreach_step]
      cases run_ops (each_f x a s).ops s with
      | none => rfl
      | some reg =>
        simp only
        split
        · rfl
        · cases rbtx_partition_of_ix reg.xt p with
          | none => rfl
          | some t =>
            simp only
            split
            · cases opr_rbtree_lookup t.t ⟨x.xp_fd, 0⟩ <;> rfl
            · rfl

theorem step_locks_spec {σ : Type} (each_f : svc_xprt_each_func_t σ) {c : foreach_state σ}
    {o : foreach_state σ ⊕ foreach_result σ} {es : List lock_event}
    (h : foreach_step_locks each_f c = some (o, es)) :
    lock_state (pc_held c.pc) es = some (out_held o) ∧
      (out_calls o).map each_call.xprt =
        c.calls.map each_call.xprt ++ es.filterMap visit_of ∧
      (∀ r, o = .inr r → es = [.ret r.code]) := by
  obtain ⟨pc, s, a, tr⟩ := c
  cases pc with
  | part p =>
    simp only [foreach_step_locks] at h
    split at h <;> cases h <;> simp [lock_state, pc_held, out_held, out_calls, visit_of]
  | restart p k =>
    simp only [foreach_step_locks] at h
    split at h
    · cases h; simp [lock_state, pc_held, out_held, out_calls, visit_of]
    · cases ht : rbtx_partition_of_ix s.xt p with
      | none => simp [ht] at h
      | some t =>
        simp only [ht] at h
        cases h
        simp [lock_state, pc_held, out_held, out_calls, visit_of]
  | node p k tgen n =>
    cases n with
    | none =>
      simp only [foreach_step_locks] at h
      cases h
      simp [lock_state, pc_held, out_held, out_calls, visit_of]
    | some x =>
      simp only [foreach_step_locks] at h
      cases hops : run_ops (each_f x a s).ops s with
      | none => simp [hops] at h
      | some reg =>
        simp only [hops] at h
        split at h
        · cases h
          simp [lock_state, pc_held, out_held, out_calls, visit_of]
        · cases ht : rbtx_partition_of_ix reg.xt p with
          | none => simp [ht] at h
          | some t =>
            simp only [ht] at h
            split at h
            · cases hl : opr_rbtree_lookup t.t ⟨x.xp_fd, 0⟩ with
              | none =>
                simp only [hl] at h
                cases h
                simp [lock_state, pc_held, out_held, out_calls, visit_of]
              | some n =>
                simp only [hl] at h
                cases h
                simp [lock_state, pc_held, out_held, out_calls, visit_of]
            · cases h
              simp [lock_state, pc_held, out_held, out_calls, visit_of]

theorem lock_state_append :
    ∀ (a b : List lock_event) (h : Option Nat),
      lock_state h (a ++ b) = (lock_state h a).bind (fun h1 => lock_state h1 b) := by
  intro a
  induction a with
  | nil => intro b h; simp [lock_state]
  | cons e a ih =>
    intro b h
    cases h with
    | none =>
      cases e <;> simp [lock_state, ih]
    | some q =>
      cases e with
      | rdlock p => simp [lock_state]
      | unlock p =>
        simp only [List.cons_append, lock_state]
        split
        · exact ih b none
        · rfl
      | visit x => simp [lock_state]
      | ret code => simp [lock_state]

theorem lock_state_at :
    ∀ (pre post : List lock_event) (e : lock_event) (h h2 : Option Nat),
      lock_state h (pre ++ e :: post) = some h2 →
      (∃ x, e = .visit x) ∨ (∃ code, e = .ret code) → lock_state h pre = some none := by
  intro pre post e h h2 hst he
  rw [lock_state_append] at hst
  cases hp : lock_state h pre with
  | none => rw [hp] at hst; cases hst
  | some h1 =>
    rw [hp] at hst
    simp only [Option.some_bind] at hst
    cases h1 with
    | none => rfl
    | some q =>
      rcases he with ⟨x, rfl⟩ | ⟨code, rfl⟩ <;> simp [lock_state] at hst

theorem run_locks_fst {σ : Type} (each_f : svc_xprt_each_func_t σ) :
    ∀ (fuel : Nat) (c : foreach_state σ) (evs : List lock_event),
      (foreach_run_locks each_f fuel c evs).map Prod.fst = foreach_run each_f fuel c := by
  intro fuel
  induction fuel with
  | zero => intro c evs; rfl
  | succ n ih =>
    intro c evs
    unfold foreach_run_locks foreach_run
    rw [← step_locks_fst]
    cases hstep : foreach_step_locks each_f c with
    | none => rfl
    | some q =>
      obtain ⟨o, es⟩ := q
      cases o with
      | inl c' => simp only [Option.map_some']; exact ih c' _
      | inr r => rfl

theorem run_locks_spec {σ : Type} (each_f : svc_xprt_each_func_t σ) :
    ∀ (fuel : Nat) (c : foreach_state σ) (evs : List lock_event) (r : foreach_result σ)
      (out : List lock_event),
      lock_state none evs = some (pc_held c.pc) →
      evs.filterMap visit_of = c.calls.map each_call.xprt →
      foreach_run_locks each_f fuel c evs = some (r, out) →
      lock_state none out = some none ∧ out.getLast? = some (.ret r.code) ∧
        out.filterMap visit_of = r.calls.map each_call.xprt := by
  intro fuel
  induction fuel with
  | zero => intro c evs r out _ _ h; simp [foreach_run_locks] at h
  | succ n ih =>
    intro c evs r out hl hv h
    unfold foreach_run_locks at h
    cases hstep : foreach_step_locks each_f c with
    | none => simp [hstep] at h
    | some q =>
      obtain ⟨o, es⟩ := q
      obtain ⟨s1, s2, s3⟩ := step_locks_spec each_f hstep
      have hl2 : lock_state none (evs ++ es) = some (out_held o) := by
        rw [lock_state_append, hl]; exact s1
      have hv2 : (evs ++ es).filterMap visit_of = (out_calls o).map each_call.xprt := by
        rw [List.filterMap_append, hv, s2]
      cases o with
      | inl c' =>
        simp only [hstep] at h
        exact ih c' _ r out hl2 hv2 h
      | inr r' =>
        simp only [hstep, Option.some.injEq, Prod.mk.injEq] at h
        obtain ⟨rfl, rfl⟩ := h
        refine ⟨hl2, ?_, hv2⟩
        rw [s3 r' rfl]
        exact List.getLast?_concat _

theorem getLast_split {α : Type} :
    ∀ (l : List α) (x : α), l.getLast? = some x → ∃ pre, l = pre ++ [x] := by
  intro l
  induction l with
  | nil => intro x h; simp at h
  | cons y l ih =>
    intro x h
    cases l with
    | nil =>
      simp at h
      exact ⟨[], by rw [h]; rfl⟩
    | cons z l =>
      rw [List.getLast?_cons_cons] at h
      obtain ⟨pre, hpre⟩ := ih x h
      exact ⟨y :: pre, by rw [hpre]; rfl⟩

/-- C19 (no lock is held across the visitor): in the run of `svc_xprt_foreach`
that records the lock operations of the enumerating thread, the result is the
one of `svc_xprt_foreach`, the `visit` events are the visitor invocations, the
discipline is kept throughout (one partition lock at a time, released by its
holder) and the thread holds no partition lock before any `visit` event and
before the final `ret` event, whichever path led there. -/
theorem C19_no_lock_across_visitor {σ : Type} (each_f : svc_xprt_each_func_t σ) (a : σ)
    (s : Registry) (fuel : Nat) (r : foreach_result σ) (evs : List lock_event)
    (h : svc_xprt_foreach_locks fuel each_f a s = some (r, evs)) :
    svc_xprt_foreach fuel each_f a s = some r ∧
    evs.filterMap visit_of = r.calls.map each_call.xprt ∧
    lock_state none evs = some none ∧
    (∀ pre x post, evs = pre ++ .visit x :: post → lock_state none pre = some none) ∧
    (∃ pre, evs = pre ++ [.ret r.code] ∧ lock_state none pre = some none) := by
  have hfst : svc_xprt_foreach fuel each_f a s = some r := by
    unfold svc_xprt_foreach
    rw [← run_locks_fst each_f fuel _ []]
    unfold svc_xprt_foreach_locks at h
    rw [h]
    rfl
  obtain ⟨h1, h2, h3⟩ := run_locks_spec each_f fuel
    ⟨.part 0, cond_init_svc_xprt s, a, []⟩ [] r evs rfl rfl h
  refine ⟨hfst, h3, h1, ?_, ?_⟩
  · intro pre x post heq
    rw [heq] at h1
    exact lock_state_at pre post (.visit x) none none h1 (Or.inl ⟨x, rfl⟩)
  · obtain ⟨pre, hpre⟩ := getLast_split evs _ h2
    refine ⟨pre, hpre, ?_⟩
    rw [hpre] at h1
    exact lock_state_at pre [] (.ret r.code) none none h1 (Or.inr ⟨r.code, rfl⟩)

/-- The visitor of the lock example: shown descriptor 14 it removes the handle
and asks for a restart; shown descriptor 5 it removes the handle and returns
`SVC_XPRT_FOREACH_NONE`; otherwise it does nothing. -/
def lock_visitor : svc_xprt_each_func_t Nat :=
  fun x n _ =>
    if x.xp_fd = 5 then ⟨SVC_XPRT_FOREACH_NONE, [.clear x 0], n + 1⟩
    else if x.xp_fd = 14 then ⟨SVC_XPRT_FOREACH_CLEAR, [.clear x 0], n + 1⟩
    else ⟨SVC_XPRT_FOREACH_NONE, [], n + 1⟩

/-- The recorded run of `lock_visitor` over descriptors 5, 9, 14. -/
def lock_run : foreach_result Nat × List lock_event :=
  (svc_xprt_foreach_locks 40 lock_visitor 0 reg_5_9_14).getD (⟨1, svc_xprt_fd, 0, []⟩, [])

theorem lock_run_eq :
    svc_xprt_foreach_locks 40 lock_visitor 0 reg_5_9_14 = some lock_run := rfl

/-- Witness of C19: a run that passes a restart after `SVC_XPRT_FOREACH_CLEAR`,
a restart after the remembered key was found missing, and normal completion. -/
theorem C19_no_lock_across_visitor_witness :
    svc_xprt_foreach_locks 40 lock_visitor 0 reg_5_9_14 = some lock_run ∧
    (svc_xprt_foreach 40 lock_visitor 0 reg_5_9_14 = some lock_run.1 ∧
    lock_run.2.filterMap visit_of = lock_run.1.calls.map each_call.xprt ∧
    lock_state none lock_run.2 = some none ∧
    (∀ pre x post, lock_run.2 = pre ++ .visit x :: post → lock_state none pre = some none) ∧
    (∃ pre, lock_run.2 = pre ++ [.ret lock_run.1.code] ∧ lock_state none pre = some none)) :=
  ⟨lock_run_eq,
    C19_no_lock_across_visitor lock_visitor 0 reg_5_9_14 40 lock_run.1 lock_run.2 lock_run_eq⟩

/-- The events of the example run, and of the run that is abandoned with
result 1. -/
theorem lock_run_events :
    lock_run.2 = [.rdlock 0, .unlock 0, .visit ⟨14, 3⟩, .rdlock 0, .unlock 0,
      .rdlock 1, .unlock 1, .rdlock 2, .unlock 2, .visit ⟨9, 2⟩, .rdlock 2, .unlock 2,
      .rdlock 3, .unlock 3, .rdlock 4, .unlock 4,
      .rdlock 5, .unlock 5, .visit ⟨5, 1⟩, .rdlock 5, .unlock 5,
      .rdlock 5, .unlock 5, .rdlock 6, .unlock 6, .ret 0] ∧
    (svc_xprt_foreach_locks 40 remover 0 reg_five).map Prod.snd =
      some [.rdlock 0, .unlock 0, .visit ⟨0, 0⟩, .rdlock 0, .unlock 0, .visit ⟨7, 1⟩,
        .rdlock 0, .unlock 0, .visit ⟨14, 2⟩, .rdlock 0, .unlock 0, .visit ⟨21, 3⟩,
        .rdlock 0, .unlock 0, .visit ⟨28, 4⟩, .ret 1] :=
  ⟨rfl, rfl⟩

/-! ## The handle's own lock in `svc_xprt_set` and `svc_xprt_clear` -/

/-- An operation on the handle's `xp_lock`. -/
inductive mutex_op where
  | lock
  | unlock
deriving DecidableEq, Repr

/-- The two flag bits tested by `svc_xprt_set` and `svc_xprt_clear`.  Their
values are defined in a header that is not among the sources, so they are kept
as parameters. -/
structure xprt_flag_masks where
  SVC_XPRT_FLAG_LOCKED : Nat
  SVC_XPRT_FLAG_UNLOCK : Nat
deriving DecidableEq, Repr

/-- `mutex_lock(&xprt->xp_lock)` by a thread that holds the lock or not:
locking a mutex one already holds has no defined outcome. -/
def mutex_lock (held : Bool) (ops : List mutex_op) : Option (Bool × List mutex_op) :=
  if held then none else some (true, ops ++ [.lock])

/-- `mutex_unlock(&xprt->xp_lock)`: defined only for the holder. -/
def mutex_unlock (held : Bool) (ops : List mutex_op) : Option (Bool × List mutex_op) :=
  if held then some (false, ops ++ [.unlock]) else none

/-- `svc_xprt_set` (lines 142-173) with the handle's lock: `held` says whether
the caller holds `xprt->xp_lock` at entry; the result carries the same for the
return, and the lock operations made. -/
def svc_xprt_set_xp_lock (m : xprt_flag_masks) (xprt : SVCXPRT) (flags : Nat) (held : Bool)
    (r : Registry) : Option (Option SVCXPRT × Registry × Bool × List mutex_op) :=
  let r := cond_init_svc_xprt r
  -- if (!(flags & SVC_XPRT_FLAG_LOCKED)) mutex_lock(&xprt->xp_lock);
  match (if flags &&& m.SVC_XPRT_FLAG_LOCKED = 0 then mutex_lock held []
         else some (held, [])) with
  | none => none
  | some (held, ops) =>
    match rbtx_partition_of_scalar r.xt xprt.xp_fd with
    | none => none
    | some (ix, t) =>
      -- if (flags & SVC_XPRT_FLAG_UNLOCK) mutex_unlock(&xprt->xp_lock);
      match (if flags &&& m.SVC_XPRT_FLAG_UNLOCK ≠ 0 then mutex_unlock held ops
             else some (held, ops)) with
      | none => none
      | some (held, ops) =>
        some ((opr_rbtree_insert t.t xprt).1,
              store_partition r ix ⟨(opr_rbtree_insert t.t xprt).2⟩, held, ops)

/-- `svc_xprt_clear` (lines 183-203) with the handle's lock. -/
def svc_xprt_clear_xp_lock (m : xprt_flag_masks) (xprt : SVCXPRT) (flags : Nat) (held : Bool)
    (r : Registry) : Option (Registry × Bool × List mutex_op) :=
  let r := cond_init_svc_xprt r
  -- if (!(flags & SVC_XPRT_FLAG_LOCKED)) mutex_lock(&xprt->xp_lock);
  match (if flags &&& m.SVC_XPRT_FLAG_LOCKED = 0 then mutex_lock held []
         else some (held, [])) with
  | none => none
  | some (held, ops) =>
    match (if opr_rbtree_node_valid r xprt then
        match rbtx_partition_of_scalar r.xt xprt.xp_fd with
        | none => none
        | some (ix, t) => some (store_partition r ix ⟨opr_rbtree_remove t.t xprt⟩)
      else some r) with
    | none => none
    | some r' =>
      -- if (flags & SVC_XPRT_FLAG_UNLOCK) mutex_unlock(&xprt->xp_lock);
      match (if flags &&& m.SVC_XPRT_FLAG_UNLOCK ≠ 0 then mutex_unlock held ops
             else some (held, ops)) with
      | none => none
      | some (held, ops) => some (r', held, ops)

/-- The lock operations the flags ask for. -/
def xp_lock_ops (m : xprt_flag_masks) (flags : Nat) : List mutex_op :=
  (if flags &&& m.SVC_XPRT_FLAG_LOCKED = 0 then [.lock] else []) ++
    (if flags &&& m.SVC_XPRT_FLAG_UNLOCK ≠ 0 then [.unlock] else [])

theorem xp_lock_path (m : xprt_flag_masks) (flags : Nat) (held : Bool)
    (hconv : held = true ↔ flags &&& m.SVC_XPRT_FLAG_LOCKED ≠ 0) :
    ∃ ops1, (if flags &&& m.SVC_XPRT_FLAG_LOCKED = 0 then mutex_lock held []
        else some (held, [])) = some (true, ops1) ∧
      (if flags &&& m.SVC_XPRT_FLAG_UNLOCK ≠ 0 then mutex_unlock true ops1
        else some (true, ops1)) =
        some (decide (flags &&& m.SVC_XPRT_FLAG_UNLOCK = 0), xp_lock_ops m flags) := by
  by_cases hL : flags &&& m.SVC_XPRT_FLAG_LOCKED = 0
  · have hh : held = false := by
      cases held with
      | false => rfl
      | true => exact absurd hL (hconv.mp rfl)
    subst hh
    refine ⟨[.lock], by simp [hL, mutex_lock], ?_⟩
    by_cases hU : flags &&& m.SVC_XPRT_FLAG_UNLOCK = 0
    · simp [hU, hL, xp_lock_ops]
    · simp [hU, hL, xp_lock_ops, mutex_unlock]
  · have hh : held = true := hconv.mpr hL
    subst hh
    refine ⟨[], by simp [hL], ?_⟩
    by_cases hU : flags &&& m.SVC_XPRT_FLAG_UNLOCK = 0
    · simp [hU, hL, xp_lock_ops]
    · simp [hU, hL, xp_lock_ops, mutex_unlock]

/-- C20 (handle-lock flag convention): when the caller holds `xp_lock` exactly
when it passes `SVC_XPRT_FLAG_LOCKED`, `svc_xprt_set` and `svc_xprt_clear` with
the handle's lock are defined (the lock is never taken twice, never released by
a non-holder), do to the registry what `svc_xprt_set` and `svc_xprt_clear` do,
lock `xp_lock` if and only if `SVC_XPRT_FLAG_LOCKED` is absent, unlock it if and
only if `SVC_XPRT_FLAG_UNLOCK` is present, and return the handle locked exactly
when `SVC_XPRT_FLAG_UNLOCK` is absent; this is so for every handle and
registry, collision or not, linked or not. -/
theorem C20_handle_lock_flags (m : xprt_flag_masks) (xprt : SVCXPRT) (flags : Nat)
    (held : Bool) (r : Registry) (hr : Reach r)
    (hconv : held = true ↔ flags &&& m.SVC_XPRT_FLAG_LOCKED ≠ 0) :
    (∃ res r', svc_xprt_set xprt flags r = some (res, r') ∧
      svc_xprt_set_xp_lock m xprt flags held r =
        some (res, r', decide (flags &&& m.SVC_XPRT_FLAG_UNLOCK = 0), xp_lock_ops m flags)) ∧
    (∃ r', svc_xprt_clear xprt flags r = some r' ∧
      svc_xprt_clear_xp_lock m xprt flags held r =
        some (r', decide (flags &&& m.SVC_XPRT_FLAG_UNLOCK = 0), xp_lock_ops m flags)) ∧
    (mutex_op.lock ∈ xp_lock_ops m flags ↔ flags &&& m.SVC_XPRT_FLAG_LOCKED = 0) ∧
    (mutex_op.unlock ∈ xp_lock_ops m flags ↔ flags &&& m.SVC_XPRT_FLAG_UNLOCK ≠ 0) ∧
    (xp_lock_ops m flags).count .lock ≤ 1 := by
  have hinv := reach_inv hr
  obtain ⟨ops1, e1, e2⟩ := xp_lock_path m flags held hconv
  have hps := part_of_scalar hinv xprt.xp_fd
  refine ⟨?_, ?_, ?_, ?_, ?_⟩
  · refine ⟨(opr_rbtree_insert (part_at (cond_init_svc_xprt r) (home xprt.xp_fd)).t xprt).1,
      store_partition (cond_init_svc_xprt r) (home xprt.xp_fd)
        ⟨(opr_rbtree_insert (part_at (cond_init_svc_xprt r) (home xprt.xp_fd)).t xprt).2⟩,
      ?_, ?_⟩
    · simp only [svc_xprt_set, hps]
    · simp only [svc_xprt_set_xp_lock, e1, hps, e2]
  · cases hv : opr_rbtree_node_valid (cond_init_svc_xprt r) xprt with
    | true =>
      refine ⟨store_partition (cond_init_svc_xprt r) (home xprt.xp_fd)
        ⟨opr_rbtree_remove (part_at (cond_init_svc_xprt r) (home xprt.xp_fd)).t xprt⟩, ?_, ?_⟩
      · simp only [svc_xprt_clear, hv, hps, if_true]
      · simp only [svc_xprt_clear_xp_lock, e1, hv, hps, if_true, e2]
    | false =>
      refine ⟨cond_init_svc_xprt r, ?_, ?_⟩
      · simp [svc_xprt_clear, hv]
      · simp [svc_xprt_clear_xp_lock, e1, hv, e2]
  · unfold xp_lock_ops
    by_cases hL : flags &&& m.SVC_XPRT_FLAG_LOCKED = 0 <;>
      by_cases hU : flags &&& m.SVC_XPRT_FLAG_UNLOCK = 0 <;> simp [hL, hU]
  · unfold xp_lock_ops
    by_cases hL : flags &&& m.SVC_XPRT_FLAG_LOCKED = 0 <;>
      by_cases hU : flags &&& m.SVC_XPRT_FLAG_UNLOCK = 0 <;> simp [hL, hU]
  · unfold xp_lock_ops
    by_cases hL : flags &&& m.SVC_XPRT_FLAG_LOCKED = 0 <;>
      by_cases hU : flags &&& m.SVC_XPRT_FLAG_UNLOCK = 0 <;> simp [hL, hU]

/-- Witness of C20: a colliding insert and the removal of an unlinked handle,
with `SVC_XPRT_FLAG_UNLOCK` alone (masks 1 and 2 for the example): the lock is
taken and released once. -/
theorem C20_handle_lock_flags_witness :
    Reach reg_5_9 ∧ (false = true ↔ 2 &&& (⟨1, 2⟩ : xprt_flag_masks).SVC_XPRT_FLAG_LOCKED ≠ 0) ∧
    ((∃ res r', svc_xprt_set ⟨5, 7⟩ 2 reg_5_9 = some (res, r') ∧
      svc_xprt_set_xp_lock ⟨1, 2⟩ ⟨5, 7⟩ 2 false reg_5_9 =
        some (res, r', decide (2 &&& (⟨1, 2⟩ : xprt_flag_masks).SVC_XPRT_FLAG_UNLOCK = 0),
          xp_lock_ops ⟨1, 2⟩ 2)) ∧
    (∃ r', svc_xprt_clear ⟨5, 7⟩ 2 reg_5_9 = some r' ∧
      svc_xprt_clear_xp_lock ⟨1, 2⟩ ⟨5, 7⟩ 2 false reg_5_9 =
        some (r', decide (2 &&& (⟨1, 2⟩ : xprt_flag_masks).SVC_XPRT_FLAG_UNLOCK = 0),
          xp_lock_ops ⟨1, 2⟩ 2)) ∧
    (mutex_op.lock ∈ xp_lock_ops ⟨1, 2⟩ 2 ↔
      2 &&& (⟨1, 2⟩ : xprt_flag_masks).SVC_XPRT_FLAG_LOCKED = 0) ∧
    (mutex_op.unlock ∈ xp_lock_ops ⟨1, 2⟩ 2 ↔
      2 &&& (⟨1, 2⟩ : xprt_flag_masks).SVC_XPRT_FLAG_UNLOCK ≠ 0) ∧
    (xp_lock_ops ⟨1, 2⟩ 2).count .lock ≤ 1) :=
  ⟨reach_5_9, by decide,
    C20_handle_lock_flags ⟨1, 2⟩ ⟨5, 7⟩ 2 false reg_5_9 reach_5_9 (by decide)⟩

/-- The four flag combinations on a colliding insert, and a caller that breaks
the convention. -/
theorem xp_lock_examples :
    svc_xprt_set_xp_lock ⟨1, 2⟩ ⟨5, 7⟩ 0 false reg_5_9 =
      some (some ⟨5, 1⟩, reg_5_9, true, [.lock]) ∧
    svc_xprt_set_xp_lock ⟨1, 2⟩ ⟨5, 7⟩ 1 true reg_5_9 =
      some (some ⟨5, 1⟩, reg_5_9, true, []) ∧
    svc_xprt_set_xp_lock ⟨1, 2⟩ ⟨5, 7⟩ 2 false reg_5_9 =
      some (some ⟨5, 1⟩, reg_5_9, false, [.lock, .unlock]) ∧
    svc_xprt_set_xp_lock ⟨1, 2⟩ ⟨5, 7⟩ 3 true reg_5_9 =
      some (some ⟨5, 1⟩, reg_5_9, false, [.unlock]) ∧
    svc_xprt_set_xp_lock ⟨1, 2⟩ ⟨5, 7⟩ 0 true reg_5_9 = none ∧
    (svc_xprt_clear_xp_lock ⟨1, 2⟩ ⟨5, 1⟩ 2 false reg_5_9).map (fun q => (q.2.1, q.2.2)) =
      some (false, [.lock, .unlock]) :=
  ⟨rfl, rfl, rfl, rfl, rfl, rfl⟩

/-! ## Stable partitioning -/

theorem inv_of_tree {s : Registry} (hs : Reachable s) {tr : List rbtree_x_part}
    (htr : s.xt.tree = some tr) : Inv s := by
  rcases reachable_cases hs with h | h
  · exact h
  · rw [h.2] at htr; cases htr

/-- C21 (stable partitioning): the partition index of a descriptor is
`home k`, a function of the descriptor alone with a value below
`SVC_XPRT_PARTITIONS`, also for negative descriptors.  In every reachable state
that has partition storage, `rbtx_idx_of_scalar` is that function, every handle
linked in partition `i` has a descriptor whose index is `i`, a linked handle is
found by `svc_xprt_get` and unlinked by `svc_xprt_clear` in that partition, and
a handle linked by `svc_xprt_set` is in the partition that
`rbtx_partition_of_scalar` selects for its descriptor afterwards. -/
theorem C21_stable_partitioning (s : Registry) (hs : Reachable s) :
    (∀ k : Int, home k < SVC_XPRT_PARTITIONS) ∧
    (∀ tr, s.xt.tree = some tr →
      (∀ k, rbtx_idx_of_scalar s.xt k = home k) ∧
      (∀ i p, tr[i]? = some p → ∀ x ∈ p.t.nodes, rbtx_idx_of_scalar s.xt x.xp_fd = i) ∧
      (∀ x, opr_rbtree_node_valid s x = true →
        (∃ t, rbtx_partition_of_scalar s.xt x.xp_fd = some (home x.xp_fd, t) ∧
          x ∈ t.t.nodes) ∧
        (svc_xprt_get x.xp_fd s).map Prod.fst = some (some x) ∧
        ∃ s', svc_xprt_clear x 0 s = some s' ∧ opr_rbtree_node_valid s' x = false ∧
          (svc_xprt_get x.xp_fd s').map Prod.fst = some none) ∧
      (∀ x f s', svc_xprt_set x f s = some (none, s') →
        (∃ t, rbtx_partition_of_scalar s'.xt x.xp_fd = some (home x.xp_fd, t) ∧
          x ∈ t.t.nodes) ∧
        (svc_xprt_get x.xp_fd s').map Prod.fst = some (some x))) := by
  refine ⟨home_lt, ?_⟩
  intro tr htr
  have hinv := inv_of_tree hs htr
  refine ⟨idx_eq hinv, ?_, ?_, ?_⟩
  · intro i p hp x hx
    obtain ⟨_, _, tr', htr', _, hok⟩ := hinv
    rw [htr] at htr'
    cases htr'
    rw [idx_eq (inv_of_tree hs htr)]
    exact (hok i p hp).2 x hx
  · intro x hx
    have hmem := (valid_iff hinv x).mp hx
    refine ⟨⟨part_at s (home x.xp_fd), part_of_scalar hinv x.xp_fd, hmem⟩, ?_, ?_⟩
    · rw [get_fst hinv, (lk_some_iff hinv x).mpr hmem]
    · obtain ⟨s', h1, h2, h3, _, h5⟩ := clear_total hinv x 0
      refine ⟨s', h1, h5, ?_⟩
      rw [get_fst h2, h3 x.xp_fd, if_pos ⟨rfl, (lk_some_iff hinv x).mpr hmem⟩]
  · intro x f s' hset
    obtain ⟨r', h1, h2, h3, _⟩ := set_total hinv x f
    rw [h1] at hset
    simp only [Option.some.injEq, Prod.mk.injEq] at hset
    obtain ⟨hl, rfl⟩ := hset
    have hfind : lk r' x.xp_fd = some x := by
      rw [h3 x.xp_fd, if_pos rfl, hl]; rfl
    have hmem := (lk_some_iff h2 x).mp hfind
    exact ⟨⟨part_at r' (home x.xp_fd), part_of_scalar h2 x.xp_fd, hmem⟩,
      by rw [get_fst h2, hfind]⟩

theorem reachable_5_9 : Reachable reg_5_9 :=
  reachable_run_ops Reachable.init [.set ⟨5, 1⟩ 0, .set ⟨9, 2⟩ 0] (by decide)

/-- Witness of C21: the registry holding descriptors 5 and 9. -/
theorem C21_stable_partitioning_witness :
    Reachable reg_5_9 ∧ home (-1) = 3 ∧ home (-2147483648) = 2 ∧
    ((∀ k : Int, home k < SVC_XPRT_PARTITIONS) ∧
    (∀ tr, reg_5_9.xt.tree = some tr →
      (∀ k, rbtx_idx_of_scalar reg_5_9.xt k = home k) ∧
      (∀ i p, tr[i]? = some p → ∀ x ∈ p.t.nodes,
        rbtx_idx_of_scalar reg_5_9.xt x.xp_fd = i) ∧
      (∀ x, opr_rbtree_node_valid reg_5_9 x = true →
        (∃ t, rbtx_partition_of_scalar reg_5_9.xt x.xp_fd = some (home x.xp_fd, t) ∧
          x ∈ t.t.nodes) ∧
        (svc_xprt_get x.xp_fd reg_5_9).map Prod.fst = some (some x) ∧
        ∃ s', svc_xprt_clear x 0 reg_5_9 = some s' ∧ opr_rbtree_node_valid s' x = false ∧
          (svc_xprt_get x.xp_fd s').map Prod.fst = some none) ∧
      (∀ x f s', svc_xprt_set x f reg_5_9 = some (none, s') →
        (∃ t, rbtx_partition_of_scalar s'.xt x.xp_fd = some (home x.xp_fd, t) ∧
          x ∈ t.t.nodes) ∧
        (svc_xprt_get x.xp_fd s').map Prod.fst = some (some x)))) :=
  ⟨reachable_5_9, by decide, by decide, C21_stable_partitioning reg_5_9 reachable_5_9⟩

/-! ## The generation counter -/

theorem gen_mono_step {σ : Type} (each_f : svc_xprt_each_func_t σ) (g0 : Nat → Nat)
    {c c' : foreach_state σ} (hc : Good c) (hg : ∀ j, g0 j ≤ gen_at c.reg j)
    (h : foreach_step each_f c = some (.inl c')) : ∀ j, g0 j ≤ gen_at c'.reg j := by
  obtain ⟨pc, s, a, tr⟩ := c
  obtain ⟨hs, hpc⟩ := hc
  simp only at hs hpc hg
  cases pc with
  | part p =>
    by_cases hp : p < SVC_XPRT_PARTITIONS
    · rw [step_part_lt each_f hp] at h; cases h; exact hg
    · rw [step_part_ge each_f hp] at h; cases h
  | restart p k =>
    by_cases hr : k < 5
    · rw [step_restart each_f hr hs hpc] at h; cases h; exact hg
    · rw [step_restart_over each_f (by omega)] at h; cases h
  | node p k tgen n =>
    cases n with
    | none => rw [step_node_none] at h; cases h; exact hg
    | some x =>
      obtain ⟨s', h1, h2, h3, _⟩ := ops_frame hs (each_f x a s).ops
      rw [step_node_some each_f p k tgen x a tr h1 h2 hpc.1] at h
      cases h
      intro j
      exact le_trans (hg j) (h3 j)

theorem foreach_gen_mono {σ : Type} (each_f : svc_xprt_each_func_t σ) (fuel : Nat) (a : σ)
    {s : Registry} (hs : Inv s) {r : foreach_result σ}
    (h : svc_xprt_foreach fuel each_f a s = some r) : ∀ j, gen_at s j ≤ gen_at r.reg j := by
  unfold svc_xprt_foreach at h
  rw [cond_init_of_inv hs] at h
  obtain ⟨c, ⟨hg, hm⟩, hlast⟩ := run_invariant each_f
    (fun c => Good c ∧ ∀ j, gen_at s j ≤ gen_at c.reg j)
    (fun c c' hc hst => ⟨good_step each_f hc.1 hst, gen_mono_step each_f _ hc.1 hc.2 hst⟩)
    fuel _ r ⟨good_start a hs, fun _ => le_refl _⟩ h
  rw [(step_ret each_f hg hlast).1]
  exact hm

theorem dump_reg (fuel : Nat) (tag : String) (s : Registry) {out : List dump_line}
    {s' : Registry} (h : svc_xprt_dump_xprts fuel tag s = some (out, s')) : s' = s := by
  unfold svc_xprt_dump_xprts at h
  split at h
  · simp only [Option.some.injEq, Prod.mk.injEq] at h
    exact h.2.symm
  · exact dump_parts_reg fuel tag _ _ _ _ _ _ h

/-- C22 (the generation counter tracks structural mutation): in every reachable
state with partition storage, `svc_xprt_set` and `svc_xprt_clear` never lower a
generation counter; a successful insert and the removal of a linked handle raise
the counter of the handle's partition by one; a colliding insert and the removal
of an unlinked handle change no counter, and no operation changes the counter of
another partition; `svc_xprt_get` and `svc_xprt_dump_xprts` leave the registry as
it is; `svc_xprt_foreach` never lowers a counter; over any sequence of registry
operations an unchanged counter means an unchanged partition; and when the
re-check of `svc_xprt_foreach` finds the counter equal to the snapshot, the
handles linked in the partition are those of the snapshot and the scan advances
from the visited handle. -/
theorem C22_generation_counter (s : Registry) (hs : Reachable s) (tr : List rbtree_x_part)
    (htr : s.xt.tree = some tr) :
    (∀ x f, ∃ res s', svc_xprt_set x f s = some (res, s') ∧
      (∀ j, gen_at s j ≤ gen_at s' j) ∧
      (res = none → gen_at s' (home x.xp_fd) = gen_at s (home x.xp_fd) + 1) ∧
      (res ≠ none → ∀ j, gen_at s' j = gen_at s j) ∧
      (∀ j, j ≠ home x.xp_fd → gen_at s' j = gen_at s j)) ∧
    (∀ x f, ∃ s', svc_xprt_clear x f s = some s' ∧
      (∀ j, gen_at s j ≤ gen_at s' j) ∧
      (opr_rbtree_node_valid s x = true →
        gen_at s' (home x.xp_fd) = gen_at s (home x.xp_fd) + 1) ∧
      (opr_rbtree_node_valid s x = false → ∀ j, gen_at s' j = gen_at s j) ∧
      (∀ j, j ≠ home x.xp_fd → gen_at s' j = gen_at s j)) ∧
    (∀ k, (svc_xprt_get k s).map Prod.snd = some s) ∧
    (∀ fuel tag out s', svc_xprt_dump_xprts fuel tag s = some (out, s') → s' = s) ∧
    (∀ (σ : Type) (each_f : svc_xprt_each_func_t σ) (a : σ) (fuel : Nat)
      (r : foreach_result σ), svc_xprt_foreach fuel each_f a s = some r →
      ∀ j, gen_at s j ≤ gen_at r.reg j) ∧
    (∀ ops s', run_ops ops s = some s' →
      (∀ j, gen_at s j ≤ gen_at s' j) ∧
      ∀ j, gen_at s' j = gen_at s j → nodes_at s' j = nodes_at s j) ∧
    (∀ (σ : Type) (each_f : svc_xprt_each_func_t σ) (a : σ) (calls : List each_call)
      (p k : Nat) (x : SVCXPRT), p < SVC_XPRT_PARTITIONS → x ∈ nodes_at s p →
      ∃ c', foreach_step each_f ⟨.node p k (gen_at s p) (some x), s, a, calls⟩ =
          some (.inl c') ∧
        ((each_f x a s).rflag ≠ SVC_XPRT_FOREACH_CLEAR → gen_at c'.reg p = gen_at s p →
          nodes_at c'.reg p = nodes_at s p ∧
          c'.pc = .node p k (gen_at s p) (opr_rbtree_next (part_at s p).t x))) := by
  have hinv := inv_of_tree hs htr
  refine ⟨?_, ?_, ?_, ?_, ?_, ?_, ?_⟩
  · intro x f
    cases hl : lk s x.xp_fd with
    | some g =>
      refine ⟨some g, s, set_collide hinv f hl, fun _ => le_refl _, ?_, fun _ _ => rfl,
        fun _ _ => rfl⟩
      intro h; cases h
    | none =>
      obtain ⟨s', h1, _, _, _, h5, h6⟩ := set_fresh hinv f hl
      have hother : ∀ j, j ≠ home x.xp_fd → gen_at s' j = gen_at s j := by
        intro j hj; unfold gen_at; rw [h6 j hj]
      refine ⟨none, s', h1, ?_, fun _ => h5, fun h => absurd rfl h, hother⟩
      intro j
      by_cases hj : j = home x.xp_fd
      · subst hj; omega
      · rw [hother j hj]
  · intro x f
    by_cases hx : x ∈ nodes_at s (home x.xp_fd)
    · obtain ⟨s', h1, _, _, h4, h5⟩ := clear_linked hinv f hx
      have hother : ∀ j, j ≠ home x.xp_fd → gen_at s' j = gen_at s j := by
        intro j hj; unfold gen_at; rw [h5 j hj]
      refine ⟨s', h1, ?_, fun _ => h4, ?_, hother⟩
      · intro j
        by_cases hj : j = home x.xp_fd
        · subst hj; omega
        · rw [hother j hj]
      · intro hv
        rw [(valid_iff hinv x).mpr hx] at hv
        cases hv
    · refine ⟨s, clear_unlinked hinv f hx, fun _ => le_refl _, ?_, fun _ _ => rfl,
        fun _ _ => rfl⟩
      intro hv
      exact absurd ((valid_iff hinv x).mp hv) hx
  · intro k
    rw [get_spec hinv]; rfl
  · intro fuel tag out s' h
    exact dump_reg fuel tag s h
  · intro σ each_f a fuel r h
    exact foreach_gen_mono each_f fuel a hinv h
  · intro ops s' h
    obtain ⟨r', h1, _, h3, h4, _⟩ := ops_frame hinv ops
    rw [h1] at h
    cases h
    refine ⟨h3, ?_⟩
    intro j hj
    unfold nodes_at
    rw [h4 j hj]
  · intro σ each_f a calls p k x hp hx
    obtain ⟨s', h1, h2, _, h4, _⟩ := ops_frame hinv (each_f x a s).ops
    refine ⟨_, step_node_some each_f p k (gen_at s p) x a calls h1 h2 hp, ?_⟩
    intro hflag hgen
    have hpart : part_at s' p = part_at s p := h4 p hgen
    have hnodes : nodes_at s' p = nodes_at s p := by unfold nodes_at; rw [hpart]
    refine ⟨hnodes, ?_⟩
    show node_pc p k (gen_at s p) x (each_f x a s).rflag s' = _
    unfold node_pc
    rw [if_neg hflag, if_neg (by rw [hgen]; exact fun h => h rfl), hnodes]
    rfl

/-- Witness of C22: the registry holding descriptors 5 and 9. -/
theorem C22_generation_counter_witness :
    Reachable reg_5_9 ∧ reg_5_9.xt.tree = some
      [⟨⟨[], 0⟩⟩, ⟨⟨[], 0⟩⟩, ⟨⟨[⟨9, 2⟩], 1⟩⟩, ⟨⟨[], 0⟩⟩, ⟨⟨[], 0⟩⟩, ⟨⟨[⟨5, 1⟩], 1⟩⟩, ⟨⟨[], 0⟩⟩] ∧
    (∀ x f, ∃ res s', svc_xprt_set x f reg_5_9 = some (res, s') ∧
      (∀ j, gen_at reg_5_9 j ≤ gen_at s' j) ∧
      (res = none → gen_at s' (home x.xp_fd) = gen_at reg_5_9 (home x.xp_fd) + 1) ∧
      (res ≠ none → ∀ j, gen_at s' j = gen_at reg_5_9 j) ∧
      (∀ j, j ≠ home x.xp_fd → gen_at s' j = gen_at reg_5_9 j)) :=
  ⟨reachable_5_9, rfl,
    (C22_generation_counter reg_5_9 reachable_5_9 _ rfl).1⟩

/-- The counters of the example: a fresh insert, a colliding insert, the removal
of a linked and of an unlinked handle. -/
theorem gen_examples :
    (svc_xprt_set ⟨12, 3⟩ 0 reg_5_9).map (fun q => (q.1, gen_at q.2 5, gen_at q.2 2)) =
      some (none, 2, 1) ∧
    (svc_xprt_set ⟨5, 7⟩ 0 reg_5_9).map (fun q => (q.1, gen_at q.2 5, gen_at q.2 2)) =
      some (some ⟨5, 1⟩, 1, 1) ∧
    (svc_xprt_clear ⟨9, 2⟩ 0 reg_5_9).map (fun q => (gen_at q 5, gen_at q 2)) = some (1, 2) ∧
    (svc_xprt_clear ⟨9, 8⟩ 0 reg_5_9).map (fun q => (gen_at q 5, gen_at q 2)) = some (1, 1) :=
  ⟨rfl, rfl, rfl, rfl⟩

/-! ## Initialization when the allocation fails -/

/-- `svc_xprt_init` (lines 87-109) for an arbitrary outcome `init` of the call
`rbtx_init(&svc_xprt_fd.xt, ..., SVC_XPRT_PARTITIONS, RBT_X_FLAG_ALLOC)`: its
return code and the partition table it leaves (rbtree_x.c is not among the
sources).  The second component says whether the warning of line 102 is
logged.  `initialized = true` is line 105, after the `if (code)`. -/
def svc_xprt_init_with (init : Int × rbtree_x) (r : Registry) : Registry × Bool :=
  if r.initialized then (r, false)
  else (⟨true, init.2⟩, decide (init.1 ≠ 0))

theorem init_with_ok (r : Registry) :
    svc_xprt_init_with (rbtx_init SVC_XPRT_PARTITIONS) r = (svc_xprt_init r, false) := by
  unfold svc_xprt_init_with svc_xprt_init
  split <;> rfl

/-- C30, the code at the failing input: when `rbtx_init` reports a failure and
leaves no partition array, `svc_xprt_init` logs the warning and sets
`initialized` all the same; the registry is then marked initialized without
partition storage, the lazy initialization does nothing more, and
`svc_xprt_get`, `svc_xprt_set`, `svc_xprt_foreach`, `svc_xprt_dump_xprts` and
`svc_xprt_shutdown` index the missing array.  When `rbtx_init` succeeds the
registry has its `SVC_XPRT_PARTITIONS` partitions. -/
theorem C30_init_ignores_failure :
    (∀ (code : Int) (npart : Nat), code ≠ 0 →
      ∃ r, svc_xprt_init_with (code, ⟨npart, none⟩) svc_xprt_fd = (r, true) ∧
        r.initialized = true ∧ r.xt.tree = none ∧
        cond_init_svc_xprt r = r ∧
        svc_xprt_init_with (rbtx_init SVC_XPRT_PARTITIONS) r = (r, false) ∧
        svc_xprt_get 5 r = none ∧ svc_xprt_set ⟨5, 1⟩ 0 r = none ∧
        svc_xprt_foreach 100 counting_visitor 0 r = none ∧
        svc_xprt_dump_xprts 100 "t" r = none ∧ svc_xprt_shutdown 100 r = none) ∧
    (svc_xprt_init_with (rbtx_init SVC_XPRT_PARTITIONS) svc_xprt_fd).1 =
      svc_xprt_init svc_xprt_fd ∧
    Inv (svc_xprt_init svc_xprt_fd) ∧
    (svc_xprt_get 5 (svc_xprt_init svc_xprt_fd)).map Prod.fst = some none := by
  refine ⟨?_, rfl, inv_init, rfl⟩
  intro code npart hcode
  refine ⟨⟨true, ⟨npart, none⟩⟩, ?_, rfl, rfl, rfl, rfl, rfl, rfl, rfl, rfl, rfl⟩
  simp [svc_xprt_init_with, svc_xprt_fd, hcode]

/-! # FSAL status codes and error numbers -/

/-- The `fsal_errors_t` codes that the sources name (the enum is declared in
fsal_types.h, which is not among the sources). -/
inductive fsal_errors_t where
  | ERR_FSAL_NO_ERROR
  | ERR_FSAL_PERM
  | ERR_FSAL_NOENT
  | ERR_FSAL_IO
  | ERR_FSAL_NXIO
  | ERR_FSAL_NOT_OPENED
  | ERR_FSAL_NOMEM
  | ERR_FSAL_ACCESS
  | ERR_FSAL_FAULT
  | ERR_FSAL_EXIST
  | ERR_FSAL_XDEV
  | ERR_FSAL_NOTDIR
  | ERR_FSAL_ISDIR
  | ERR_FSAL_INVAL
  | ERR_FSAL_FBIG
  | ERR_FSAL_NOSPC
  | ERR_FSAL_MLINK
  | ERR_FSAL_DQUOT
  | ERR_FSAL_NAMETOOLONG
  | ERR_FSAL_NOTEMPTY
  | ERR_FSAL_STALE
  | ERR_FSAL_DELAY
  | ERR_FSAL_SERVERFAULT
deriving DecidableEq, Repr

open fsal_errors_t

/-- `fsal_status_t`: the FSAL error `major` and the `int` `minor`. -/
structure fsal_status_t where
  major : fsal_errors_t
  minor : Int
deriving DecidableEq, Repr

/-- `fsalstat(major, minor)`. -/
def fsalstat (major : fsal_errors_t) (minor : Int) : fsal_status_t := ⟨major, minor⟩

/-- The `<errno.h>` values that label the cases of `rgw2fsal_error`.  They come
from the system headers, so they are a parameter. -/
structure errno_tab where
  EPERM : Int
  ENOENT : Int
  ECONNREFUSED : Int
  ECONNABORTED : Int
  ECONNRESET : Int
  EIO : Int
  ENFILE : Int
  EMFILE : Int
  EPIPE : Int
  ENODEV : Int
  ENXIO : Int
  EBADF : Int
  ENOMEM : Int
  EACCES : Int
  EFAULT : Int
  EEXIST : Int
  EXDEV : Int
  ENOTDIR : Int
  EISDIR : Int
  EINVAL : Int
  EFBIG : Int
  ENOSPC : Int
  EMLINK : Int
  EDQUOT : Int
  ENAMETOOLONG : Int
  ENOTEMPTY : Int
  ESTALE : Int
  EAGAIN : Int
  EBUSY : Int

/-- The case labels of the `switch` of `rgw2fsal_error`, without `case 0`. -/
def errno_tab.labels (E : errno_tab) : List Int :=
  [E.EPERM, E.ENOENT, E.ECONNREFUSED, E.ECONNABORTED, E.ECONNRESET, E.EIO, E.ENFILE,
   E.EMFILE, E.EPIPE, E.ENODEV, E.ENXIO, E.EBADF, E.ENOMEM, E.EACCES, E.EFAULT, E.EEXIST,
   E.EXDEV, E.ENOTDIR, E.EISDIR, E.EINVAL, E.EFBIG, E.ENOSPC, E.EMLINK, E.EDQUOT,
   E.ENAMETOOLONG, E.ENOTEMPTY, E.ESTALE, E.EAGAIN, E.EBUSY]

/-- What C and POSIX require of the labels: positive `int` values, no two case
labels equal. -/
def errno_tab.ok (E : errno_tab) : Prop :=
  E.labels.Nodup ∧ ∀ v ∈ E.labels, 0 < v ∧ v ≤ INT_MAX

instance (E : errno_tab) : Decidable E.ok := by
  unfold errno_tab.ok; infer_instance

/-- The values of the labels on Linux. -/
def linux_errno : errno_tab :=
  { EPERM := 1, ENOENT := 2, ECONNREFUSED := 111, ECONNABORTED := 103, ECONNRESET := 104,
    EIO := 5, ENFILE := 23, EMFILE := 24, EPIPE := 32, ENODEV := 19, ENXIO := 6, EBADF := 9,
    ENOMEM := 12, EACCES := 13, EFAULT := 14, EEXIST := 17, EXDEV := 18, ENOTDIR := 20,
    EISDIR := 21, EINVAL := 22, EFBIG := 27, ENOSPC := 28, EMLINK := 31, EDQUOT := 122,
    ENAMETOOLONG := 36, ENOTEMPTY := 39, ESTALE := 116, EAGAIN := 11, EBUSY := 16 }

/-- A value brought into the range of a 32-bit two's-complement `int`. -/
def to_int32 (v : Int) : Int := (v + 2147483648) % 4294967296 - 2147483648

/-! # The RGW back end: `FSAL/FSAL_RGW/internal.c` and `FSAL/FSAL_RGW/handle.c` -/

namespace FSAL_RGW

/-- The `switch (-rgw_errorcode)` of `rgw2fsal_error` (lines 62-170) on the
value `v` of its controlling expression. -/
def rgw2fsal_major (E : errno_tab) (v : Int) : fsal_errors_t :=
  if v = 0 then ERR_FSAL_NO_ERROR
  else if v = E.EPERM then ERR_FSAL_PERM
  else if v = E.ENOENT then ERR_FSAL_NOENT
  else if v = E.ECONNREFUSED ∨ v = E.ECONNABORTED ∨ v = E.ECONNRESET ∨ v = E.EIO ∨
      v = E.ENFILE ∨ v = E.EMFILE ∨ v = E.EPIPE then ERR_FSAL_IO
  else if v = E.ENODEV ∨ v = E.ENXIO then ERR_FSAL_NXIO
  else if v = E.EBADF then ERR_FSAL_NOT_OPENED
  else if v = E.ENOMEM then ERR_FSAL_NOMEM
  else if v = E.EACCES then ERR_FSAL_ACCESS
  else if v = E.EFAULT then ERR_FSAL_FAULT
  else if v = E.EEXIST then ERR_FSAL_EXIST
  else if v = E.EXDEV then ERR_FSAL_XDEV
  else if v = E.ENOTDIR then ERR_FSAL_NOTDIR
  else if v = E.EISDIR then ERR_FSAL_ISDIR
  else if v = E.EINVAL then ERR_FSAL_INVAL
  else if v = E.EFBIG then ERR_FSAL_FBIG
  else if v = E.ENOSPC then ERR_FSAL_NOSPC
  else if v = E.EMLINK then ERR_FSAL_MLINK
  else if v = E.EDQUOT then ERR_FSAL_DQUOT
  else if v = E.ENAMETOOLONG then ERR_FSAL_NAMETOOLONG
  else if v = E.ENOTEMPTY then ERR_FSAL_NOTEMPTY
  else if v = E.ESTALE then ERR_FSAL_STALE
  else if v = E.EAGAIN ∨ v = E.EBUSY then ERR_FSAL_DELAY
  else ERR_FSAL_SERVERFAULT

/-- `rgw2fsal_error` (internal.c, lines 57-173): `status.minor = -rgw_errorcode`
and the major selected by the `switch`; the negation is the one of a 32-bit
`int`. -/
def rgw2fsal_error (E : errno_tab) (rgw_errorcode : Int) : fsal_status_t :=
  ⟨rgw2fsal_major E (to_int32 (-rgw_errorcode)), to_int32 (-rgw_errorcode)⟩

theorem linux_errno_ok : linux_errno.ok := by decide

theorem to_int32_id {v : Int} (h : int_range v) : to_int32 v = v := by
  unfold int_range INT_MIN INT_MAX at h
  unfold to_int32
  omega

theorem to_int32_neg {e : Int} (h : int_range e) (hne : e ≠ INT_MIN) : to_int32 (-e) = -e := by
  unfold int_range INT_MIN INT_MAX at h
  unfold INT_MIN at hne
  unfold to_int32
  omega

theorem to_int32_neg_zero {e : Int} (h : int_range e) : to_int32 (-e) = 0 ↔ e = 0 := by
  unfold int_range INT_MIN INT_MAX at h
  unfold to_int32
  omega

/-- C23 (`rgw2fsal_error` carries the POSIX error as minor): for every `int`
input `e` the minor of the returned status is `-e` computed in 32-bit
two's-complement arithmetic, which is `-e` itself unless `e` is `INT_MIN`, and
the positive errno for a negative RGW code; `rgw2fsal_error(0)` is
`(ERR_FSAL_NO_ERROR, 0)`. -/
theorem C23_rgw_minor (E : errno_tab) (e : Int) (he : int_range e) :
    (rgw2fsal_error E e).minor = to_int32 (-e) ∧
    (e ≠ INT_MIN → (rgw2fsal_error E e).minor = -e) ∧
    (e < 0 → e ≠ INT_MIN → 0 < (rgw2fsal_error E e).minor) ∧
    (e = INT_MIN → (rgw2fsal_error E e).minor = INT_MIN) ∧
    rgw2fsal_error E 0 = fsalstat ERR_FSAL_NO_ERROR 0 := by
  refine ⟨rfl, ?_, ?_, ?_, ?_⟩
  · intro hne
    exact to_int32_neg he hne
  · intro hneg hne
    show 0 < to_int32 (-e)
    rw [to_int32_neg he hne]
    omega
  · intro h
    subst h
    show to_int32 (-INT_MIN) = INT_MIN
    unfold to_int32 INT_MIN
    decide
  · show (⟨rgw2fsal_major E (to_int32 (-0)), to_int32 (-0)⟩ : fsal_status_t) = _
    have : to_int32 (-0) = 0 := by decide
    rw [this]
    simp [rgw2fsal_major, fsalstat]

/-- Witness of C23: the RGW code `-2` (`-ENOENT` on Linux). -/
theorem C23_rgw_minor_witness :
    int_range (-2) ∧ rgw2fsal_error linux_errno (-2) = fsalstat ERR_FSAL_NOENT 2 ∧
    ((rgw2fsal_error linux_errno (-2)).minor = to_int32 (- -2) ∧
    ((-2 : Int) ≠ INT_MIN → (rgw2fsal_error linux_errno (-2)).minor = - -2) ∧
    ((-2 : Int) < 0 → (-2 : Int) ≠ INT_MIN → 0 < (rgw2fsal_error linux_errno (-2)).minor) ∧
    ((-2 : Int) = INT_MIN → (rgw2fsal_error linux_errno (-2)).minor = INT_MIN) ∧
    rgw2fsal_error linux_errno 0 = fsalstat ERR_FSAL_NO_ERROR 0) :=
  ⟨by decide, by decide, C23_rgw_minor linux_errno (-2) (by decide)⟩

theorem major_default (E : errno_tab) {v : Int} (h0 : v ≠ 0) (hv : v ∉ E.labels) :
    rgw2fsal_major E v = ERR_FSAL_SERVERFAULT := by
  simp only [errno_tab.labels, List.mem_cons, List.mem_singleton, List.not_mem_nil, or_false,
    not_or] at hv
  obtain ⟨h1, h2, h3, h4, h5, h6, h7, h8, h9, h10, h11, h12, h13, h14, h15, h16, h17, h18,
    h19, h20, h21, h22, h23, h24, h25, h26, h27, h28, h29⟩ := hv
  simp only [rgw2fsal_major, h0, h1, h2, h3, h4, h5, h6, h7, h8, h9, h10, h11, h12, h13, h14,
    h15, h16, h17, h18, h19, h20, h21, h22, h23, h24, h25, h26, h27, h28, h29, if_false,
    or_self]

theorem ite_no_error {c : Prop} [Decidable c] {a m : fsal_errors_t}
    (ha : a ≠ ERR_FSAL_NO_ERROR) (h : (if c then a else m) = ERR_FSAL_NO_ERROR) :
    m = ERR_FSAL_NO_ERROR := by
  by_cases hc : c
  · rw [if_pos hc] at h; exact absurd h ha
  · rw [if_neg hc] at h; exact h

theorem major_no_error (E : errno_tab) (v : Int) :
    rgw2fsal_major E v = ERR_FSAL_NO_ERROR ↔ v = 0 := by
  constructor
  · intro h
    by_contra h0
    unfold rgw2fsal_major at h
    rw [if_neg h0] at h
    iterate 21 replace h := ite_no_error (by decide) h
    cases h
  · intro h
    unfold rgw2fsal_major
    rw [if_pos h]

theorem label_pos (E : errno_tab) (hE : E.ok) {v : Int} (hv : v ∈ E.labels) :
    to_int32 (- -v) = v ∧ v ≠ 0 := by
  have h := hE.2 v hv
  unfold INT_MAX at h
  unfold to_int32
  omega

theorem labels_len (E : errno_tab) : E.labels.length = 29 := rfl

theorem labels_ne (E : errno_tab) (hE : E.ok) (i j : Fin 29) (hij : i ≠ j) :
    E.labels.get (i.cast (labels_len E).symm) ≠ E.labels.get (j.cast (labels_len E).symm) := by
  intro h
  have h2 := (List.Nodup.get_inj_iff hE.1).mp h
  apply hij
  have h3 := congrArg Fin.val h2
  exact Fin.ext h3

theorem major_ECONNREFUSED (E : errno_tab) (hE : E.ok) :
    rgw2fsal_major E E.ECONNREFUSED = ERR_FSAL_IO := by
  have h0 : E.ECONNREFUSED ≠ 0 := (label_pos E hE (by simp [errno_tab.labels])).2
  have n0 : E.ECONNREFUSED ≠ E.EPERM :=
    labels_ne E hE 2 0 (by decide)
  have n1 : E.ECONNREFUSED ≠ E.ENOENT :=
    labels_ne E hE 2 1 (by decide)
  simp only [rgw2fsal_major, h0, n0, n1, if_false, false_or, or_false, true_or, or_true,
    if_true]

theorem major_ECONNABORTED (E : errno_tab) (hE : E.ok) :
    rgw2fsal_major E E.ECONNABORTED = ERR_FSAL_IO := by
  have h0 : E.ECONNABORTED ≠ 0 := (label_pos E hE (by simp [errno_tab.labels])).2
  have n0 : E.ECONNABORTED ≠ E.EPERM :=
    labels_ne E hE 3 0 (by decide)
  have n1 : E.ECONNABORTED ≠ E.ENOENT :=
    labels_ne E hE 3 1 (by decide)
  have n2 : E.ECONNABORTED ≠ E.ECONNREFUSED :=
    labels_ne E hE 3 2 (by decide)
  simp only [rgw2fsal_major, h0, n0, n1, n2, if_false, false_or, or_false, true_or, or_true,
    if_true]

theorem major_ECONNRESET (E : errno_tab) (hE : E.ok) :
    rgw2fsal_major E E.ECONNRESET = ERR_FSAL_IO := by
  have h0 : E.ECONNRESET ≠ 0 := (label_pos E hE (by simp [errno_tab.labels])).2
  have n0 : E.ECONNRESET ≠ E.EPERM :=
    labels_ne E hE 4 0 (by decide)
  have n1 : E.ECONNRESET ≠ E.ENOENT :=
    labels_ne E hE 4 1 (by decide)
  have n2 : E.ECONNRESET ≠ E.ECONNREFUSED :=
    labels_ne E hE 4 2 (by decide)
  have n3 : E.ECONNRESET ≠ E.ECONNABORTED :=
    labels_ne E hE 4 3 (by decide)
  simp only [rgw2fsal_major, h0, n0, n1, n2, n3, if_false, false_or, or_false, true_or, or_true,
    if_true]

theorem major_EIO (E : errno_tab) (hE : E.ok) :
    rgw2fsal_major E E.EIO = ERR_FSAL_IO := by
  have h0 : E.EIO ≠ 0 := (label_pos E hE (by simp [errno_tab.labels])).2
  have n0 : E.EIO ≠ E.EPERM :=
    labels_ne E hE 5 0 (by decide)
  have n1 : E.EIO ≠ E.ENOENT :=
    labels_ne E hE 5 1 (by decide)
  have n2 : E.EIO ≠ E.ECONNREFUSED :=
    labels_ne E hE 5 2 (by decide)
  have n3 : E.EIO ≠ E.ECONNABORTED :=
    labels_ne E hE 5 3 (by decide)
  have n4 : E.EIO ≠ E.ECONNRESET :=
    labels_ne E hE 5 4 (by decide)
  simp only [rgw2fsal_major, h0, n0, n1, n2, n3, n4, if_false, false_or, or_false, true_or,
    or_true, if_true]

theorem major_ENFILE (E : errno_tab) (hE : E.ok) :
    rgw2fsal_major E E.ENFILE = ERR_FSAL_IO := by
  have h0 : E.ENFILE ≠ 0 := (label_pos E hE (by simp [errno_tab.labels])).2
  have n0 : E.ENFILE ≠ E.EPERM :=
    labels_ne E hE 6 0 (by decide)
  have n1 : E.ENFILE ≠ E.ENOENT :=
    labels_ne E hE 6 1 (by decide)
  have n2 : E.ENFILE ≠ E.ECONNREFUSED :=
    labels_ne E hE 6 2 (by decide)
  have n3 : E.ENFILE ≠ E.ECONNABORTED :=
    labels_ne E hE 6 3 (by decide)
  have n4 : E.ENFILE ≠ E.ECONNRESET :=
    labels_ne E hE 6 4 (by decide)
  have n5 : E.ENFILE ≠ E.EIO :=
    labels_ne E hE 6 5 (by decide)
  simp only [rgw2fsal_major, h0, n0, n1, n2, n3, n4, n5, if_false, false_or, or_false, true_or,
    or_true, if_true]

theorem major_EMFILE (E : errno_tab) (hE : E.ok) :
    rgw2fsal_major E E.EMFILE = ERR_FSAL_IO := by
  have h0 : E.EMFILE ≠ 0 := (label_pos E hE (by simp [errno_tab.labels])).2
  have n0 : E.EMFILE ≠ E.EPERM :=
    labels_ne E hE 7 0 (by decide)
  have n1 : E.EMFILE ≠ E.ENOENT :=
    labels_ne E hE 7 1 (by decide)
  have n2 : E.EMFILE ≠ E.ECONNREFUSED :=
    labels_ne E hE 7 2 (by decide)
  have n3 : E.EMFILE ≠ E.ECONNABORTED :=
    labels_ne E hE 7 3 (by decide)
  have n4 : E.EMFILE ≠ E.ECONNRESET :=
    labels_ne E hE 7 4 (by decide)
  have n5 : E.EMFILE ≠ E.EIO :=
    labels_ne E hE 7 5 (by decide)
  have n6 : E.EMFILE ≠ E.ENFILE :=
    labels_ne E hE 7 6 (by decide)
  simp only [rgw2fsal_major, h0, n0, n1, n2, n3, n4, n5, n6, if_false, false_or, or_false,
    true_or, or_true, if_true]

theorem major_EPIPE (E : errno_tab) (hE : E.ok) :
    rgw2fsal_major E E.EPIPE = ERR_FSAL_IO := by
  have h0 : E.EPIPE ≠ 0 := (label_pos E hE (by simp [errno_tab.labels])).2
  have n0 : E.EPIPE ≠ E.EPERM :=
    labels_ne E hE 8 0 (by decide)
  have n1 : E.EPIPE ≠ E.ENOENT :=
    labels_ne E hE 8 1 (by decide)
  have n2 : E.EPIPE ≠ E.ECONNREFUSED :=
    labels_ne E hE 8 2 (by decide)
  have n3 : E.EPIPE ≠ E.ECONNABORTED :=
    labels_ne E hE 8 3 (by decide)
  have n4 : E.EPIPE ≠ E.ECONNRESET :=
    labels_ne E hE 8 4 (by decide)
  have n5 : E.EPIPE ≠ E.EIO :=
    labels_ne E hE 8 5 (by decide)
  have n6 : E.EPIPE ≠ E.ENFILE :=
    labels_ne E hE 8 6 (by decide)
  have n7 : E.EPIPE ≠ E.EMFILE :=
    labels_ne E hE 8 7 (by decide)
  simp only [rgw2fsal_major, h0, n0, n1, n2, n3, n4, n5, n6, n7, if_false, false_or, or_false,
    true_or, or_true, if_true]

theorem major_ENODEV (E : errno_tab) (hE : E.ok) :
    rgw2fsal_major E E.ENODEV = ERR_FSAL_NXIO := by
  have h0 : E.ENODEV ≠ 0 := (label_pos E hE (by simp [errno_tab.labels])).2
  have n0 : E.ENODEV ≠ E.EPERM :=
    labels_ne E hE 9 0 (by decide)
  have n1 : E.ENODEV ≠ E.ENOENT :=
    labels_ne E hE 9 1 (by decide)
  have n2 : E.ENODEV ≠ E.ECONNREFUSED :=
    labels_ne E hE 9 2 (by decide)
  have n3 : E.ENODEV ≠ E.ECONNABORTED :=
    labels_ne E hE 9 3 (by decide)
  have n4 : E.ENODEV ≠ E.ECONNRESET :=
    labels_ne E hE 9 4 (by decide)
  have n5 : E.ENODEV ≠ E.EIO :=
    labels_ne E hE 9 5 (by decide)
  have n6 : E.ENODEV ≠ E.ENFILE :=
    labels_ne E hE 9 6 (by decide)
  have n7 : E.ENODEV ≠ E.EMFILE :=
    labels_ne E hE 9 7 (by decide)
  have n8 : E.ENODEV ≠ E.EPIPE :=
    labels_ne E hE 9 8 (by decide)
  simp only [rgw2fsal_major, h0, n0, n1, n2, n3, n4, n5, n6, n7, n8, if_false, false_or,
    or_false, true_or, or_true, if_true]

theorem major_ENXIO (E : errno_tab) (hE : E.ok) :
    rgw2fsal_major E E.ENXIO = ERR_FSAL_NXIO := by
  have h0 : E.ENXIO ≠ 0 := (label_pos E hE (by simp [errno_tab.labels])).2
  have n0 : E.ENXIO ≠ E.EPERM :=
    labels_ne E hE 10 0 (by decide)
  have n1 : E.ENXIO ≠ E.ENOENT :=
    labels_ne E hE 10 1 (by decide)
  have n2 : E.ENXIO ≠ E.ECONNREFUSED :=
    labels_ne E hE 10 2 (by decide)
  have n3 : E.ENXIO ≠ E.ECONNABORTED :=
    labels_ne E hE 10 3 (by decide)
  have n4 : E.ENXIO ≠ E.ECONNRESET :=
    labels_ne E hE 10 4 (by decide)
  have n5 : E.ENXIO ≠ E.EIO :=
    labels_ne E hE 10 5 (by decide)
  have n6 : E.ENXIO ≠ E.ENFILE :=
    labels_ne E hE 10 6 (by decide)
  have n7 : E.ENXIO ≠ E.EMFILE :=
    labels_ne E hE 10 7 (by decide)
  have n8 : E.ENXIO ≠ E.EPIPE :=
    labels_ne E hE 10 8 (by decide)
  have n9 : E.ENXIO ≠ E.ENODEV :=
    labels_ne E hE 10 9 (by decide)
  simp only [rgw2fsal_major, h0, n0, n1, n2, n3, n4, n5, n6, n7, n8, n9, if_false, false_or,
    or_false, true_or, or_true, if_true]

theorem major_EAGAIN (E : errno_tab) (hE : E.ok) :
    rgw2fsal_major E E.EAGAIN = ERR_FSAL_DELAY := by
  have h0 : E.EAGAIN ≠ 0 := (label_pos E hE (by simp [errno_tab.labels])).2
  have n0 : E.EAGAIN ≠ E.EPERM :=
    labels_ne E hE 27 0 (by decide)
  have n1 : E.EAGAIN ≠ E.ENOENT :=
    labels_ne E hE 27 1 (by decide)
  have n2 : E.EAGAIN ≠ E.ECONNREFUSED :=
    labels_ne E hE 27 2 (by decide)
  have n3 : E.EAGAIN ≠ E.ECONNABORTED :=
    labels_ne E hE 27 3 (by decide)
  have n4 : E.EAGAIN ≠ E.ECONNRESET :=
    labels_ne E hE 27 4 (by decide)
  have n5 : E.EAGAIN ≠ E.EIO :=
    labels_ne E hE 27 5 (by decide)
  have n6 : E.EAGAIN ≠ E.ENFILE :=
    labels_ne E hE 27 6 (by decide)
  have n7 : E.EAGAIN ≠ E.EMFILE :=
    labels_ne E hE 27 7 (by decide)
  have n8 : E.EAGAIN ≠ E.EPIPE :=
    labels_ne E hE 27 8 (by decide)
  have n9 : E.EAGAIN ≠ E.ENODEV :=
    labels_ne E hE 27 9 (by decide)
  have n10 : E.EAGAIN ≠ E.ENXIO :=
    labels_ne E hE 27 10 (by decide)
  have n11 : E.EAGAIN ≠ E.EBADF :=
    labels_ne E hE 27 11 (by decide)
  have n12 : E.EAGAIN ≠ E.ENOMEM :=
    labels_ne E hE 27 12 (by decide)
  have n13 : E.EAGAIN ≠ E.EACCES :=
    labels_ne E hE 27 13 (by decide)
  have n14 : E.EAGAIN ≠ E.EFAULT :=
    labels_ne E hE 27 14 (by decide)
  have n15 : E.EAGAIN ≠ E.EEXIST :=
    labels_ne E hE 27 15 (by decide)
  have n16 : E.EAGAIN ≠ E.EXDEV :=
    labels_ne E hE 27 16 (by decide)
  have n17 : E.EAGAIN ≠ E.ENOTDIR :=
    labels_ne E hE 27 17 (by decide)
  have n18 : E.EAGAIN ≠ E.EISDIR :=
    labels_ne E hE 27 18 (by decide)
  have n19 : E.EAGAIN ≠ E.EINVAL :=
    labels_ne E hE 27 19 (by decide)
  have n20 : E.EAGAIN ≠ E.EFBIG :=
    labels_ne E hE 27 20 (by decide)
  have n21 : E.EAGAIN ≠ E.ENOSPC :=
    labels_ne E hE 27 21 (by decide)
  have n22 : E.EAGAIN ≠ E.EMLINK :=
    labels_ne E hE 27 22 (by decide)
  have n23 : E.EAGAIN ≠ E.EDQUOT :=
    labels_ne E hE 27 23 (by decide)
  have n24 : E.EAGAIN ≠ E.ENAMETOOLONG :=
    labels_ne E hE 27 24 (by decide)
  have n25 : E.EAGAIN ≠ E.ENOTEMPTY :=
    labels_ne E hE 27 25 (by decide)
  have n26 : E.EAGAIN ≠ E.ESTALE :=
    labels_ne E hE 27 26 (by decide)
  simp only [rgw2fsal_major, h0, n0, n1, n2, n3, n4, n5, n6, n7, n8, n9, n10, n11, n12, n13,
    n14, n15, n16, n17, n18, n19, n20, n21, n22, n23, n24, n25, n26, if_false, false_or,
    or_false, true_or, or_true, if_true]

theorem major_EBUSY (E : errno_tab) (hE : E.ok) :
    rgw2fsal_major E E.EBUSY = ERR_FSAL_DELAY := by
  have h0 : E.EBUSY ≠ 0 := (label_pos E hE (by simp [errno_tab.labels])).2
  have n0 : E.EBUSY ≠ E.EPERM :=
    labels_ne E hE 28 0 (by decide)
  have n1 : E.EBUSY ≠ E.ENOENT :=
    labels_ne E hE 28 1 (by decide)
  have n2 : E.EBUSY ≠ E.ECONNREFUSED :=
    labels_ne E hE 28 2 (by decide)
  have n3 : E.EBUSY ≠ E.ECONNABORTED :=
    labels_ne E hE 28 3 (by decide)
  have n4 : E.EBUSY ≠ E.ECONNRESET :=
    labels_ne E hE 28 4 (by decide)
  have n5 : E.EBUSY ≠ E.EIO :=
    labels_ne E hE 28 5 (by decide)
  have n6 : E.EBUSY ≠ E.ENFILE :=
    labels_ne E hE 28 6 (by decide)
  have n7 : E.EBUSY ≠ E.EMFILE :=
    labels_ne E hE 28 7 (by decide)
  have n8 : E.EBUSY ≠ E.EPIPE :=
    labels_ne E hE 28 8 (by decide)
  have n9 : E.EBUSY ≠ E.ENODEV :=
    labels_ne E hE 28 9 (by decide)
  have n10 : E.EBUSY ≠ E.ENXIO :=
    labels_ne E hE 28 10 (by decide)
  have n11 : E.EBUSY ≠ E.EBADF :=
    labels_ne E hE 28 11 (by decide)
  have n12 : E.EBUSY ≠ E.ENOMEM :=
    labels_ne E hE 28 12 (by decide)
  have n13 : E.EBUSY ≠ E.EACCES :=
    labels_ne E hE 28 13 (by decide)
  have n14 : E.EBUSY ≠ E.EFAULT :=
    labels_ne E hE 28 14 (by decide)
  have n15 : E.EBUSY ≠ E.EEXIST :=
    labels_ne E hE 28 15 (by decide)
  have n16 : E.EBUSY ≠ E.EXDEV :=
    labels_ne E hE 28 16 (by decide)
  have n17 : E.EBUSY ≠ E.ENOTDIR :=
    labels_ne E hE 28 17 (by decide)
  have n18 : E.EBUSY ≠ E.EISDIR :=
    labels_ne E hE 28 18 (by decide)
  have n19 : E.EBUSY ≠ E.EINVAL :=
    labels_ne E hE 28 19 (by decide)
  have n20 : E.EBUSY ≠ E.EFBIG :=
    labels_ne E hE 28 20 (by decide)
  have n21 : E.EBUSY ≠ E.ENOSPC :=
    labels_ne E hE 28 21 (by decide)
  have n22 : E.EBUSY ≠ E.EMLINK :=
    labels_ne E hE 28 22 (by decide)
  have n23 : E.EBUSY ≠ E.EDQUOT :=
    labels_ne E hE 28 23 (by decide)
  have n24 : E.EBUSY ≠ E.ENAMETOOLONG :=
    labels_ne E hE 28 24 (by decide)
  have n25 : E.EBUSY ≠ E.ENOTEMPTY :=
    labels_ne E hE 28 25 (by decide)
  have n26 : E.EBUSY ≠ E.ESTALE :=
    labels_ne E hE 28 26 (by decide)
  have n27 : E.EBUSY ≠ E.EAGAIN :=
    labels_ne E hE 28 27 (by decide)
  simp only [rgw2fsal_major, h0, n0, n1, n2, n3, n4, n5, n6, n7, n8, n9, n10, n11, n12, n13,
    n14, n15, n16, n17, n18, n19, n20, n21, n22, n23, n24, n25, n26, n27, if_false, false_or,
    or_false, true_or, or_true, if_true]

theorem neg_not_label (E : errno_tab) (hE : E.ok) {v : Int} (hv : v < 0) : v ∉ E.labels := by
  intro h
  have := (hE.2 v h).1
  omega

/-- C26 (the major mapping of `rgw2fsal_error` is total and defaults to a server
fault): for every `int` input `e` the major is `ERR_FSAL_NO_ERROR` exactly when
`e = 0`; it is `ERR_FSAL_SERVERFAULT` whenever `e` is not zero and `-e` is not a
case label, in particular for every positive `e`; and the grouped labels map
together. -/
theorem C26_rgw_major (E : errno_tab) (hE : E.ok) (e : Int) (he : int_range e) :
    ((rgw2fsal_error E e).major = ERR_FSAL_NO_ERROR ↔ e = 0) ∧
    (e ≠ 0 → -e ∉ E.labels → (rgw2fsal_error E e).major = ERR_FSAL_SERVERFAULT) ∧
    (0 < e → (rgw2fsal_error E e).major = ERR_FSAL_SERVERFAULT) ∧
    (rgw2fsal_error E (-E.ECONNREFUSED)).major = ERR_FSAL_IO ∧
    (rgw2fsal_error E (-E.ECONNABORTED)).major = ERR_FSAL_IO ∧
    (rgw2fsal_error E (-E.ECONNRESET)).major = ERR_FSAL_IO ∧
    (rgw2fsal_error E (-E.EIO)).major = ERR_FSAL_IO ∧
    (rgw2fsal_error E (-E.ENFILE)).major = ERR_FSAL_IO ∧
    (rgw2fsal_error E (-E.EMFILE)).major = ERR_FSAL_IO ∧
    (rgw2fsal_error E (-E.EPIPE)).major = ERR_FSAL_IO ∧
    (rgw2fsal_error E (-E.ENODEV)).major = ERR_FSAL_NXIO ∧
    (rgw2fsal_error E (-E.ENXIO)).major = ERR_FSAL_NXIO ∧
    (rgw2fsal_error E (-E.EAGAIN)).major = ERR_FSAL_DELAY ∧
    (rgw2fsal_error E (-E.EBUSY)).major = ERR_FSAL_DELAY := by
  have hdef : e ≠ 0 → -e ∉ E.labels →
      (rgw2fsal_error E e).major = ERR_FSAL_SERVERFAULT := by
    intro h0 hl
    show rgw2fsal_major E (to_int32 (-e)) = _
    by_cases hmin : e = INT_MIN
    · subst hmin
      have hv : to_int32 (-INT_MIN) = INT_MIN := by decide
      rw [hv]
      exact major_default E (by decide) (neg_not_label E hE (by decide))
    · rw [to_int32_neg he hmin]
      exact major_default E (by omega) hl
  refine ⟨?_, hdef, ?_, ?_, ?_, ?_, ?_, ?_, ?_, ?_, ?_, ?_, ?_, ?_⟩
  · show rgw2fsal_major E (to_int32 (-e)) = _ ↔ _
    rw [major_no_error, to_int32_neg_zero he]
  · intro hpos
    exact hdef (by omega) (neg_not_label E hE (by omega))
  · show rgw2fsal_major E (to_int32 (- -E.ECONNREFUSED)) = _
    rw [(label_pos E hE (by simp [errno_tab.labels])).1]
    exact major_ECONNREFUSED E hE
  · show rgw2fsal_major E (to_int32 (- -E.ECONNABORTED)) = _
    rw [(label_pos E hE (by simp [errno_tab.labels])).1]
    exact major_ECONNABORTED E hE
  · show rgw2fsal_major E (to_int32 (- -E.ECONNRESET)) = _
    rw [(label_pos E hE (by simp [errno_tab.labels])).1]
    exact major_ECONNRESET E hE
  · show rgw2fsal_major E (to_int32 (- -E.EIO)) = _
    rw [(label_pos E hE (by simp [errno_tab.labels])).1]
    exact major_EIO E hE
  · show rgw2fsal_major E (to_int32 (- -E.ENFILE)) = _
    rw [(label_pos E hE (by simp [errno_tab.labels])).1]
    exact major_ENFILE E hE
  · show rgw2fsal_major E (to_int32 (- -E.EMFILE)) = _
    rw [(label_pos E hE (by simp [errno_tab.labels])).1]
    exact major_EMFILE E hE
  · show rgw2fsal_major E (to_int32 (- -E.EPIPE)) = _
    rw [(label_pos E hE (by simp [errno_tab.labels])).1]
    exact major_EPIPE E hE
  · show rgw2fsal_major E (to_int32 (- -E.ENODEV)) = _
    rw [(label_pos E hE (by simp [errno_tab.labels])).1]
    exact major_ENODEV E hE
  · show rgw2fsal_major E (to_int32 (- -E.ENXIO)) = _
    rw [(label_pos E hE (by simp [errno_tab.labels])).1]
    exact major_ENXIO E hE
  · show rgw2fsal_major E (to_int32 (- -E.EAGAIN)) = _
    rw [(label_pos E hE (by simp [errno_tab.labels])).1]
    exact major_EAGAIN E hE
  · show rgw2fsal_major E (to_int32 (- -E.EBUSY)) = _
    rw [(label_pos E hE (by simp [errno_tab.labels])).1]
    exact major_EBUSY E hE

/-- Witness of C26: the Linux values and the RGW code `-5` (`-EIO`). -/
theorem C26_rgw_major_witness :
    linux_errno.ok ∧ int_range (-5) ∧
    (rgw2fsal_error linux_errno (-5)).major = ERR_FSAL_IO ∧
    (rgw2fsal_error linux_errno 5).major = ERR_FSAL_SERVERFAULT ∧
    (rgw2fsal_error linux_errno (-4)).major = ERR_FSAL_SERVERFAULT ∧
    (((rgw2fsal_error linux_errno (-5)).major = ERR_FSAL_NO_ERROR ↔ (-5 : Int) = 0) ∧
    ((-5 : Int) ≠ 0 → - -5 ∉ linux_errno.labels →
      (rgw2fsal_error linux_errno (-5)).major = ERR_FSAL_SERVERFAULT) ∧
    ((0 : Int) < -5 → (rgw2fsal_error linux_errno (-5)).major = ERR_FSAL_SERVERFAULT) ∧
    (rgw2fsal_error linux_errno (-linux_errno.ECONNREFUSED)).major = ERR_FSAL_IO ∧
    (rgw2fsal_error linux_errno (-linux_errno.ECONNABORTED)).major = ERR_FSAL_IO ∧
    (rgw2fsal_error linux_errno (-linux_errno.ECONNRESET)).major = ERR_FSAL_IO ∧
    (rgw2fsal_error linux_errno (-linux_errno.EIO)).major = ERR_FSAL_IO ∧
    (rgw2fsal_error linux_errno (-linux_errno.ENFILE)).major = ERR_FSAL_IO ∧
    (rgw2fsal_error linux_errno (-linux_errno.EMFILE)).major = ERR_FSAL_IO ∧
    (rgw2fsal_error linux_errno (-linux_errno.EPIPE)).major = ERR_FSAL_IO ∧
    (rgw2fsal_error linux_errno (-linux_errno.ENODEV)).major = ERR_FSAL_NXIO ∧
    (rgw2fsal_error linux_errno (-linux_errno.ENXIO)).major = ERR_FSAL_NXIO ∧
    (rgw2fsal_error linux_errno (-linux_errno.EAGAIN)).major = ERR_FSAL_DELAY ∧
    (rgw2fsal_error linux_errno (-linux_errno.EBUSY)).major = ERR_FSAL_DELAY) :=
  ⟨linux_errno_ok, by decide, by decide, by decide, by decide,
    C26_rgw_major linux_errno linux_errno_ok (-5) (by decide)⟩

/-! ## `FSAL/FSAL_RGW/handle.c`: read, open state, attributes -/

/-- The fields of `struct rgw_handle` that `fsal_open`, `status`, `fsal_read`
and `fsal_close` use: `openflags` and `attributes.filesize`. -/
structure rgw_handle where
  openflags : Nat
  filesize : Nat
deriving DecidableEq, Repr

/-- `fsal_read` (lines 570-592).  `rc` is what `rgw_read` returned and
`end_of_file` what the caller's variable holds at the call; the result is the
status and what the variable holds at return.  `offset + buffer_size` is a
64-bit unsigned sum. -/
def fsal_read (E : errno_tab) (rc : Int) (handle : rgw_handle) (offset buffer_size : Nat)
    (end_of_file : Bool) : fsal_status_t × Bool :=
  if rc < 0 then (rgw2fsal_error E rc, end_of_file)
  else if (offset + buffer_size) % 18446744073709551616 ≥ handle.filesize then
    (fsalstat ERR_FSAL_NO_ERROR 0, true)
  else (fsalstat ERR_FSAL_NO_ERROR 0, end_of_file)

/-- C24, the code at the failing input: a successful read of one byte at offset
0 of a file of size 10, by a caller whose variable holds `true`, returns with
`*end_of_file` still `true` although `0 + 1 < 10`: the function only ever
assigns `true`.  In general a successful read leaves the variable as it was
unless the end is reached, and a failed read does not write it. -/
theorem C24_read_eof_never_cleared :
    fsal_read linux_errno 0 ⟨0, 10⟩ 0 1 true = (fsalstat ERR_FSAL_NO_ERROR 0, true) ∧
    ¬ (0 + 1 ≥ 10) ∧
    fsal_read linux_errno 0 ⟨0, 10⟩ 0 1 false = (fsalstat ERR_FSAL_NO_ERROR 0, false) ∧
    fsal_read linux_errno 0 ⟨0, 10⟩ 4 6 false = (fsalstat ERR_FSAL_NO_ERROR 0, true) ∧
    (∀ (E : errno_tab) (rc : Int) (h : rgw_handle) (o n : Nat) (b : Bool), 0 ≤ rc →
      ¬ (o + n) % 18446744073709551616 ≥ h.filesize →
      fsal_read E rc h o n b = (fsalstat ERR_FSAL_NO_ERROR 0, b)) ∧
    (∀ (E : errno_tab) (rc : Int) (h : rgw_handle) (o n : Nat) (b : Bool), 0 ≤ rc →
      (o + n) % 18446744073709551616 ≥ h.filesize →
      fsal_read E rc h o n b = (fsalstat ERR_FSAL_NO_ERROR 0, true)) ∧
    (∀ (E : errno_tab) (rc : Int) (h : rgw_handle) (o n : Nat) (b : Bool), rc < 0 →
      fsal_read E rc h o n b = (rgw2fsal_error E rc, b)) := by
  refine ⟨by decide, by decide, by decide, by decide, ?_, ?_, ?_⟩
  · intro E rc h o n b hrc hlt
    unfold fsal_read
    rw [if_neg (by omega), if_neg hlt]
  · intro E rc h o n b hrc hge
    unfold fsal_read
    rw [if_neg (by omega), if_pos hge]
  · intro E rc h o n b hrc
    unfold fsal_read
    rw [if_pos hrc]

/-- The open-mode constants of fsal_types.h and the `open(2)` flags of
`<fcntl.h>` that `fsal_open` and `fsal_close` name; neither header is among
the sources, so they are parameters. -/
structure open_consts where
  FSAL_O_CLOSED : Nat
  FSAL_O_READ : Nat
  FSAL_O_WRITE : Nat
  FSAL_O_RDWR : Nat
  O_RDONLY : Int
  O_WRONLY : Int
  O_RDWR : Int
deriving DecidableEq, Repr

/-- The result of `fsal_open`: the status, the handle afterwards, and the
`posix_flags` of the call of `rgw_open` when it was made. -/
structure open_result where
  status : fsal_status_t
  handle : rgw_handle
  rgw_open_called : Option Int
deriving DecidableEq, Repr

/-- `fsal_open` (lines 495-530).  `rgw_open` gives the return code of the
library call for the flags it is passed. -/
def fsal_open (E : errno_tab) (K : open_consts) (rgw_open : Int → Int) (handle : rgw_handle)
    (openflags : Nat) : open_result :=
  let posix_flags : Int :=
    if openflags &&& K.FSAL_O_RDWR ≠ 0 then K.O_RDWR
    else if openflags &&& K.FSAL_O_READ ≠ 0 then K.O_RDONLY
    else if openflags &&& K.FSAL_O_WRITE ≠ 0 then K.O_WRONLY
    else 0
  if handle.openflags ≠ K.FSAL_O_CLOSED then ⟨fsalstat ERR_FSAL_SERVERFAULT 0, handle, none⟩
  else if rgw_open posix_flags < 0 then
    ⟨rgw2fsal_error E (rgw_open posix_flags), handle, some posix_flags⟩
  else ⟨fsalstat ERR_FSAL_NO_ERROR 0, { handle with openflags := openflags }, some posix_flags⟩

/-- `status` (lines 543-550). -/
def status (handle : rgw_handle) : Nat := handle.openflags

/-- `fsal_close` (lines 679-697).  `rc` is what `rgw_close` returned. -/
def fsal_close (E : errno_tab) (K : open_consts) (rc : Int) (handle : rgw_handle) :
    fsal_status_t × rgw_handle :=
  if rc < 0 then (rgw2fsal_error E rc, handle)
  else (fsalstat ERR_FSAL_NO_ERROR 0, { handle with openflags := K.FSAL_O_CLOSED })

/-- A call made on a handle: `fsal_open` with the requested flags, or
`fsal_close`; `rc` is what the library call returns if it is reached. -/
inductive handle_call where
  | call_open (openflags : Nat) (rc : Int)
  | call_close (rc : Int)
deriving DecidableEq, Repr

/-- The return code of the library call of a `handle_call`. -/
def handle_call.rc : handle_call → Int
  | .call_open _ rc => rc
  | .call_close rc => rc

/-- The status and the handle after one call. -/
def handle_call.run (E : errno_tab) (K : open_consts) (h : rgw_handle) :
    handle_call → fsal_status_t × rgw_handle
  | .call_open openflags rc => ((fsal_open E K (fun _ => rc) h openflags).status,
      (fsal_open E K (fun _ => rc) h openflags).handle)
  | .call_close rc => fsal_close E K rc h

/-- The handle after a sequence of calls. -/
def run_calls_on (E : errno_tab) (K : open_consts) : rgw_handle → List handle_call → rgw_handle
  | h, [] => h
  | h, c :: cs => run_calls_on E K (c.run E K h).2 cs

/-- What an observer of the returned statuses knows: the mode of the last
`fsal_open` that returned `ERR_FSAL_NO_ERROR`, unless an `fsal_close` returned
`ERR_FSAL_NO_ERROR` after it. -/
def last_open (E : errno_tab) (K : open_consts) :
    rgw_handle → Option Nat → List handle_call → Option Nat
  | _, seen, [] => seen
  | h, seen, c :: cs =>
    last_open E K (c.run E K h).2
      (if (c.run E K h).1.major = ERR_FSAL_NO_ERROR then
        (match c with
         | .call_open openflags _ => some openflags
         | .call_close _ => none)
       else seen) cs

theorem error_of_neg (E : errno_tab) {rc : Int} (hr : int_range rc) (hneg : rc < 0) :
    (rgw2fsal_error E rc).major ≠ ERR_FSAL_NO_ERROR := by
  show rgw2fsal_major E (to_int32 (-rc)) ≠ _
  rw [Ne, major_no_error, to_int32_neg_zero hr]
  omega

theorem last_open_spec (E : errno_tab) (K : open_consts) :
    ∀ (cs : List handle_call) (h : rgw_handle) (seen : Option Nat),
      (∀ c ∈ cs, int_range c.rc) →
      h.openflags = seen.getD K.FSAL_O_CLOSED →
      status (run_calls_on E K h cs) = (last_open E K h seen cs).getD K.FSAL_O_CLOSED := by
  intro cs
  induction cs with
  | nil => intro h seen _ hh; exact hh
  | cons c cs ih =>
    intro h seen hrc hh
    unfold run_calls_on last_open
    apply ih
    · intro c' hc'
      exact hrc c' (List.mem_cons_of_mem _ hc')
    · cases c with
      | call_open o rc =>
        have hr : int_range rc := hrc _ (List.mem_cons_self _ _)
        simp only [handle_call.run, fsal_open]
        by_cases hcl : h.openflags ≠ K.FSAL_O_CLOSED
        · simp only [if_pos hcl, fsalstat]
          rw [if_neg (by decide)]
          exact hh
        · simp only [if_neg hcl]
          by_cases hneg : rc < 0
          · simp only [if_pos hneg]
            rw [if_neg (error_of_neg E hr hneg)]
            exact hh
          · simp only [if_neg hneg, fsalstat, if_true]
            rfl
      | call_close rc =>
        have hr : int_range rc := hrc _ (List.mem_cons_self _ _)
        simp only [handle_call.run, fsal_close]
        by_cases hneg : rc < 0
        · simp only [if_pos hneg]
          rw [if_neg (error_of_neg E hr hneg)]
          exact hh
        · simp only [if_neg hneg, fsalstat, if_true]
          rfl

/-- The `posix_flags` that `fsal_open` computes from the requested mode. -/
def posix_flags_of (K : open_consts) (openflags : Nat) : Int :=
  if openflags &&& K.FSAL_O_RDWR ≠ 0 then K.O_RDWR
  else if openflags &&& K.FSAL_O_READ ≠ 0 then K.O_RDONLY
  else if openflags &&& K.FSAL_O_WRITE ≠ 0 then K.O_WRONLY
  else 0

/-- C28 (RGW handle open state): after any sequence of `fsal_open` and
`fsal_close` calls on a handle that was closed, `status` returns the mode of
the last successful `fsal_open`, or `FSAL_O_CLOSED` when none was successful
since the last successful `fsal_close`; `fsal_open` on a handle that is not
closed returns `ERR_FSAL_SERVERFAULT` without calling `rgw_open` and leaves the
handle as it is; on a closed handle it calls `rgw_open`, sets `openflags` to the
requested mode when that succeeds and leaves the handle as it is when it fails;
`fsal_close` sets `FSAL_O_CLOSED` when `rgw_close` succeeds and leaves the handle
as it is when it fails. -/
theorem C28_open_state (E : errno_tab) (K : open_consts) (h : rgw_handle)
    (cs : List handle_call) (hcl : h.openflags = K.FSAL_O_CLOSED)
    (hrc : ∀ c ∈ cs, int_range c.rc) :
    status (run_calls_on E K h cs) = (last_open E K h none cs).getD K.FSAL_O_CLOSED ∧
    (∀ (g : rgw_handle) (rgw_open : Int → Int) (openflags : Nat),
      g.openflags ≠ K.FSAL_O_CLOSED →
      fsal_open E K rgw_open g openflags = ⟨fsalstat ERR_FSAL_SERVERFAULT 0, g, none⟩) ∧
    (∀ (g : rgw_handle) (rgw_open : Int → Int) (openflags : Nat),
      g.openflags = K.FSAL_O_CLOSED → 0 ≤ rgw_open (posix_flags_of K openflags) →
      fsal_open E K rgw_open g openflags =
        ⟨fsalstat ERR_FSAL_NO_ERROR 0, ⟨openflags, g.filesize⟩,
          some (posix_flags_of K openflags)⟩) ∧
    (∀ (g : rgw_handle) (rgw_open : Int → Int) (openflags : Nat),
      g.openflags = K.FSAL_O_CLOSED → rgw_open (posix_flags_of K openflags) < 0 →
      fsal_open E K rgw_open g openflags =
        ⟨rgw2fsal_error E (rgw_open (posix_flags_of K openflags)), g,
          some (posix_flags_of K openflags)⟩) ∧
    (∀ (g : rgw_handle) (rc : Int), 0 ≤ rc →
      fsal_close E K rc g = (fsalstat ERR_FSAL_NO_ERROR 0, ⟨K.FSAL_O_CLOSED, g.filesize⟩)) ∧
    (∀ (g : rgw_handle) (rc : Int), rc < 0 →
      fsal_close E K rc g = (rgw2fsal_error E rc, g)) := by
  refine ⟨last_open_spec E K cs h none hrc hcl, ?_, ?_, ?_, ?_, ?_⟩
  · intro g rgw_open openflags hg
    simp only [fsal_open, if_pos hg]
  · intro g rgw_open openflags hg hok
    have hok2 : ¬ rgw_open (posix_flags_of K openflags) < 0 := by omega
    unfold posix_flags_of at hok2
    simp only [fsal_open, hg, ne_eq, not_true_eq_false, if_false, hok2]
    rfl
  · intro g rgw_open openflags hg hbad
    unfold posix_flags_of at hbad ⊢
    simp only [fsal_open, hg, ne_eq, not_true_eq_false, if_false, hbad, if_true]
  · intro g rc hrc
    unfold fsal_close
    rw [if_neg (by omega)]
  · intro g rc hrc
    unfold fsal_close
    rw [if_pos hrc]

/-- Example values of the open constants. -/
def example_open_consts : open_consts := ⟨0, 1, 2, 3, 0, 1, 2⟩

/-- Witness of C28: open for reading, a refused second open, a failed and a
successful close, a failed open. -/
theorem C28_open_state_witness :
    (⟨0, 10⟩ : rgw_handle).openflags = example_open_consts.FSAL_O_CLOSED ∧
    (∀ c ∈ [handle_call.call_open 1 0, .call_open 2 0, .call_close (-5)], int_range c.rc) ∧
    status (run_calls_on linux_errno example_open_consts ⟨0, 10⟩
      [.call_open 1 0, .call_open 2 0, .call_close (-5)]) = 1 ∧
    status (run_calls_on linux_errno example_open_consts ⟨0, 10⟩
      [.call_open 1 0, .call_open 2 0, .call_close (-5)]) =
      (last_open linux_errno example_open_consts ⟨0, 10⟩ none
        [.call_open 1 0, .call_open 2 0, .call_close (-5)]).getD
        example_open_consts.FSAL_O_CLOSED :=
  ⟨rfl, by decide, by decide,
    (C28_open_state linux_errno example_open_consts ⟨0, 10⟩
      [.call_open 1 0, .call_open 2 0, .call_close (-5)] rfl (by decide)).1⟩

/-! ## `setattrs` -/

/-- The fields of `struct attrlist` that `setattrs` reads (times are kept as
numbers). -/
structure attrlist where
  mask : Nat
  mode : Nat
  owner : Nat
  group : Nat
  filesize : Nat
  atime : Nat
  mtime : Nat
  ctime : Nat
deriving DecidableEq, Repr

/-- The fields of `struct stat` that `setattrs` fills in. -/
structure stat where
  st_mode : Nat
  st_uid : Nat
  st_gid : Nat
  st_atim : Nat
  st_mtim : Nat
  st_ctim : Nat
deriving DecidableEq, Repr

/-- The attribute bits of fsal_types.h, `rgw_settable_attributes` and the
`RGW_SETATTR_*` bits of the RGW library header; none of them is defined in the
sources, so they are parameters. -/
structure attr_consts where
  ATTR_MODE : Nat
  ATTR_SIZE : Nat
  ATTR_OWNER : Nat
  ATTR_GROUP : Nat
  ATTR_ATIME : Nat
  ATTR_ATIME_SERVER : Nat
  ATTR_MTIME : Nat
  ATTR_MTIME_SERVER : Nat
  ATTR_CTIME : Nat
  rgw_settable_attributes : Nat
  RGW_SETATTR_MODE : Nat
  RGW_SETATTR_UID : Nat
  RGW_SETATTR_GID : Nat
  RGW_SETATTR_ATIME : Nat
  RGW_SETATTR_MTIME : Nat
  RGW_SETATTR_CTIME : Nat

/-- What the calls made by `setattrs` return: `fs_umask`, `rgw_truncate`, the
two `clock_gettime` calls (return code and time) and `rgw_setattr`; and the
conversion `fsal2unix_mode`. -/
structure setattrs_env where
  fs_umask : Nat
  rgw_truncate : Int
  clock_atime : Int × Nat
  clock_mtime : Int × Nat
  rgw_setattr : Int
  fsal2unix_mode : Nat → Nat

/-- `FSAL_TEST_MASK(mask, bit)`. -/
def FSAL_TEST_MASK (mask bit : Nat) : Bool := mask &&& bit ≠ 0

/-- The result of `setattrs`: the status, and the `struct stat` and mask handed
to `rgw_setattr` when the call was made. -/
structure setattrs_result where
  status : fsal_status_t
  rgw_setattr_args : Option (stat × Nat)
deriving DecidableEq, Repr

/-- Lines 351-398 of `setattrs`: the mask and `struct stat` built from the
attributes, or the status returned when `clock_gettime` fails. -/
def setattrs_fill (E : errno_tab) (C : attr_consts) (env : setattrs_env) (attrs : attrlist) :
    Except fsal_status_t (stat × Nat) :=
  let st : stat := ⟨0, 0, 0, 0, 0, 0⟩
  let mask : Nat := 0
  let (st, mask) :=
    if FSAL_TEST_MASK attrs.mask C.ATTR_MODE then
      ({ st with st_mode := env.fsal2unix_mode attrs.mode }, mask ||| C.RGW_SETATTR_MODE)
    else (st, mask)
  let (st, mask) :=
    if FSAL_TEST_MASK attrs.mask C.ATTR_OWNER then
      ({ st with st_uid := attrs.owner }, mask ||| C.RGW_SETATTR_UID)
    else (st, mask)
  let (st, mask) :=
    if FSAL_TEST_MASK attrs.mask C.ATTR_GROUP then
      -- line 362: mask |= RGW_SETATTR_UID;
      ({ st with st_gid := attrs.group }, mask ||| C.RGW_SETATTR_UID)
    else (st, mask)
  let (st, mask) :=
    if FSAL_TEST_MASK attrs.mask C.ATTR_ATIME then
      ({ st with st_atim := attrs.atime }, mask ||| C.RGW_SETATTR_ATIME)
    else (st, mask)
  if FSAL_TEST_MASK attrs.mask C.ATTR_ATIME_SERVER ∧ env.clock_atime.1 ≠ 0 then
    .error (rgw2fsal_error E env.clock_atime.1)
  else
    let (st, mask) :=
      if FSAL_TEST_MASK attrs.mask C.ATTR_ATIME_SERVER then
        ({ st with st_atim := env.clock_atime.2 }, mask ||| C.RGW_SETATTR_ATIME)
      else (st, mask)
    let (st, mask) :=
      if FSAL_TEST_MASK attrs.mask C.ATTR_MTIME then
        ({ st with st_mtim := attrs.mtime }, mask ||| C.RGW_SETATTR_MTIME)
      else (st, mask)
    if FSAL_TEST_MASK attrs.mask C.ATTR_MTIME_SERVER ∧ env.clock_mtime.1 ≠ 0 then
      .error (rgw2fsal_error E env.clock_mtime.1)
    else
      let (st, mask) :=
        if FSAL_TEST_MASK attrs.mask C.ATTR_MTIME_SERVER then
          ({ st with st_mtim := env.clock_mtime.2 }, mask ||| C.RGW_SETATTR_MTIME)
        else (st, mask)
      let (st, mask) :=
        if FSAL_TEST_MASK attrs.mask C.ATTR_CTIME then
          ({ st with st_ctim := attrs.ctime }, mask ||| C.RGW_SETATTR_CTIME)
        else (st, mask)
      .ok (st, mask)

/-- `setattrs` (lines 317-406): the umask is applied to `attrs->mode`, masks
outside `rgw_settable_attributes` are refused, the size is set with
`rgw_truncate`, and the other attributes with one call of `rgw_setattr`. -/
def setattrs (E : errno_tab) (C : attr_consts) (env : setattrs_env) (attrs : attrlist) :
    setattrs_result :=
  let attrs : attrlist :=
    if FSAL_TEST_MASK attrs.mask C.ATTR_MODE then
      { attrs with mode := attrs.mode &&& (4294967295 - env.fs_umask % 4294967296) }
    else attrs
  if attrs.mask &&& (18446744073709551615 - C.rgw_settable_attributes % 18446744073709551616) ≠ 0
  then ⟨fsalstat ERR_FSAL_INVAL 0, none⟩
  else if FSAL_TEST_MASK attrs.mask C.ATTR_SIZE ∧ env.rgw_truncate < 0 then
    ⟨rgw2fsal_error E env.rgw_truncate, none⟩
  else
    match setattrs_fill E C env attrs with
    | .error status => ⟨status, none⟩
    | .ok (st, mask) =>
      if env.rgw_setattr < 0 then ⟨rgw2fsal_error E env.rgw_setattr, some (st, mask)⟩
      else ⟨fsalstat ERR_FSAL_NO_ERROR 0, some (st, mask)⟩

/-- Example values of the attribute constants: one bit each. -/
def example_attr_consts : attr_consts :=
  { ATTR_MODE := 1, ATTR_SIZE := 2, ATTR_OWNER := 4, ATTR_GROUP := 8, ATTR_ATIME := 16,
    ATTR_ATIME_SERVER := 32, ATTR_MTIME := 64, ATTR_MTIME_SERVER := 128, ATTR_CTIME := 256,
    rgw_settable_attributes := 511,
    RGW_SETATTR_MODE := 1, RGW_SETATTR_UID := 2, RGW_SETATTR_GID := 4,
    RGW_SETATTR_MTIME := 8, RGW_SETATTR_ATIME := 16, RGW_SETATTR_CTIME := 64 }

/-- An environment in which every call succeeds. -/
def example_env : setattrs_env :=
  { fs_umask := 18, rgw_truncate := 0, clock_atime := (0, 1000), clock_mtime := (0, 1000),
    rgw_setattr := 0, fsal2unix_mode := id }

/-- C29, the code at the failing input: a request that sets only the group
(`attrs->mask = ATTR_GROUP`, group 100) hands `rgw_setattr` the mask
`RGW_SETATTR_UID` with `st_uid = 0` and `st_gid = 100`: the owner is what the
library is told to change, and `RGW_SETATTR_GID` is not in the mask.  With
owner and group both requested the mask is `RGW_SETATTR_UID` alone as well; the
owner alone and the mode alone are handed over as asked. -/
theorem C29_group_sets_uid_bit :
    setattrs linux_errno example_attr_consts example_env ⟨8, 0, 0, 100, 0, 0, 0, 0⟩ =
      ⟨fsalstat ERR_FSAL_NO_ERROR 0, some (⟨0, 0, 100, 0, 0, 0⟩, 2)⟩ ∧
    (2 : Nat) = example_attr_consts.RGW_SETATTR_UID ∧
    (2 : Nat) &&& example_attr_consts.RGW_SETATTR_GID = 0 ∧
    (8 : Nat) &&& example_attr_consts.ATTR_GROUP ≠ 0 ∧
    (8 : Nat) &&& example_attr_consts.ATTR_OWNER = 0 ∧
    setattrs linux_errno example_attr_consts example_env ⟨12, 0, 7, 100, 0, 0, 0, 0⟩ =
      ⟨fsalstat ERR_FSAL_NO_ERROR 0, some (⟨0, 7, 100, 0, 0, 0⟩, 2)⟩ ∧
    setattrs linux_errno example_attr_consts example_env ⟨4, 0, 7, 100, 0, 0, 0, 0⟩ =
      ⟨fsalstat ERR_FSAL_NO_ERROR 0, some (⟨0, 7, 0, 0, 0, 0⟩, 2)⟩ ∧
    setattrs linux_errno example_attr_consts example_env ⟨1, 493, 7, 100, 0, 0, 0, 0⟩ =
      ⟨fsalstat ERR_FSAL_NO_ERROR 0, some (⟨493, 0, 0, 0, 0, 0⟩, 1)⟩ := by
  refine ⟨by decide, rfl, by decide, by decide, by decide, by decide, by decide, by decide⟩

end FSAL_RGW
/-! # The stacking FSAL: `FSAL/Stackable_FSALs/FSAL_NULL/handle.c` -/

namespace FSAL_NULL

/-- `FSAL_IS_ERROR(status)` of fsal_api.h (not among the sources): the major is
not `ERR_FSAL_NO_ERROR`. -/
def FSAL_IS_ERROR (status : fsal_status_t) : Bool :=
  decide (status.major ≠ ERR_FSAL_NO_ERROR)

/-- A handle of the sub-FSAL (`struct fsal_obj_handle`): its identity and the
fields the wrapper copies. -/
structure fsal_obj_handle where
  id : Nat
  type : Nat
  attrs : Nat
deriving DecidableEq, Repr

/-- `struct nullfs_fsal_export`: the address of the embedded `export` member
and the pointer `sub_export`. -/
structure nullfs_fsal_export where
  export_ : Nat
  sub_export : Nat
deriving DecidableEq, Repr

/-- `struct nullfs_fsal_obj_handle`: the embedded `obj_handle` (attributes,
type, filesystem, and the export it was initialized with) and `sub_handle`. -/
structure nullfs_fsal_obj_handle where
  attrs : Nat
  type : Nat
  fs : Option Nat
  obj_export : Nat
  sub_handle : fsal_obj_handle
deriving DecidableEq, Repr

/-- `nullfs_alloc_handle` (lines 64-85).  `alloc_ok` says whether `gsh_calloc`
returned memory. -/
def nullfs_alloc_handle (alloc_ok : Bool) (export_ : nullfs_fsal_export)
    (sub_handle : fsal_obj_handle) (fs : Option Nat) : Option nullfs_fsal_obj_handle :=
  if alloc_ok then
    some { attrs := sub_handle.attrs, type := sub_handle.type, fs := fs,
           obj_export := export_.export_, sub_handle := sub_handle }
  else none

/-- What `nullfs_alloc_and_check_handle` leaves: the status returned, the
content of `*new_handle`, whether line 121 assigned it, and the sub-FSAL
handles passed to `release`, in order. -/
structure alloc_result where
  status : fsal_status_t
  new_handle : Option nullfs_fsal_obj_handle
  written : Bool
  released : List fsal_obj_handle
deriving DecidableEq, Repr

/-- `nullfs_alloc_and_check_handle` (lines 102-125).  `sub_handle` is `none`
when the pointer does not refer to a handle (it is left unset by a sub-FSAL
call that failed); dereferencing it then has no defined result.  `new_handle`
is the content of `*new_handle` at the call. -/
def nullfs_alloc_and_check_handle (E : errno_tab) (alloc_ok : Bool)
    (export_ : nullfs_fsal_export) (sub_handle : Option fsal_obj_handle) (fs : Option Nat)
    (new_handle : Option nullfs_fsal_obj_handle) (subfsal_status : fsal_status_t) :
    Option alloc_result :=
  if !FSAL_IS_ERROR subfsal_status then
    match sub_handle with
    | none => none
    | some sh =>
      match nullfs_alloc_handle alloc_ok export_ sh fs with
      | none =>
        -- status = fsalstat(ERR_FSAL_NOMEM, ENOMEM); sub_handle->obj_ops.release(sub_handle);
        some ⟨fsalstat ERR_FSAL_NOMEM E.ENOMEM, new_handle, false, [sh]⟩
      | some null_handle =>
        -- *new_handle = &null_handle->obj_handle;
        some ⟨subfsal_status, some null_handle, true, []⟩
  else some ⟨subfsal_status, new_handle, false, []⟩

/-- C25 (result of `nullfs_alloc_and_check_handle`): when the sub-FSAL status is
an error it is returned unchanged, `*new_handle` is not written and the
sub-FSAL handle is neither read (the call is defined whatever the pointer is)
nor released; when it is a success and the wrapper is allocated, the status is
returned unchanged and `*new_handle` is written with a wrapper whose
`sub_handle`, type and attributes are those of the sub-FSAL handle, and nothing
is released; when it is a success and the allocation fails, the result is
`(ERR_FSAL_NOMEM, ENOMEM)`, `*new_handle` is not written and the sub-FSAL handle
is released exactly once.  So `*new_handle` is written exactly when the returned
status is a success. -/
theorem C25_alloc_and_check (E : errno_tab) (alloc_ok : Bool) (export_ : nullfs_fsal_export)
    (fs : Option Nat) (new_handle : Option nullfs_fsal_obj_handle) (st : fsal_status_t) :
    (FSAL_IS_ERROR st = true → ∀ sub_handle,
      nullfs_alloc_and_check_handle E alloc_ok export_ sub_handle fs new_handle st =
        some ⟨st, new_handle, false, []⟩) ∧
    (FSAL_IS_ERROR st = false → alloc_ok = true → ∀ sh,
      nullfs_alloc_and_check_handle E alloc_ok export_ (some sh) fs new_handle st =
        some ⟨st, some ⟨sh.attrs, sh.type, fs, export_.export_, sh⟩, true, []⟩) ∧
    (FSAL_IS_ERROR st = false → alloc_ok = false → ∀ sh,
      nullfs_alloc_and_check_handle E alloc_ok export_ (some sh) fs new_handle st =
        some ⟨fsalstat ERR_FSAL_NOMEM E.ENOMEM, new_handle, false, [sh]⟩) ∧
    (∀ sub_handle r,
      nullfs_alloc_and_check_handle E alloc_ok export_ sub_handle fs new_handle st = some r →
      (r.written = true ↔ FSAL_IS_ERROR r.status = false) ∧
      (r.status ≠ st → FSAL_IS_ERROR st = false ∧ alloc_ok = false ∧
        r.status = fsalstat ERR_FSAL_NOMEM E.ENOMEM ∧ r.released.length = 1) ∧
      (r.written = false → r.new_handle = new_handle) ∧
      (r.written = true → ∃ sh, sub_handle = some sh ∧ ∃ w, r.new_handle = some w ∧
        w.sub_handle = sh ∧ w.type = sh.type ∧ w.attrs = sh.attrs)) := by
  refine ⟨?_, ?_, ?_, ?_⟩
  · intro he sub_handle
    simp [nullfs_alloc_and_check_handle, he]
  · intro he ha sh
    simp [nullfs_alloc_and_check_handle, nullfs_alloc_handle, he, ha]
  · intro he ha sh
    simp [nullfs_alloc_and_check_handle, nullfs_alloc_handle, he, ha]
  · intro sub_handle r h
    unfold nullfs_alloc_and_check_handle at h
    cases he : FSAL_IS_ERROR st with
    | true =>
      simp only [he, Bool.not_true, Bool.false_eq_true, if_false, Option.some.injEq] at h
      subst h
      simp [he]
    | false =>
      simp only [he, Bool.not_false, if_true] at h
      cases sub_handle with
      | none => simp at h
      | some sh =>
        cases alloc_ok with
        | true =>
          simp only [nullfs_alloc_handle, if_true, Option.some.injEq] at h
          subst h
          simp [he]
        | false =>
          simp only [nullfs_alloc_handle, Bool.false_eq_true, if_false,
            Option.some.injEq] at h
          subst h
          simp [FSAL_IS_ERROR, fsalstat]

/-- The three cases on an example. -/
theorem alloc_examples :
    nullfs_alloc_and_check_handle linux_errno true ⟨1, 2⟩ none none none
        (fsalstat ERR_FSAL_NOENT 2) =
      some ⟨fsalstat ERR_FSAL_NOENT 2, none, false, []⟩ ∧
    nullfs_alloc_and_check_handle linux_errno true ⟨1, 2⟩ (some ⟨7, 1, 33⟩) (some 4) none
        (fsalstat ERR_FSAL_NO_ERROR 0) =
      some ⟨fsalstat ERR_FSAL_NO_ERROR 0, some ⟨33, 1, some 4, 1, ⟨7, 1, 33⟩⟩, true, []⟩ ∧
    nullfs_alloc_and_check_handle linux_errno false ⟨1, 2⟩ (some ⟨7, 1, 33⟩) (some 4) none
        (fsalstat ERR_FSAL_NO_ERROR 0) =
      some ⟨fsalstat ERR_FSAL_NOMEM 12, none, false, [⟨7, 1, 33⟩]⟩ := by
  refine ⟨by decide, by decide, by decide⟩

/-! ## The operation context across the delegating operations -/

/-- The methods of the sub-FSAL that the handle operations call. -/
inductive sub_method where
  | lookup
  | create
  | mkdir
  | mknode
  | symlink
  | readlink
  | link
  | readdir
  | rename
  | getattrs
  | setattrs
  | unlink
  | handle_digest
  | handle_to_key
  | release
deriving DecidableEq, Repr

/-- A call out of the stacking FSAL, with the value of `op_ctx->fsal_export` at
the moment of the call: a method of the sub-FSAL, or the callback of the upper
layer for a directory entry. -/
inductive ctx_event where
  | sub_call (m : sub_method) (fsal_export : Nat)
  | upper_cb (name : String) (fsal_export : Nat)
deriving DecidableEq, Repr

/-- The thread's `op_ctx->fsal_export` and the calls made so far. -/
structure null_world where
  fsal_export : Nat
  trace : List ctx_event
deriving DecidableEq, Repr

/-- What a method of the sub-FSAL answers: its status, the handle it stored (if
any), the directory entries it passes to the callback (for `readdir`), and what
it leaves in `op_ctx->fsal_export`. -/
structure sub_reply where
  status : fsal_status_t
  handle : Option fsal_obj_handle
  entries : List String
  fsal_export_after : Nat
deriving DecidableEq, Repr

/-- The sub-FSAL: what a method answers when called under a given
`op_ctx->fsal_export`. -/
abbrev sub_fsal := sub_method → Nat → sub_reply

/-- The assignment `op_ctx->fsal_export = e`. -/
def set_fsal_export (w : null_world) (e : Nat) : null_world := ⟨e, w.trace⟩

/-- A call of method `m` of the sub-FSAL. -/
def call_sub (sub : sub_fsal) (m : sub_method) (w : null_world) : sub_reply × null_world :=
  (sub m w.fsal_export,
    ⟨(sub m w.fsal_export).fsal_export_after, w.trace ++ [.sub_call m w.fsal_export]⟩)

/-- What an operation that creates a handle returns: the status, `*handle`, and
the context. -/
structure create_result where
  status : fsal_status_t
  handle : Option nullfs_fsal_obj_handle
  world : null_world
deriving DecidableEq, Repr

/-- The result of `nullfs_alloc_and_check_handle` as the result of the calling
operation; the `release` of the sub-FSAL handle made on an allocation failure is
a call of the sub-FSAL under the current context. -/
def wrap_result (w : null_world) : Option alloc_result → Option create_result
  | none => none
  | some a =>
    some ⟨a.status, a.new_handle,
      ⟨w.fsal_export, w.trace ++ a.released.map (fun _ => .sub_call .release w.fsal_export)⟩⟩

/-- `lookup` (lines 131-157): the sub-FSAL `lookup` under the sub-export, then the
wrapping of the handle it returned; `*handle` is NULL at that point. -/
def lookup (E : errno_tab) (exports : Nat → Option nullfs_fsal_export) (sub : sub_fsal)
    (alloc_ok : Bool) (fs : Option Nat) (w : null_world) : Option create_result :=
  match exports w.fsal_export with
  | none => none
  | some export_ =>
    -- op_ctx->fsal_export = export->sub_export;
    let w := set_fsal_export w export_.sub_export
    let (r, w) := call_sub sub .lookup w
    -- op_ctx->fsal_export = &export->export;
    let w := set_fsal_export w export_.export_
    wrap_result w (nullfs_alloc_and_check_handle E alloc_ok export_ r.handle fs none r.status)

/-- `create` (lines 159-186): the sub-FSAL `create` under the sub-export, then the
wrapping of the handle it returned; `*handle` is NULL at that point. -/
def create (E : errno_tab) (exports : Nat → Option nullfs_fsal_export) (sub : sub_fsal)
    (alloc_ok : Bool) (fs : Option Nat) (w : null_world) : Option create_result :=
  match exports w.fsal_export with
  | none => none
  | some export_ =>
    -- op_ctx->fsal_export = export->sub_export;
    let w := set_fsal_export w export_.sub_export
    let (r, w) := call_sub sub .create w
    -- op_ctx->fsal_export = &export->export;
    let w := set_fsal_export w export_.export_
    wrap_result w (nullfs_alloc_and_check_handle E alloc_ok export_ r.handle fs none r.status)

/-- `makedir` (lines 188-214): the sub-FSAL `mkdir` under the sub-export, then the
wrapping of the handle it returned; `*handle` is NULL at that point. -/
def makedir (E : errno_tab) (exports : Nat → Option nullfs_fsal_export) (sub : sub_fsal)
    (alloc_ok : Bool) (fs : Option Nat) (w : null_world) : Option create_result :=
  match exports w.fsal_export with
  | none => none
  | some export_ =>
    -- op_ctx->fsal_export = export->sub_export;
    let w := set_fsal_export w export_.sub_export
    let (r, w) := call_sub sub .mkdir w
    -- op_ctx->fsal_export = &export->export;
    let w := set_fsal_export w export_.export_
    wrap_result w (nullfs_alloc_and_check_handle E alloc_ok export_ r.handle fs none r.status)

/-- `makenode` (lines 216-246): the sub-FSAL `mknode` under the sub-export, then the
wrapping of the handle it returned; `*handle` is NULL at that point. -/
def makenode (E : errno_tab) (exports : Nat → Option nullfs_fsal_export) (sub : sub_fsal)
    (alloc_ok : Bool) (fs : Option Nat) (w : null_world) : Option create_result :=
  match exports w.fsal_export with
  | none => none
  | some export_ =>
    -- op_ctx->fsal_export = export->sub_export;
    let w := set_fsal_export w export_.sub_export
    let (r, w) := call_sub sub .mknode w
    -- op_ctx->fsal_export = &export->export;
    let w := set_fsal_export w export_.export_
    wrap_result w (nullfs_alloc_and_check_handle E alloc_ok export_ r.handle fs none r.status)

/-- `makesymlink` (lines 254-282): the sub-FSAL `symlink` under the sub-export, then the
wrapping of the handle it returned; `*handle` is NULL at that point. -/
def makesymlink (E : errno_tab) (exports : Nat → Option nullfs_fsal_export) (sub : sub_fsal)
    (alloc_ok : Bool) (fs : Option Nat) (w : null_world) : Option create_result :=
  match exports w.fsal_export with
  | none => none
  | some export_ =>
    -- op_ctx->fsal_export = export->sub_export;
    let w := set_fsal_export w export_.sub_export
    let (r, w) := call_sub sub .symlink w
    -- op_ctx->fsal_export = &export->export;
    let w := set_fsal_export w export_.export_
    wrap_result w (nullfs_alloc_and_check_handle E alloc_ok export_ r.handle fs none r.status)

/-- `readsymlink` (lines 284-302): the sub-FSAL `readlink` under the sub-export. -/
def readsymlink (exports : Nat → Option nullfs_fsal_export) (sub : sub_fsal) (w : null_world) :
    Option (fsal_status_t × null_world) :=
  match exports w.fsal_export with
  | none => none
  | some export_ =>
    -- op_ctx->fsal_export = export->sub_export;
    let w := set_fsal_export w export_.sub_export
    let (r, w) := call_sub sub .readlink w
    -- op_ctx->fsal_export = &export->export;
    let w := set_fsal_export w export_.export_
    some (r.status, w)

/-- `linkfile` (lines 304-323): the sub-FSAL `link` under the sub-export. -/
def linkfile (exports : Nat → Option nullfs_fsal_export) (sub : sub_fsal) (w : null_world) :
    Option (fsal_status_t × null_world) :=
  match exports w.fsal_export with
  | none => none
  | some export_ =>
    -- op_ctx->fsal_export = export->sub_export;
    let w := set_fsal_export w export_.sub_export
    let (r, w) := call_sub sub .link w
    -- op_ctx->fsal_export = &export->export;
    let w := set_fsal_export w export_.export_
    some (r.status, w)

/-- `renamefile` (lines 391-419): the sub-FSAL `rename` under the sub-export. -/
def renamefile (exports : Nat → Option nullfs_fsal_export) (sub : sub_fsal) (w : null_world) :
    Option (fsal_status_t × null_world) :=
  match exports w.fsal_export with
  | none => none
  | some export_ =>
    -- op_ctx->fsal_export = export->sub_export;
    let w := set_fsal_export w export_.sub_export
    let (r, w) := call_sub sub .rename w
    -- op_ctx->fsal_export = &export->export;
    let w := set_fsal_export w export_.export_
    some (r.status, w)

/-- `getattrs` (lines 421-438): the sub-FSAL `getattrs` under the sub-export. -/
def getattrs (exports : Nat → Option nullfs_fsal_export) (sub : sub_fsal) (w : null_world) :
    Option (fsal_status_t × null_world) :=
  match exports w.fsal_export with
  | none => none
  | some export_ =>
    -- op_ctx->fsal_export = export->sub_export;
    let w := set_fsal_export w export_.sub_export
    let (r, w) := call_sub sub .getattrs w
    -- op_ctx->fsal_export = &export->export;
    let w := set_fsal_export w export_.export_
    some (r.status, w)

/-- `setattrs` (lines 445-463): the sub-FSAL `setattrs` under the sub-export. -/
def setattrs (exports : Nat → Option nullfs_fsal_export) (sub : sub_fsal) (w : null_world) :
    Option (fsal_status_t × null_world) :=
  match exports w.fsal_export with
  | none => none
  | some export_ =>
    -- op_ctx->fsal_export = export->sub_export;
    let w := set_fsal_export w export_.sub_export
    let (r, w) := call_sub sub .setattrs w
    -- op_ctx->fsal_export = &export->export;
    let w := set_fsal_export w export_.export_
    some (r.status, w)

/-- `file_unlink` (lines 469-486): the sub-FSAL `unlink` under the sub-export. -/
def file_unlink (exports : Nat → Option nullfs_fsal_export) (sub : sub_fsal) (w : null_world) :
    Option (fsal_status_t × null_world) :=
  match exports w.fsal_export with
  | none => none
  | some export_ =>
    -- op_ctx->fsal_export = export->sub_export;
    let w := set_fsal_export w export_.sub_export
    let (r, w) := call_sub sub .unlink w
    -- op_ctx->fsal_export = &export->export;
    let w := set_fsal_export w export_.export_
    some (r.status, w)

/-- `handle_digest` (lines 495-514): the sub-FSAL `handle_digest` under the sub-export. -/
def handle_digest (exports : Nat → Option nullfs_fsal_export) (sub : sub_fsal) (w : null_world) :
    Option (fsal_status_t × null_world) :=
  match exports w.fsal_export with
  | none => none
  | some export_ =>
    -- op_ctx->fsal_export = export->sub_export;
    let w := set_fsal_export w export_.sub_export
    let (r, w) := call_sub sub .handle_digest w
    -- op_ctx->fsal_export = &export->export;
    let w := set_fsal_export w export_.export_
    some (r.status, w)

/-- `handle_to_key` (lines 523-538): the sub-FSAL `handle_to_key` under the sub-export. -/
def handle_to_key (exports : Nat → Option nullfs_fsal_export) (sub : sub_fsal) (w : null_world) :
    Option (fsal_status_t × null_world) :=
  match exports w.fsal_export with
  | none => none
  | some export_ =>
    -- op_ctx->fsal_export = export->sub_export;
    let w := set_fsal_export w export_.sub_export
    let (r, w) := call_sub sub .handle_to_key w
    -- op_ctx->fsal_export = &export->export;
    let w := set_fsal_export w export_.export_
    some (r.status, w)

/-- `release` (lines 545-563): the sub-FSAL `release` under the sub-export. -/
def release (exports : Nat → Option nullfs_fsal_export) (sub : sub_fsal) (w : null_world) :
    Option (fsal_status_t × null_world) :=
  match exports w.fsal_export with
  | none => none
  | some export_ =>
    -- op_ctx->fsal_export = export->sub_export;
    let w := set_fsal_export w export_.sub_export
    let (r, w) := call_sub sub .release w
    -- op_ctx->fsal_export = &export->export;
    let w := set_fsal_export w export_.export_
    some (r.status, w)

/-- `nullfs_readdir_cb` (lines 338-350): the callback `cb` of the upper layer
under the nullfs export of `state->exp`, then the sub-export again.  `cb` gives
its result and what it leaves in `op_ctx->fsal_export`. -/
def nullfs_readdir_cb (exp : nullfs_fsal_export) (cb : String → Nat → Bool × Nat)
    (name : String) (w : null_world) : Bool × null_world :=
  -- op_ctx->fsal_export = &state->exp->export;
  let w := set_fsal_export w exp.export_
  let result := cb name w.fsal_export
  let w : null_world := ⟨result.2, w.trace ++ [.upper_cb name w.fsal_export]⟩
  -- op_ctx->fsal_export = state->exp->sub_export;
  let w := set_fsal_export w exp.sub_export
  (result.1, w)

/-- The sub-FSAL's `readdir` passing its entries to the callback until the
callback returns false. -/
def sub_readdir_loop (cbf : String → null_world → Bool × null_world) :
    List String → null_world → null_world
  | [], w => w
  | name :: rest, w =>
    if (cbf name w).1 then sub_readdir_loop cbf rest (cbf name w).2 else (cbf name w).2

/-- `read_dirents` (lines 363-389): the sub-FSAL `readdir` under the sub-export,
with `nullfs_readdir_cb` as its callback. -/
def read_dirents (exports : Nat → Option nullfs_fsal_export) (sub : sub_fsal)
    (cb : String → Nat → Bool × Nat) (w : null_world) : Option (fsal_status_t × null_world) :=
  match exports w.fsal_export with
  | none => none
  | some export_ =>
    -- op_ctx->fsal_export = export->sub_export;
    let w := set_fsal_export w export_.sub_export
    -- the sub-FSAL is entered, calls back for its entries, and returns
    let r := sub .readdir w.fsal_export
    let w : null_world := ⟨w.fsal_export, w.trace ++ [.sub_call .readdir w.fsal_export]⟩
    let w := sub_readdir_loop (nullfs_readdir_cb export_ cb) r.entries w
    let w : null_world := ⟨r.fsal_export_after, w.trace⟩
    -- op_ctx->fsal_export = &export->export;
    let w := set_fsal_export w export_.export_
    some (r.status, w)

/-- What a handle-creating operation leaves: the context is the nullfs export
again, the sub-FSAL method `m` was called under the sub-export, and the only
calls after it are the `release` of the sub-FSAL handle that
`nullfs_alloc_and_check_handle` makes when the allocation failed (under the
restored context). -/
def created (m : sub_method) (E : errno_tab) (exp : nullfs_fsal_export) (w : null_world)
    (r : create_result) : Prop :=
  r.world.fsal_export = exp.export_ ∧
  ∃ cleanup, r.world.trace = w.trace ++ .sub_call m exp.sub_export :: cleanup ∧
    (∀ e ∈ cleanup, e = .sub_call .release exp.export_) ∧
    (cleanup ≠ [] → r.status = fsalstat ERR_FSAL_NOMEM E.ENOMEM)

/-- The common shape of `lookup`, `create`, `makedir`, `makenode` and
`makesymlink`. -/
def delegate_create (m : sub_method) (E : errno_tab) (exports : Nat → Option nullfs_fsal_export)
    (sub : sub_fsal) (alloc_ok : Bool) (fs : Option Nat) (w : null_world) :
    Option create_result :=
  match exports w.fsal_export with
  | none => none
  | some export_ =>
    let w := set_fsal_export w export_.sub_export
    let (r, w) := call_sub sub m w
    let w := set_fsal_export w export_.export_
    wrap_result w (nullfs_alloc_and_check_handle E alloc_ok export_ r.handle fs none r.status)

theorem delegate_create_eq :
    lookup = delegate_create .lookup ∧ create = delegate_create .create ∧
    makedir = delegate_create .mkdir ∧ makenode = delegate_create .mknode ∧
    makesymlink = delegate_create .symlink :=
  ⟨rfl, rfl, rfl, rfl, rfl⟩

theorem created_spec (E : errno_tab) (m : sub_method)
    (exports : Nat → Option nullfs_fsal_export) (sub : sub_fsal) (alloc_ok : Bool)
    (fs : Option Nat) (w : null_world) (export_ : nullfs_fsal_export)
    (hexp : exports w.fsal_export = some export_) (r : create_result)
    (h : delegate_create m E exports sub alloc_ok fs w = some r) : created m E export_ w r := by
  simp only [delegate_create, hexp, set_fsal_export, call_sub] at h
  cases ha : nullfs_alloc_and_check_handle E alloc_ok export_
      (sub m export_.sub_export).handle fs none (sub m export_.sub_export).status with
  | none => rw [ha] at h; simp [wrap_result] at h
  | some a =>
    rw [ha] at h
    simp only [wrap_result, Option.some.injEq] at h
    subst h
    refine ⟨rfl, a.released.map (fun _ => .sub_call .release export_.export_), ?_, ?_, ?_⟩
    · simp
    · intro e he
      obtain ⟨_, _, rfl⟩ := List.mem_map.mp he
      rfl
    · intro hne
      have hrel : a.released ≠ [] := by
        intro hnil
        rw [hnil] at hne
        exact hne rfl
      unfold nullfs_alloc_and_check_handle at ha
      split at ha
      · split at ha
        · cases ha
        · split at ha
          · cases ha; rfl
          · cases ha; exact absurd rfl hrel
      · cases ha; exact absurd rfl hrel

/-- The answer of the sub-FSAL gives `nullfs_alloc_and_check_handle` nothing
undefined to read: it is an error, or it comes with a handle. -/
def sub_ok (r : sub_reply) : Prop := FSAL_IS_ERROR r.status = true ∨ r.handle ≠ none

theorem created_defined (E : errno_tab) (m : sub_method)
    (exports : Nat → Option nullfs_fsal_export) (sub : sub_fsal) (alloc_ok : Bool)
    (fs : Option Nat) (w : null_world) (export_ : nullfs_fsal_export)
    (hexp : exports w.fsal_export = some export_) (hok : sub_ok (sub m export_.sub_export)) :
    (delegate_create m E exports sub alloc_ok fs w).isSome := by
  simp only [delegate_create, hexp, set_fsal_export, call_sub]
  rcases hok with he | hh
  · simp [nullfs_alloc_and_check_handle, he, wrap_result]
  · cases hs : (sub m export_.sub_export).handle with
    | none => exact absurd hs hh
    | some sh =>
      cases he : FSAL_IS_ERROR (sub m export_.sub_export).status <;>
        cases alloc_ok <;>
        simp [nullfs_alloc_and_check_handle, nullfs_alloc_handle, he, wrap_result]

theorem readdir_loop_spec (exp : nullfs_fsal_export) (cb : String → Nat → Bool × Nat) :
    ∀ (entries : List String) (w : null_world),
      ∃ cbs, (sub_readdir_loop (nullfs_readdir_cb exp cb) entries w).trace = w.trace ++ cbs ∧
        ∀ e ∈ cbs, ∃ name, e = .upper_cb name exp.export_ := by
  intro entries
  induction entries with
  | nil => intro w; exact ⟨[], by simp [sub_readdir_loop], fun _ h => by cases h⟩
  | cons n ns ih =>
    intro w
    unfold sub_readdir_loop
    split
    · obtain ⟨cbs, h1, h2⟩ := ih (nullfs_readdir_cb exp cb n w).2
      refine ⟨.upper_cb n exp.export_ :: cbs, ?_, ?_⟩
      · rw [h1]
        simp [nullfs_readdir_cb, set_fsal_export]
      · intro e he
        rcases List.mem_cons.mp he with rfl | he
        · exact ⟨n, rfl⟩
        · exact h2 e he
    · refine ⟨[.upper_cb n exp.export_], ?_, ?_⟩
      · simp [nullfs_readdir_cb, set_fsal_export]
      · intro e he
        rw [List.mem_singleton] at he
        exact ⟨n, he⟩

/-- The part of the context discipline that the code keeps: when
`op_ctx->fsal_export` is the nullfs export at the call, each delegating handle
operation calls the method it delegates to with `op_ctx->fsal_export` equal to
the sub-export and returns with `op_ctx->fsal_export` equal to the nullfs
export, whatever the sub-FSAL answered and left there (the operations that
create a handle are defined unless the sub-FSAL reported success without a
handle, and the `release` they make on an allocation failure is under the
nullfs export); `read_dirents` runs every callback of the upper layer under the
nullfs export, and `nullfs_readdir_cb` puts the sub-export back before it
returns. -/
theorem context_restored (E : errno_tab) (exports : Nat → Option nullfs_fsal_export)
    (sub : sub_fsal) (cb : String → Nat → Bool × Nat) (alloc_ok : Bool) (fs : Option Nat)
    (w : null_world) (export_ : nullfs_fsal_export)
    (hexp : exports w.fsal_export = some export_) (hctx : export_.export_ = w.fsal_export) :
    (readsymlink exports sub w = some ((sub .readlink export_.sub_export).status,
      ⟨export_.export_, w.trace ++ [.sub_call .readlink export_.sub_export]⟩)) ∧
    (linkfile exports sub w = some ((sub .link export_.sub_export).status,
      ⟨export_.export_, w.trace ++ [.sub_call .link export_.sub_export]⟩)) ∧
    (renamefile exports sub w = some ((sub .rename export_.sub_export).status,
      ⟨export_.export_, w.trace ++ [.sub_call .rename export_.sub_export]⟩)) ∧
    (getattrs exports sub w = some ((sub .getattrs export_.sub_export).status,
      ⟨export_.export_, w.trace ++ [.sub_call .getattrs export_.sub_export]⟩)) ∧
    (setattrs exports sub w = some ((sub .setattrs export_.sub_export).status,
      ⟨export_.export_, w.trace ++ [.sub_call .setattrs export_.sub_export]⟩)) ∧
    (file_unlink exports sub w = some ((sub .unlink export_.sub_export).status,
      ⟨export_.export_, w.trace ++ [.sub_call .unlink export_.sub_export]⟩)) ∧
    (handle_digest exports sub w = some ((sub .handle_digest export_.sub_export).status,
      ⟨export_.export_, w.trace ++ [.sub_call .handle_digest export_.sub_export]⟩)) ∧
    (handle_to_key exports sub w = some ((sub .handle_to_key export_.sub_export).status,
      ⟨export_.export_, w.trace ++ [.sub_call .handle_to_key export_.sub_export]⟩)) ∧
    (release exports sub w = some ((sub .release export_.sub_export).status,
      ⟨export_.export_, w.trace ++ [.sub_call .release export_.sub_export]⟩)) ∧
    ((sub_ok (sub .lookup export_.sub_export) → (lookup E exports sub alloc_ok fs w).isSome) ∧
      ∀ r, lookup E exports sub alloc_ok fs w = some r → created .lookup E export_ w r) ∧
    ((sub_ok (sub .create export_.sub_export) → (create E exports sub alloc_ok fs w).isSome) ∧
      ∀ r, create E exports sub alloc_ok fs w = some r → created .create E export_ w r) ∧
    ((sub_ok (sub .mkdir export_.sub_export) → (makedir E exports sub alloc_ok fs w).isSome) ∧
      ∀ r, makedir E exports sub alloc_ok fs w = some r → created .mkdir E export_ w r) ∧
    ((sub_ok (sub .mknode export_.sub_export) → (makenode E exports sub alloc_ok fs w).isSome) ∧
      ∀ r, makenode E exports sub alloc_ok fs w = some r → created .mknode E export_ w r) ∧
    ((sub_ok (sub .symlink export_.sub_export) → (makesymlink E exports sub alloc_ok fs w).isSome) ∧
      ∀ r, makesymlink E exports sub alloc_ok fs w = some r → created .symlink E export_ w r) ∧
    (∃ cbs, read_dirents exports sub cb w = some ((sub .readdir export_.sub_export).status,
        ⟨export_.export_, w.trace ++ .sub_call .readdir export_.sub_export :: cbs⟩) ∧
      ∀ e ∈ cbs, ∃ name, e = .upper_cb name export_.export_) ∧
    (∀ name w0, nullfs_readdir_cb export_ cb name w0 =
      ((cb name export_.export_).1,
        ⟨export_.sub_export, w0.trace ++ [.upper_cb name export_.export_]⟩)) := by
  refine ⟨?_, ?_, ?_, ?_, ?_, ?_, ?_, ?_, ?_, ?_, ?_, ?_, ?_, ?_, ?_, ?_⟩
  · simp only [readsymlink, hexp, set_fsal_export, call_sub]
  · simp only [linkfile, hexp, set_fsal_export, call_sub]
  · simp only [renamefile, hexp, set_fsal_export, call_sub]
  · simp only [getattrs, hexp, set_fsal_export, call_sub]
  · simp only [setattrs, hexp, set_fsal_export, call_sub]
  · simp only [file_unlink, hexp, set_fsal_export, call_sub]
  · simp only [handle_digest, hexp, set_fsal_export, call_sub]
  · simp only [handle_to_key, hexp, set_fsal_export, call_sub]
  · simp only [release, hexp, set_fsal_export, call_sub]
  · refine ⟨created_defined E .lookup exports sub alloc_ok fs w export_ hexp, ?_⟩
    intro r h
    exact created_spec E .lookup exports sub alloc_ok fs w export_ hexp r h
  · refine ⟨created_defined E .create exports sub alloc_ok fs w export_ hexp, ?_⟩
    intro r h
    exact created_spec E .create exports sub alloc_ok fs w export_ hexp r h
  · refine ⟨created_defined E .mkdir exports sub alloc_ok fs w export_ hexp, ?_⟩
    intro r h
    exact created_spec E .mkdir exports sub alloc_ok fs w export_ hexp r h
  · refine ⟨created_defined E .mknode exports sub alloc_ok fs w export_ hexp, ?_⟩
    intro r h
    exact created_spec E .mknode exports sub alloc_ok fs w export_ hexp r h
  · refine ⟨created_defined E .symlink exports sub alloc_ok fs w export_ hexp, ?_⟩
    intro r h
    exact created_spec E .symlink exports sub alloc_ok fs w export_ hexp r h
  · obtain ⟨cbs, h1, h2⟩ := readdir_loop_spec export_ cb
      (sub .readdir export_.sub_export).entries
      ⟨export_.sub_export, w.trace ++ [.sub_call .readdir export_.sub_export]⟩
    refine ⟨cbs, ?_, h2⟩
    simp only [read_dirents, hexp, set_fsal_export]
    rw [h1]
    simp
  · intro name w0
    simp [nullfs_readdir_cb, set_fsal_export]

/-- The exports of the example: the nullfs export at address 1 over the
sub-export at address 2. -/
def example_exports : Nat → Option nullfs_fsal_export :=
  fun p => if p = 1 then some ⟨1, 2⟩ else none

/-- A sub-FSAL that succeeds, returns a handle, lists two entries, and leaves
another value in `op_ctx->fsal_export`. -/
def example_sub : sub_fsal :=
  fun _ _ => ⟨fsalstat ERR_FSAL_NO_ERROR 0, some ⟨7, 1, 33⟩, ["a", "b"], 99⟩

/-- An upper-layer callback that asks for more and leaves another value in
`op_ctx->fsal_export`. -/
def example_cb : String → Nat → Bool × Nat := fun _ _ => (true, 55)

/-- The example: `lookup` with a failing allocation, `read_dirents` over two
entries, and `readsymlink`. -/
theorem context_restored_example :
    example_exports (⟨1, []⟩ : null_world).fsal_export = some ⟨1, 2⟩ ∧
    (⟨1, 2⟩ : nullfs_fsal_export).export_ = (⟨1, []⟩ : null_world).fsal_export ∧
    lookup linux_errno example_exports example_sub false none ⟨1, []⟩ =
      some ⟨fsalstat ERR_FSAL_NOMEM 12, none,
        ⟨1, [.sub_call .lookup 2, .sub_call .release 1]⟩⟩ ∧
    read_dirents example_exports example_sub example_cb ⟨1, []⟩ =
      some (fsalstat ERR_FSAL_NO_ERROR 0,
        ⟨1, [.sub_call .readdir 2, .upper_cb "a" 1, .upper_cb "b" 1]⟩) ∧
    readsymlink example_exports example_sub ⟨1, []⟩ =
      some ((example_sub .readlink (⟨1, 2⟩ : nullfs_fsal_export).sub_export).status,
        ⟨(⟨1, 2⟩ : nullfs_fsal_export).export_, (⟨1, []⟩ : null_world).trace ++
          [.sub_call .readlink (⟨1, 2⟩ : nullfs_fsal_export).sub_export]⟩) :=
  ⟨rfl, rfl, by decide, by decide,
    (context_restored linux_errno example_exports example_sub example_cb false none
      ⟨1, []⟩ ⟨1, 2⟩ rfl rfl).1⟩

/-! ## The cleanup `release` after a failed allocation -/

theorem cleanup_release (E : errno_tab) (m : sub_method)
    (exports : Nat → Option nullfs_fsal_export) (sub : sub_fsal) (fs : Option Nat)
    (w : null_world) (export_ : nullfs_fsal_export) (sh : fsal_obj_handle)
    (hexp : exports w.fsal_export = some export_)
    (hok : FSAL_IS_ERROR (sub m export_.sub_export).status = false)
    (hh : (sub m export_.sub_export).handle = some sh) :
    delegate_create m E exports sub false fs w =
      some ⟨fsalstat ERR_FSAL_NOMEM E.ENOMEM, none,
        ⟨export_.export_,
          w.trace ++ [.sub_call m export_.sub_export, .sub_call .release export_.export_]⟩⟩ := by
  simp [delegate_create, hexp, set_fsal_export, call_sub, nullfs_alloc_and_check_handle,
    nullfs_alloc_handle, hok, hh, wrap_result]

/-- C27, the code at the failing input: `lookup` under the nullfs export at
address 1 (sub-export at address 2), with a sub-FSAL `lookup` that succeeds and
an allocation of the wrapper that fails.  The sub-FSAL `lookup` runs under the
sub-export, the context is restored, and then `nullfs_alloc_and_check_handle`
calls the sub-FSAL `release` under the nullfs export: a sub-FSAL method runs
with `op_ctx->fsal_export` equal to the nullfs export.  The same holds for
`create`, `makedir`, `makenode` and `makesymlink`, and for every sub-FSAL and
export on that path; the operation `release` itself calls the sub-FSAL
`release` under the sub-export. -/
theorem C27_release_under_nullfs_export :
    lookup linux_errno example_exports example_sub false none ⟨1, []⟩ =
      some ⟨fsalstat ERR_FSAL_NOMEM 12, none,
        ⟨1, [.sub_call .lookup 2, .sub_call .release 1]⟩⟩ ∧
    example_exports 1 = some ⟨1, 2⟩ ∧
    create linux_errno example_exports example_sub false none ⟨1, []⟩ =
      some ⟨fsalstat ERR_FSAL_NOMEM 12, none,
        ⟨1, [.sub_call .create 2, .sub_call .release 1]⟩⟩ ∧
    makedir linux_errno example_exports example_sub false none ⟨1, []⟩ =
      some ⟨fsalstat ERR_FSAL_NOMEM 12, none,
        ⟨1, [.sub_call .mkdir 2, .sub_call .release 1]⟩⟩ ∧
    makenode linux_errno example_exports example_sub false none ⟨1, []⟩ =
      some ⟨fsalstat ERR_FSAL_NOMEM 12, none,
        ⟨1, [.sub_call .mknode 2, .sub_call .release 1]⟩⟩ ∧
    makesymlink linux_errno example_exports example_sub false none ⟨1, []⟩ =
      some ⟨fsalstat ERR_FSAL_NOMEM 12, none,
        ⟨1, [.sub_call .symlink 2, .sub_call .release 1]⟩⟩ ∧
    release example_exports example_sub ⟨1, []⟩ =
      some (fsalstat ERR_FSAL_NO_ERROR 0, ⟨1, [.sub_call .release 2]⟩) ∧
    lookup linux_errno example_exports example_sub true none ⟨1, []⟩ =
      some ⟨fsalstat ERR_FSAL_NO_ERROR 0, some ⟨33, 1, none, 1, ⟨7, 1, 33⟩⟩,
        ⟨1, [.sub_call .lookup 2]⟩⟩ ∧
    (∀ (E : errno_tab) (exports : Nat → Option nullfs_fsal_export) (sub : sub_fsal)
      (fs : Option Nat) (w : null_world) (export_ : nullfs_fsal_export)
      (sh : fsal_obj_handle),
      exports w.fsal_export = some export_ → export_.export_ = w.fsal_export →
      FSAL_IS_ERROR (sub .lookup export_.sub_export).status = false →
      (sub .lookup export_.sub_export).handle = some sh →
      lookup E exports sub false fs w =
        some ⟨fsalstat ERR_FSAL_NOMEM E.ENOMEM, none,
          ⟨export_.export_, w.trace ++
            [.sub_call .lookup export_.sub_export, .sub_call .release export_.export_]⟩⟩) := by
  refine ⟨by decide, rfl, by decide, by decide, by decide, by decide, by decide, by decide, ?_⟩
  intro E exports sub fs w export_ sh hexp _ hok hh
  exact cleanup_release E .lookup exports sub fs w export_ sh hexp hok hh

end FSAL_NULL

end Ganesha
